/-
Verification of the ranking-dsl engine (C++ sources under src/engine/src)
against its natural-language specification.

Shallow embedding conventions:
  * `float` scalars are modelled as exact rationals (ℚ).  None of the claims
    under consideration depends on IEEE rounding; `static_cast<float>(int64)`
    is modelled as the canonical embedding of Int into ℚ, and `std::sqrt` is
    passed around as an uninterpreted function parameter.
  * `std::shared_ptr<TypedColumn>` handles are modelled as indices (`Ptr`)
    into an explicit heap (`Heap := List Column`).  Handle identity is index
    equality; `Clone()`/`make_shared` allocate at the end of the heap, and
    mutation through a handle is `List.set` at that index.  Dereferencing an
    unallocated index — impossible in the C++ for well-formed states — is
    modelled by `Option`.
  * C++ exceptions become `Except EngineError`; each distinct throw site gets
    its own constructor.
  * `int64_t` values carry no arithmetic in the verified claims, so they are
    modelled as `Int`.
-/
import Mathlib

namespace RankingDsl

/-! ### Errors

Each constructor corresponds to one family of `throw` sites in the C++
sources (`std::out_of_range` / `std::runtime_error` with distinct messages). -/

inductive EngineError where
  | outOfRange
  | typeMismatchValue
  | dimensionMismatch
  | unknownKey (id : Int)
  | writeNotDeclared (id : Int)
  | typeMismatchKey (id : Int)
  | budgetBytes
  | budgetCells
  | traceKeyTooLong
  | traceKeyBadChar
  | missingNodeField
  | moduleParamMissing
  | moduleOpenFailed (path : String)
  | danglingHandle
deriving DecidableEq

/-! ### Value and key/column types (object/value.h, keys/generated/keys.h) -/

/-- `keys::KeyType` from src/keys/generated/keys.h. -/
inductive KeyType where
  | boolK | i64 | f32 | stringK | bytes | f32vec
deriving DecidableEq

/-- The `Value` variant (object/value.h): tagged union of the seven cases. -/
inductive Value where
  | null
  | boolV (b : Bool)
  | i64V (n : Int)
  | f32V (x : ℚ)
  | stringV (s : String)
  | bytesV (bs : List Nat)
  | f32vecV (v : List ℚ)
deriving DecidableEq

/-- `IsNull(value)`. -/
def Value.isNull : Value → Bool
  | .null => true
  | _ => false

/-- `ColumnType` from object/typed_column.h. -/
inductive ColumnType where
  | f32 | i64 | boolT | stringT | f32vec | bytes | nullT
deriving DecidableEq

/-- `KeyTypeToColumnType` (batch_builder.cpp, anonymous namespace). -/
def keyTypeToColumnType : KeyType → ColumnType
  | .boolK => .boolT
  | .i64 => .i64
  | .f32 => .f32
  | .stringK => .stringT
  | .bytes => .bytes
  | .f32vec => .f32vec

/-- `InferColumnType` (batch_builder.cpp, anonymous namespace). -/
def inferColumnType : Value → ColumnType
  | .f32V _ => .f32
  | .i64V _ => .i64
  | .boolV _ => .boolT
  | .stringV _ => .stringT
  | .f32vecV _ => .f32vec
  | .bytesV _ => .bytes
  | .null => .nullT

/-! ### Typed columns (object/typed_column.h / .cpp)

The five per-row typed columns (F32, I64, Bool, String, Bytes) share one
storage shape in C++ — a data vector plus a null mask of the same length —
so they are factored through `BoxedCol`.  F32VecColumn keeps its flat
row-major `N×D` float buffer and per-row null mask. -/

structure BoxedCol (τ : Type) where
  data : List τ
  nullMask : List Bool
deriving DecidableEq

namespace BoxedCol

variable {τ : Type}

/-- `Size()` — the data vector's length. -/
def size (c : BoxedCol τ) : Nat := c.data.length

/-- `IsNull(i)`: `row_index >= data_.size() || null_mask_[row_index]`. -/
def isNull (c : BoxedCol τ) (i : Nat) : Bool :=
  decide (c.size ≤ i) || c.nullMask.getD i false

/-- In-range write of a value (`some v`) or of null (`none`); the bounds
check lives at the `Column` level, mirroring the C++ `SetValue` bodies. -/
def write (c : BoxedCol τ) (i : Nat) (x : Option τ) : BoxedCol τ :=
  match x with
  | some v => ⟨c.data.set i v, c.nullMask.set i false⟩
  | none => ⟨c.data, c.nullMask.set i true⟩

/-- A freshly constructed column of `n` rows: all rows marked null. -/
def fresh [Inhabited τ] (n : Nat) : BoxedCol τ :=
  ⟨List.replicate n default, List.replicate n true⟩

end BoxedCol

/-- Number of rows of a flat `N×D` buffer: `dim_ > 0 ? data_.size() / dim_ : 0`. -/
def vecSize (data : List ℚ) (dim : Nat) : Nat :=
  if 0 < dim then data.length / dim else 0

/-- `F32VecColumn::Get(row)` — the row slice `[row*dim, row*dim+dim)`. -/
def vecGetRow (data : List ℚ) (dim : Nat) (i : Nat) : List ℚ :=
  (data.drop (i * dim)).take dim

/-- `F32VecColumn::Set(row, value)` — `std::copy` of `value` into the slice. -/
def vecSetRow (data : List ℚ) (dim : Nat) (i : Nat) (v : List ℚ) : List ℚ :=
  data.take (i * dim) ++ v ++ data.drop (i * dim + dim)

/-- A `TypedColumn` object: one variant per concrete subclass. -/
inductive Column where
  | f32 (c : BoxedCol ℚ)
  | i64 (c : BoxedCol Int)
  | boolC (c : BoxedCol Bool)
  | stringC (c : BoxedCol String)
  | f32vec (data : List ℚ) (dim : Nat) (nullMask : List Bool)
  | bytesC (c : BoxedCol (List Nat))
deriving DecidableEq

namespace Column

/-- `Type()`. -/
def type : Column → ColumnType
  | .f32 _ => .f32
  | .i64 _ => .i64
  | .boolC _ => .boolT
  | .stringC _ => .stringT
  | .f32vec _ _ _ => .f32vec
  | .bytesC _ => .bytes

/-- `Size()`. -/
def size : Column → Nat
  | .f32 c => c.size
  | .i64 c => c.size
  | .boolC c => c.size
  | .stringC c => c.size
  | .f32vec d dim _ => vecSize d dim
  | .bytesC c => c.size

/-- `IsNull(i)`. -/
def isNull : Column → Nat → Bool
  | .f32 c, i => c.isNull i
  | .i64 c, i => c.isNull i
  | .boolC c, i => c.isNull i
  | .stringC c, i => c.isNull i
  | .f32vec d dim m, i => decide (vecSize d dim ≤ i) || m.getD i false
  | .bytesC c, i => c.isNull i

/-- `GetValue(i)`: null when out of range or masked, else the stored value. -/
def getValue (col : Column) (i : Nat) : Value :=
  if col.isNull i then .null
  else
    match col with
    | .f32 c => .f32V (c.data.getD i 0)
    | .i64 c => .i64V (c.data.getD i 0)
    | .boolC c => .boolV (c.data.getD i false)
    | .stringC c => .stringV (c.data.getD i "")
    | .f32vec d dim _ => .f32vecV (vecGetRow d dim i)
    | .bytesC c => .bytesV (c.data.getD i [])

/-- `SetValue(i, value)`: bounds check first, then dispatch on the value's
runtime type (null always accepted; F32Vec additionally checks the row's
dimension). -/
def setValue (col : Column) (i : Nat) (v : Value) : Except EngineError Column :=
  if col.size ≤ i then .error .outOfRange
  else
    match col, v with
    | .f32 c, .f32V x => .ok (.f32 (c.write i (some x)))
    | .f32 c, .null => .ok (.f32 (c.write i none))
    | .f32 _, _ => .error .typeMismatchValue
    | .i64 c, .i64V n => .ok (.i64 (c.write i (some n)))
    | .i64 c, .null => .ok (.i64 (c.write i none))
    | .i64 _, _ => .error .typeMismatchValue
    | .boolC c, .boolV b => .ok (.boolC (c.write i (some b)))
    | .boolC c, .null => .ok (.boolC (c.write i none))
    | .boolC _, _ => .error .typeMismatchValue
    | .stringC c, .stringV s => .ok (.stringC (c.write i (some s)))
    | .stringC c, .null => .ok (.stringC (c.write i none))
    | .stringC _, _ => .error .typeMismatchValue
    | .f32vec d dim m, .f32vecV v' =>
        if v'.length ≠ dim then .error .dimensionMismatch
        else .ok (.f32vec (vecSetRow d dim i v') dim (m.set i false))
    | .f32vec d dim m, .null => .ok (.f32vec d dim (m.set i true))
    | .f32vec _ _ _, _ => .error .typeMismatchValue
    | .bytesC c, .bytesV bs => .ok (.bytesC (c.write i (some bs)))
    | .bytesC c, .null => .ok (.bytesC (c.write i none))
    | .bytesC _, _ => .error .typeMismatchValue

/-- `I64Column::Get(i)` fast accessor (callers null-check first). -/
def getI64 : Column → Nat → Int
  | .i64 c, i => c.data.getD i 0
  | _, _ => 0

/-- `F32Column::Get(i)` fast accessor (callers null-check first). -/
def getF32 : Column → Nat → ℚ
  | .f32 c, i => c.data.getD i 0
  | _, _ => 0

/-- `F32VecColumn::Dim()` (0 on other variants, which never occurs). -/
def dimOf : Column → Nat
  | .f32vec _ dim _ => dim
  | _ => 0

end Column

/-- `MakeTypedColumn(type, row_count, dim)` (typed_column.cpp); creating a
column of type Null throws, hence `none`. -/
def makeTypedColumn (t : ColumnType) (n : Nat) (dim : Nat := 0) : Option Column :=
  match t with
  | .f32 => some (.f32 (BoxedCol.fresh n))
  | .i64 => some (.i64 (BoxedCol.fresh n))
  | .boolT => some (.boolC (BoxedCol.fresh n))
  | .stringT => some (.stringC (BoxedCol.fresh n))
  | .f32vec => some (.f32vec (List.replicate (n * dim) 0) dim (List.replicate n true))
  | .bytes => some (.bytesC (BoxedCol.fresh n))
  | .nullT => none

/-! ### Heap of shared column handles -/

abbrev Ptr := Nat
abbrev Heap := List Column

/-- `make_shared` / `Clone()` allocation: the new handle is the next index. -/
def heapAlloc (h : Heap) (c : Column) : Heap × Ptr := (h ++ [c], h.length)

/-- Dereference a handle. -/
def heapGet (h : Heap) (p : Ptr) : Option Column := h[p]?

/-- Mutate the object behind a handle. -/
def heapSet (h : Heap) (p : Ptr) (c : Column) : Heap := h.set p c

/-! ### ColumnBatch (object/column_batch.h / .cpp) -/

/-- `unordered_map` insertion-or-assignment `m[k] = v` on an association
list with unique keys. -/
def assocSet {β : Type} : List (Int × β) → Int → β → List (Int × β)
  | [], k, v => [(k, v)]
  | (k', v') :: t, k, v =>
      if k' = k then (k, v) :: t else (k', v') :: assocSet t k v

/-- A batch: a row count plus a mapping from key-id to shared column handle. -/
structure ColumnBatch where
  rowCount : Nat := 0
  columns : List (Int × Ptr) := []
deriving DecidableEq

namespace ColumnBatch

/-- `GetColumn(key_id)` as a handle — `nullptr` becomes `none`. -/
def getColumnPtr (b : ColumnBatch) (k : Int) : Option Ptr := b.columns.lookup k

/-- `HasColumn(key_id)`. -/
def hasColumn (b : ColumnBatch) (k : Int) : Bool := (b.getColumnPtr k).isSome

/-- `SetColumn(key_id, column)`. -/
def setColumn (b : ColumnBatch) (k : Int) (p : Ptr) : ColumnBatch :=
  { b with columns := assocSet b.columns k p }

/-- `ColumnKeys()`. -/
def columnKeys (b : ColumnBatch) : List Int := b.columns.map (·.1)

end ColumnBatch

/-- `GetColumn(key_id)` dereferenced through the heap. -/
def batchGetColumn (h : Heap) (b : ColumnBatch) (k : Int) : Option Column :=
  (b.getColumnPtr k).bind (heapGet h)

/-- The typed fast-path accessors `GetF32Column` / `GetI64Column` / … :
the handle if present and of the requested type, else `nullptr`. -/
def batchGetTyped (h : Heap) (b : ColumnBatch) (k : Int) (t : ColumnType) :
    Option Column :=
  match batchGetColumn h b k with
  | some c => if c.type = t then some c else none
  | none => none

/-- `ColumnBatch::GetValue(row, key)`: null when the column is missing or the
row is out of the batch's range, else the column's `GetValue`. -/
def batchGetValue (h : Heap) (b : ColumnBatch) (row : Nat) (k : Int) : Value :=
  match batchGetColumn h b k with
  | none => .null
  | some c => if b.rowCount ≤ row then .null else c.getValue row

/-! ### Key registry (keys/registry.h) -/

structure KeyInfo where
  id : Int
  name : String
  type : KeyType
deriving DecidableEq

abbrev KeyRegistry := List KeyInfo

/-- `KeyRegistry::GetById`. -/
def regGetById (reg : KeyRegistry) (k : Int) : Option KeyInfo :=
  reg.find? (fun ki => ki.id == k)

/-- `KeyRegistry::GetByName`. -/
def regGetByName (reg : KeyRegistry) (n : String) : Option KeyInfo :=
  reg.find? (fun ki => ki.name == n)

/-- Key-id constants from keys/generated/keys.h used by the core operators. -/
def CAND_CANDIDATE_ID : Int := 1001
def SCORE_BASE : Int := 3001

/-! ### BatchBuilder (object/batch_builder.cpp) -/

/-- The builder: an optional source batch, the target row count, the map of
modified (owned) column handles and the set of touched key-ids.  The C++
keeps `modified_columns_` and `modified_keys_` as two containers that are
updated together; both are carried here. -/
structure BatchBuilder where
  source : Option ColumnBatch
  rowCount : Nat
  modifiedCols : List (Int × Ptr) := []
  modifiedKeys : List Int := []
deriving DecidableEq

namespace BatchBuilder

/-- `BatchBuilder(const ColumnBatch& source)`. -/
def ofSource (s : ColumnBatch) : BatchBuilder :=
  { source := some s, rowCount := s.rowCount }

/-- `BatchBuilder(size_t row_count)`. -/
def ofRowCount (n : Nat) : BatchBuilder :=
  { source := none, rowCount := n }

/-- `IsModified(key_id)`. -/
def isModified (bld : BatchBuilder) (k : Int) : Bool := bld.modifiedKeys.contains k

/-- `EnsureWritable(key_id, type_hint)`: return the already-modified handle,
else clone the source column (COW), else create a fresh typed column (a Null
hint defaults to F32).  `Clone`/`MakeTypedColumn` allocate on the heap;
dereferencing an unallocated source handle yields `danglingHandle`
(impossible for well-formed states). -/
def ensureWritable (bld : BatchBuilder) (h : Heap) (k : Int)
    (typeHint : ColumnType) : Except EngineError (BatchBuilder × Heap × Ptr) :=
  match bld.modifiedCols.lookup k with
  | some p => .ok (bld, h, p)
  | none =>
    let colE : Except EngineError Column :=
      match bld.source with
      | some s =>
        match s.getColumnPtr k with
        | some sp =>
          match heapGet h sp with
          | some c => .ok c
          | none => .error .danglingHandle
        | none =>
          match makeTypedColumn (if typeHint = .nullT then .f32 else typeHint)
              bld.rowCount with
          | some c => .ok c
          | none => .error .danglingHandle
      | none =>
        match makeTypedColumn (if typeHint = .nullT then .f32 else typeHint)
            bld.rowCount with
        | some c => .ok c
        | none => .error .danglingHandle
    match colE with
    | .error e => .error e
    | .ok col =>
      let (h', p) := heapAlloc h col
      .ok ({ bld with modifiedKeys := bld.modifiedKeys ++ [k],
                      modifiedCols := assocSet bld.modifiedCols k p }, h', p)

/-- `Set(row, key_id, value, registry)`. -/
def set (bld : BatchBuilder) (h : Heap) (row : Nat) (k : Int) (v : Value)
    (registry : Option KeyRegistry := none) :
    Except EngineError (BatchBuilder × Heap) :=
  if bld.rowCount ≤ row then .error .outOfRange
  else
    let colTypeE : Except EngineError ColumnType :=
      match registry with
      | some reg =>
        if v.isNull then .ok (inferColumnType v)
        else
          match regGetById reg k with
          | some ki =>
            if inferColumnType v ≠ keyTypeToColumnType ki.type
            then .error (.typeMismatchKey k)
            else .ok (keyTypeToColumnType ki.type)
          | none => .error (.unknownKey k)
      | none => .ok (inferColumnType v)
    match colTypeE with
    | .error e => .error e
    | .ok colType =>
      match bld.ensureWritable h k colType with
      | .error e => .error e
      | .ok (bld', h', p) =>
        match heapGet h' p with
        | none => .error .danglingHandle
        | some c =>
          match c.setValue row v with
          | .error e => .error e
          | .ok c' => .ok (bld', heapSet h' p c')

/-- `AddColumn(key_id, column)`: unconditionally installs the given handle. -/
def addColumn (bld : BatchBuilder) (k : Int) (p : Ptr) : BatchBuilder :=
  { bld with modifiedCols := assocSet bld.modifiedCols k p,
             modifiedKeys := bld.modifiedKeys ++ [k] }

/-- `Build()`: share every untouched source column handle, then install the
modified handles. -/
def build (bld : BatchBuilder) : ColumnBatch :=
  let base :=
    match bld.source with
    | some s => s.columns.filter (fun kv => ¬ bld.isModified kv.1)
    | none => []
  { rowCount := bld.rowCount,
    columns := bld.modifiedCols.foldl (fun acc kv => assocSet acc kv.1 kv.2) base }

end BatchBuilder

/-- One public mutating call on a builder, for quantifying over call
sequences. -/
inductive BuilderOp where
  | set (row : Nat) (k : Int) (v : Value)
  | add (k : Int) (p : Ptr)
deriving DecidableEq

/-- Run a sequence of `set`/`add-column` calls (no registry, as in the COW
contract). -/
def applyOps (bld : BatchBuilder) (h : Heap) :
    List BuilderOp → Except EngineError (BatchBuilder × Heap)
  | [] => .ok (bld, h)
  | .set row k v :: rest =>
    match bld.set h row k v with
    | .error e => .error e
    | .ok (bld', h') => applyOps bld' h' rest
  | .add k p :: rest => applyOps (bld.addColumn k p) h rest

/-! ### BatchContext (nodes/js/batch_context.cpp) -/

/-- `NjsBudget` (nodes/js/batch_context.h). -/
structure NjsBudget where
  maxWriteBytes : Int := 1048576
  maxWriteCells : Int := 100000
  maxSetPerObj : Int := 10
  maxIoReadBytes : Int := 0
  maxIoReadRows : Int := 0
  bytesWritten : Int := 0
  cellsWritten : Int := 0
  ioBytesRead : Int := 0
  ioRowsRead : Int := 0
deriving DecidableEq

/-- The mutable state of a `BatchContext` (the wrapped batch and registry are
carried as fields; the builder reference is only used by `Commit`). -/
structure BatchContext where
  batch : ColumnBatch
  registry : Option KeyRegistry
  allowedWrites : List Int
  budget : NjsBudget
  allocatedColumns : List (Int × Ptr) := []
deriving DecidableEq

namespace BatchContext

/-- `CheckWriteAllowed(key_id, expected_type)`: membership in `meta.writes`
first, then the registry type check (when a registry is present). -/
def checkWriteAllowed (ctx : BatchContext) (k : Int) (expected : KeyType) :
    Except EngineError Unit :=
  if ¬ ctx.allowedWrites.contains k then .error (.writeNotDeclared k)
  else
    match ctx.registry with
    | some reg =>
      match regGetById reg k with
      | none => .error (.unknownKey k)
      | some ki => if ki.type ≠ expected then .error (.typeMismatchKey k) else .ok ()
    | none => .ok ()

/-- `CheckBudget(bytes, cells)`: both comparisons use the pre-call running
totals; the totals are incremented only after both pass. -/
def checkBudget (b : NjsBudget) (bytes cells : Int) :
    Except EngineError NjsBudget :=
  if b.bytesWritten + bytes > b.maxWriteBytes then .error .budgetBytes
  else if b.cellsWritten + cells > b.maxWriteCells then .error .budgetCells
  else .ok { b with bytesWritten := b.bytesWritten + bytes,
                    cellsWritten := b.cellsWritten + cells }

/-- `AllocateF32(key_id)`: declared-write check, budget check
(`rows * sizeof(float)` bytes, `rows` cells), then a fresh F32 column. -/
def allocateF32 (ctx : BatchContext) (h : Heap) (k : Int) :
    Except EngineError (BatchContext × Heap × Ptr) :=
  match ctx.checkWriteAllowed k .f32 with
  | .error e => .error e
  | .ok _ =>
    match checkBudget ctx.budget (ctx.batch.rowCount * 4) ctx.batch.rowCount with
    | .error e => .error e
    | .ok b' =>
      let (h', p) := heapAlloc h (.f32 (BoxedCol.fresh ctx.batch.rowCount))
      .ok ({ ctx with budget := b',
                      allocatedColumns := ctx.allocatedColumns ++ [(k, p)] }, h', p)

/-- `AllocateF32Vec(key_id, dim)`: `rows * dim * sizeof(float)` bytes,
`rows` cells. -/
def allocateF32Vec (ctx : BatchContext) (h : Heap) (k : Int) (dim : Nat) :
    Except EngineError (BatchContext × Heap × Ptr) :=
  match ctx.checkWriteAllowed k .f32vec with
  | .error e => .error e
  | .ok _ =>
    match checkBudget ctx.budget (ctx.batch.rowCount * dim * 4) ctx.batch.rowCount with
    | .error e => .error e
    | .ok b' =>
      let (h', p) := heapAlloc h
        (.f32vec (List.replicate (ctx.batch.rowCount * dim) 0) dim
          (List.replicate ctx.batch.rowCount true))
      .ok ({ ctx with budget := b',
                      allocatedColumns := ctx.allocatedColumns ++ [(k, p)] }, h', p)

/-- `AllocateI64(key_id)`: `rows * sizeof(int64_t)` bytes, `rows` cells. -/
def allocateI64 (ctx : BatchContext) (h : Heap) (k : Int) :
    Except EngineError (BatchContext × Heap × Ptr) :=
  match ctx.checkWriteAllowed k .i64 with
  | .error e => .error e
  | .ok _ =>
    match checkBudget ctx.budget (ctx.batch.rowCount * 8) ctx.batch.rowCount with
    | .error e => .error e
    | .ok b' =>
      let (h', p) := heapAlloc h (.i64 (BoxedCol.fresh ctx.batch.rowCount))
      .ok ({ ctx with budget := b',
                      allocatedColumns := ctx.allocatedColumns ++ [(k, p)] }, h', p)

end BatchContext

/-! ### Executor input assembly (executor/executor.cpp, lines 49-58) -/

/-- The node-output map accumulated by `Executor::Execute`. -/
abbrev OutputMap := List (String × ColumnBatch)

/-- Lines 49-58 of `Executor::Execute`:
`CandidateBatch input(0); if (!inputs.empty()) { look up inputs[0] }`. -/
def gatherInput (outputs : OutputMap) (inputs : List String) : ColumnBatch :=
  match inputs with
  | [] => {}
  | first :: _ =>
    match outputs.lookup first with
    | some b => b
    | none => {}

/-- Modelled from the spec: a row-wise concatenation of predecessor outputs
has row count equal to the sum of the predecessors' row counts.  (Used only
to compare the spec's merge-input contract with the code's behaviour.) -/
def specConcatRowCount (batches : List ColumnBatch) : Nat :=
  (batches.map (·.rowCount)).sum

/-! ### MergeNode (nodes/core/merge.cpp) -/

/-- One iteration of the `best_row` loop: skip rows with a missing or null
candidate-id; first occurrence wins, except in `max_base` mode (with a
score column present) where a strictly larger base-score replaces. -/
def mergeBestRowStep (idCol scoreCol : Option Column) (dedup : String)
    (acc : List (Int × Nat)) (i : Nat) : List (Int × Nat) :=
  match idCol with
  | none => acc
  | some c =>
    if c.isNull i then acc
    else
      let cid := c.getI64 i
      match acc.lookup cid with
      | none => acc ++ [(cid, i)]
      | some j =>
        if dedup = "max_base" then
          match scoreCol with
          | some sc =>
            let existingScore : ℚ := if sc.isNull j then 0 else sc.getF32 j
            let newScore : ℚ := if sc.isNull i then 0 else sc.getF32 i
            if newScore > existingScore then assocSet acc cid i else acc
          | none => acc
        else acc

/-- The `best_row` map after scanning all `n` input rows. -/
def mergeBestRow (idCol scoreCol : Option Column) (dedup : String) (n : Nat) :
    List (Int × Nat) :=
  (List.range n).foldl (mergeBestRowStep idCol scoreCol dedup) []

/-- `selected_rows`: the kept row indices, sorted ascending
(`std::sort` on distinct values). -/
def mergeSelected (idCol scoreCol : Option Column) (dedup : String) (n : Nat) :
    List Nat :=
  ((mergeBestRow idCol scoreCol dedup n).map (·.2)).insertionSort (· ≤ ·)

/-- The freshly constructed output column for a source column
(`make_shared<...>(out_row_count)`, F32Vec keeping the source's dim).
The C++ `switch` has a dead `default: continue` arm for `ColumnType::Null`,
which no `TypedColumn` subclass returns. -/
def mergeMakeOutCol (src : Column) (n : Nat) : Column :=
  match src with
  | .f32 _ => .f32 (BoxedCol.fresh n)
  | .i64 _ => .i64 (BoxedCol.fresh n)
  | .boolC _ => .boolC (BoxedCol.fresh n)
  | .stringC _ => .stringC (BoxedCol.fresh n)
  | .f32vec _ dim _ => .f32vec (List.replicate (n * dim) 0) dim (List.replicate n true)
  | .bytesC _ => .bytesC (BoxedCol.fresh n)

/-- The inner fill loop:
`out_col->SetValue(out_idx, src_col->GetValue(selected_rows[out_idx]))`. -/
def mergeFillColumn (src : Column) (out0 : Column) (selected : List Nat) :
    Except EngineError Column :=
  selected.enum.foldlM (fun col p => col.setValue p.1 (src.getValue p.2)) out0

/-- The per-key body of the output loop (merge.cpp lines 75-116): the unused
`Clone()` allocation (kept, since it moves the heap), the fresh output
column, the fill, `SetColumn`. -/
def mergeColumnStep (input : ColumnBatch) (selected : List Nat) (outN : Nat)
    (st : Heap × ColumnBatch) (k : Int) : Except EngineError (Heap × ColumnBatch) :=
  match batchGetColumn st.1 input k with
  | none => .ok st
  | some src =>
    let h1 := (heapAlloc st.1 src).1
    match mergeFillColumn src (mergeMakeOutCol src outN) selected with
    | .error e => .error e
    | .ok filled =>
      let (h2, p) := heapAlloc h1 filled
      .ok (h2, st.2.setColumn k p)

def mergeRun (h : Heap) (input : ColumnBatch) (dedupParam : Option String) :
    Except EngineError (Heap × ColumnBatch) :=
  let dedup := dedupParam.getD "first"
  let n := input.rowCount
  if n = 0 then .ok (h, {})
  else
    let idCol := batchGetTyped h input CAND_CANDIDATE_ID .i64
    let scoreCol := batchGetTyped h input SCORE_BASE .f32
    let selected := mergeSelected idCol scoreCol dedup n
    input.columnKeys.foldlM (mergeColumnStep input selected selected.length)
      (h, { rowCount := selected.length })

/-! ### Expression IR (expr/expr.h / expr.cpp) -/

inductive Expr where
  | constE (v : ℚ)
  | signal (keyId : Int)
  | add (args : List Expr)
  | mul (args : List Expr)
  | minE (args : List Expr)
  | maxE (args : List Expr)
  | cos (a b : Expr)
  | clampE (x lo hi : Expr)
  | penalty (name : String)

/-- `std::clamp(v, lo, hi)`. -/
def stdClamp (v lo hi : ℚ) : ℚ :=
  if v < lo then lo else if hi < v then hi else v

/-- `CosineSimilarity(a, b)` (expr.cpp, anonymous namespace).  `std::sqrt`
is an uninterpreted parameter `sqrtF`; the guards and the final clamp do not
depend on it. -/
def cosineSimilarity (sqrtF : ℚ → ℚ) (a b : List ℚ) : ℚ :=
  if a.isEmpty ∨ b.isEmpty ∨ a.length ≠ b.length then 0
  else if (a.map (fun x => x * x)).sum = 0 ∨ (b.map (fun x => x * x)).sum = 0 then 0
  else
    stdClamp
      (((a.zip b).map (fun p => p.1 * p.2)).sum /
        (sqrtF (a.map (fun x => x * x)).sum * sqrtF (b.map (fun x => x * x)).sum))
      (-1) 1

/-- `GetFloatValueFromBatch` (expr.cpp): f32 as itself, i64 static-cast to
float, anything else (null included) 0.0. -/
def getFloatValueFromBatch (h : Heap) (b : ColumnBatch) (row : Nat) (k : Int) : ℚ :=
  match batchGetValue h b row k with
  | .f32V x => x
  | .i64V n => (n : ℚ)
  | _ => 0

/-- `GetVectorValueFromBatch` (expr.cpp). -/
def getVectorValueFromBatch (h : Heap) (b : ColumnBatch) (row : Nat) (k : Int) :
    List ℚ :=
  match batchGetValue h b row k with
  | .f32vecV v => v
  | _ => []

/-- The `get_vec` lambda in the Cos case: operands must be Signal nodes. -/
def cosOperandVec (h : Heap) (b : ColumnBatch) (row : Nat) : Expr → List ℚ
  | .signal k => getVectorValueFromBatch h b row k
  | _ => []

mutual

/-- `EvalExpr` (ColumnBatch overload, expr.cpp lines 309-394). -/
def evalExpr (sqrtF : ℚ → ℚ) (reg : Option KeyRegistry) (h : Heap)
    (b : ColumnBatch) (row : Nat) : Expr → ℚ
  | .constE v => v
  | .signal k => getFloatValueFromBatch h b row k
  | .add args => evalFoldAdd sqrtF reg h b row 0 args
  | .mul args => evalFoldMul sqrtF reg h b row 1 args
  | .minE [] => 0
  | .minE (a :: rest) =>
      evalFoldMin sqrtF reg h b row (evalExpr sqrtF reg h b row a) rest
  | .maxE [] => 0
  | .maxE (a :: rest) =>
      evalFoldMax sqrtF reg h b row (evalExpr sqrtF reg h b row a) rest
  | .cos a b' =>
      cosineSimilarity sqrtF (cosOperandVec h b row a) (cosOperandVec h b row b')
  | .clampE x lo hi =>
      stdClamp (evalExpr sqrtF reg h b row x) (evalExpr sqrtF reg h b row lo)
        (evalExpr sqrtF reg h b row hi)
  | .penalty name =>
      match reg with
      | some r =>
        match regGetByName r ("penalty." ++ name) with
        | some ki => getFloatValueFromBatch h b row ki.id
        | none => 0
      | none => 0

/-- `sum += EvalExpr(arg, ...)` accumulation. -/
def evalFoldAdd (sqrtF : ℚ → ℚ) (reg : Option KeyRegistry) (h : Heap)
    (b : ColumnBatch) (row : Nat) : ℚ → List Expr → ℚ
  | acc, [] => acc
  | acc, e :: rest => evalFoldAdd sqrtF reg h b row (acc + evalExpr sqrtF reg h b row e) rest

/-- `product *= EvalExpr(arg, ...)` accumulation. -/
def evalFoldMul (sqrtF : ℚ → ℚ) (reg : Option KeyRegistry) (h : Heap)
    (b : ColumnBatch) (row : Nat) : ℚ → List Expr → ℚ
  | acc, [] => acc
  | acc, e :: rest => evalFoldMul sqrtF reg h b row (acc * evalExpr sqrtF reg h b row e) rest

/-- `result = std::min(result, EvalExpr(arg, ...))` accumulation. -/
def evalFoldMin (sqrtF : ℚ → ℚ) (reg : Option KeyRegistry) (h : Heap)
    (b : ColumnBatch) (row : Nat) : ℚ → List Expr → ℚ
  | acc, [] => acc
  | acc, e :: rest => evalFoldMin sqrtF reg h b row (min acc (evalExpr sqrtF reg h b row e)) rest

/-- `result = std::max(result, EvalExpr(arg, ...))` accumulation. -/
def evalFoldMax (sqrtF : ℚ → ℚ) (reg : Option KeyRegistry) (h : Heap)
    (b : ColumnBatch) (row : Nat) : ℚ → List Expr → ℚ
  | acc, [] => acc
  | acc, e :: rest => evalFoldMax sqrtF reg h b row (max acc (evalExpr sqrtF reg h b row e)) rest

end

/-! ### Complexity budget (plan/complexity.h / .cpp)

The `top_fanout`, `top_fanin` and `longest_path` metric fields and the
`diagnostics` text feed only the human-readable error message and are not
modelled; the claims quantify over the numeric metrics and the pass/fail
classification. -/

structure ComplexityMetrics where
  nodeCount : Int := 0
  edgeCount : Int := 0
  maxDepth : Int := 0
  fanoutPeak : Int := 0
  faninPeak : Int := 0
deriving DecidableEq

structure ScoreWeights where
  nodeCount : ℚ := 1
  maxDepth : ℚ := 5
  fanoutPeak : ℚ := 2
  faninPeak : ℚ := 2
  edgeCount : ℚ := 1 / 2
deriving DecidableEq

structure ComplexityBudget where
  nodeCountHard : Int := 0
  maxDepthHard : Int := 0
  fanoutPeakHard : Int := 0
  faninPeakHard : Int := 0
  edgeCountSoft : Int := 0
  complexityScoreSoft : Int := 0
  scoreWeights : ScoreWeights := {}
deriving DecidableEq

/-- `ComplexityBudget::Default()`. -/
def ComplexityBudget.defaultBudget : ComplexityBudget :=
  { nodeCountHard := 2000, maxDepthHard := 120, fanoutPeakHard := 16,
    faninPeakHard := 16, edgeCountSoft := 10000, complexityScoreSoft := 8000 }

/-- `static_cast<int64_t>` of a real quantity: truncation toward zero. -/
def truncToInt (q : ℚ) : Int := if 0 ≤ q then Int.floor q else -Int.floor (-q)

/-- `ComputeComplexityScore`. -/
def computeComplexityScore (m : ComplexityMetrics)
    (wn wd wfo wfi we : ℚ) : Int :=
  truncToInt (wn * (m.nodeCount : ℚ) + wd * (m.maxDepth : ℚ) +
    wfo * (m.fanoutPeak : ℚ) + wfi * (m.faninPeak : ℚ) + we * (m.edgeCount : ℚ))

/-- Which limit a violation or warning names. -/
inductive LimitKind where
  | nodeCount | maxDepth | fanoutPeak | faninPeak | edgeCount | complexityScore
deriving DecidableEq

structure ComplexityCheckResult where
  passed : Bool
  hasWarnings : Bool
  errorCode : String
deriving DecidableEq

/-- `CheckComplexityBudget` (complexity.cpp lines 151-282), with the
`violations`/`warnings` message strings abstracted to `LimitKind` tags. -/
def checkComplexityBudget (m : ComplexityMetrics) (b : ComplexityBudget) :
    ComplexityCheckResult :=
  let violations : List LimitKind :=
    (if b.nodeCountHard > 0 ∧ m.nodeCount > b.nodeCountHard then [.nodeCount] else []) ++
    (if b.maxDepthHard > 0 ∧ m.maxDepth > b.maxDepthHard then [.maxDepth] else []) ++
    (if b.fanoutPeakHard > 0 ∧ m.fanoutPeak > b.fanoutPeakHard then [.fanoutPeak] else []) ++
    (if b.faninPeakHard > 0 ∧ m.faninPeak > b.faninPeakHard then [.faninPeak] else [])
  let warnings : List LimitKind :=
    (if b.edgeCountSoft > 0 ∧ m.edgeCount > b.edgeCountSoft then [.edgeCount] else []) ++
    (if b.complexityScoreSoft > 0 ∧
        computeComplexityScore m b.scoreWeights.nodeCount b.scoreWeights.maxDepth
          b.scoreWeights.fanoutPeak b.scoreWeights.faninPeak b.scoreWeights.edgeCount
          > b.complexityScoreSoft
     then [.complexityScore] else [])
  { passed := violations.isEmpty,
    hasWarnings := !warnings.isEmpty,
    errorCode := if violations.isEmpty then "" else "PLAN_TOO_COMPLEX" }

/-! #### Budget document parsing (`ComplexityBudget::Parse`)

The JSON document is embedded as nested `Option` fields: `none` is an absent
key (`j.contains(...)` false).  A document whose present fields fail
`get<...>` makes the C++ catch return `ComplexityBudget()` — the same
default-constructed value `Parse` starts from. -/

structure HardLimitsDoc where
  nodeCount : Option Int := none
  maxDepth : Option Int := none
  fanoutPeak : Option Int := none
  faninPeak : Option Int := none
deriving DecidableEq

structure SoftLimitsDoc where
  edgeCount : Option Int := none
  complexityScore : Option Int := none
deriving DecidableEq

structure ScoreWeightsDoc where
  nodeCount : Option ℚ := none
  maxDepth : Option ℚ := none
  fanoutPeak : Option ℚ := none
  faninPeak : Option ℚ := none
  edgeCount : Option ℚ := none
deriving DecidableEq

structure ComplexityBudgetDoc where
  hard : Option HardLimitsDoc := none
  soft : Option SoftLimitsDoc := none
  scoreWeights : Option ScoreWeightsDoc := none
deriving DecidableEq

/-- `ComplexityBudget::Parse` (complexity.cpp lines 295-352): starts from
the default-constructed `ComplexityBudget budget;` and overwrites each field
its document mentions. -/
def parseComplexityBudget (doc : ComplexityBudgetDoc) : ComplexityBudget :=
  let b0 : ComplexityBudget := {}
  let b1 :=
    match doc.hard with
    | none => b0
    | some hd =>
      { b0 with
        nodeCountHard := hd.nodeCount.getD b0.nodeCountHard,
        maxDepthHard := hd.maxDepth.getD b0.maxDepthHard,
        fanoutPeakHard := hd.fanoutPeak.getD b0.fanoutPeakHard,
        faninPeakHard := hd.faninPeak.getD b0.faninPeakHard }
  let b2 :=
    match doc.soft with
    | none => b1
    | some sd =>
      { b1 with
        edgeCountSoft := sd.edgeCount.getD b1.edgeCountSoft,
        complexityScoreSoft := sd.complexityScore.getD b1.complexityScoreSoft }
  match doc.scoreWeights with
  | none => b2
  | some sw =>
    { b2 with scoreWeights :=
      { nodeCount := sw.nodeCount.getD b2.scoreWeights.nodeCount,
        maxDepth := sw.maxDepth.getD b2.scoreWeights.maxDepth,
        fanoutPeak := sw.fanoutPeak.getD b2.scoreWeights.fanoutPeak,
        faninPeak := sw.faninPeak.getD b2.scoreWeights.faninPeak,
        edgeCount := sw.edgeCount.getD b2.scoreWeights.edgeCount } }

/-! ### Plan model and `ParsePlan` (plan/plan.h / plan.cpp) -/

structure PlanMeta where
  env : String := "dev"
deriving DecidableEq

structure PlanLogging where
  sampleRate : ℚ := 0
  dumpKeys : List Int := []
deriving DecidableEq

/-- The JSON `params` object of a node, restricted to the fields the
modelled runners consume (`merge`'s `dedup`, the njs runner's `module`). -/
structure NodeParams where
  dedup : Option String := none
  module : Option String := none
deriving DecidableEq

structure PlanNode where
  id : String
  op : String
  inputs : List String := []
  params : NodeParams := {}
  traceKey : String := ""
deriving DecidableEq

structure Plan where
  name : String := ""
  version : Int := 1
  meta : PlanMeta := {}
  nodes : List PlanNode := []
  logging : PlanLogging := {}
deriving DecidableEq

/-- A valid `trace_key` character: letters, digits, dot, underscore, slash,
hyphen. -/
def isTraceKeyChar (c : Char) : Bool :=
  c.isAlpha || c.isDigit || c = '.' || c = '_' || c = '/' || c = '-'

/-- `ValidateTraceKey` (plan.cpp): `none` when valid. -/
def validateTraceKey (tk : String) : Option EngineError :=
  if tk.isEmpty then none
  else if tk.length > 64 then some .traceKeyTooLong
  else if tk.toList.all isTraceKeyChar then none
  else some .traceKeyBadChar

/-- One element of the document's `nodes` array.  `none` fields are absent
keys; a missing required `id`/`op` makes `get<std::string>` throw. -/
structure NodeDoc where
  id : Option String := none
  op : Option String := none
  inputs : List String := []
  params : Option NodeParams := none
  traceKey : Option String := none
deriving DecidableEq

structure LoggingDoc where
  sampleRate : Option ℚ := none
  dumpKeys : List Int := []
deriving DecidableEq

/-- The plan JSON document.  `metaEnv` is the document's `meta.env` field;
it is carried here so that theorems can quantify over documents that do
declare an environment. -/
structure PlanDoc where
  name : Option String := none
  version : Option Int := none
  metaEnv : Option String := none
  nodes : List NodeDoc := []
  logging : Option LoggingDoc := none
deriving DecidableEq

/-- The loop body over `json["nodes"]`: required `id`/`op`, optional
`inputs`/`params`, `trace_key` validated when present. -/
def parseNodeDoc (nd : NodeDoc) : Except EngineError PlanNode :=
  match nd.id with
  | none => .error .missingNodeField
  | some nid =>
    match nd.op with
    | none => .error .missingNodeField
    | some nop =>
      match nd.traceKey with
      | none =>
        .ok { id := nid, op := nop, inputs := nd.inputs,
              params := nd.params.getD {}, traceKey := "" }
      | some t =>
        match validateTraceKey t with
        | some e => .error e
        | none =>
          .ok { id := nid, op := nop, inputs := nd.inputs,
                params := nd.params.getD {}, traceKey := t }

/-- `ParsePlan(json, out, error_out)` (plan.cpp lines 26-77).  `out0` is the
caller's `Plan& out`; `ParsePlan` assigns `name`, `version`, `nodes` and
`logging` and touches nothing else — in particular it never reads the
document's `meta` object, so `out.meta` keeps the caller's value. -/
def parsePlan (doc : PlanDoc) (out0 : Plan) : Except EngineError Plan :=
  match doc.nodes.mapM parseNodeDoc with
  | .error e => .error e
  | .ok nodes =>
    .ok { out0 with
          name := doc.name.getD "unnamed",
          version := doc.version.getD 1,
          nodes := nodes,
          logging :=
            match doc.logging with
            | none => out0.logging
            | some lg => { sampleRate := lg.sampleRate.getD 0, dumpKeys := lg.dumpKeys } }

/-! ### NjsRunner::Run prefix (nodes/js/njs_runner.cpp lines 609-630)

Everything from `JS_NewContext` on (interpreter instantiation, module
evaluation, meta parsing, write/budget/IO enforcement, commit) is abstracted
as the `runGuest` parameter: the claims about this prefix hold for every
possible guest phase. -/

def njsRun (fs : String → Option String)
    (runGuest : String → ColumnBatch → Except EngineError ColumnBatch)
    (params : NodeParams) (input : ColumnBatch) :
    Except EngineError ColumnBatch :=
  match params.module with
  | none => .error .moduleParamMissing
  | some path =>
    match fs path with
    | none => .error (.moduleOpenFailed path)
    | some source =>
      if input.rowCount = 0 then .ok input
      else runGuest source input

/-! ### Derived notions used by the theorems -/

/-- The last value written to `(key, row)` by a sequence of builder calls. -/
def lastWrite (ops : List BuilderOp) (k : Int) (r : Nat) : Option Value :=
  ops.foldl
    (fun acc op =>
      match op with
      | .set r' k' v => if k' = k ∧ r' = r then some v else acc
      | .add _ _ => acc)
    none

/-- A call sequence consisting of `set` calls only (no `add-column`). -/
def SetOnly (ops : List BuilderOp) : Prop :=
  ∀ op ∈ ops, ∃ r k v, op = BuilderOp.set r k v

/-- The candidate-id the merge loop reads at row `i` (`none` when the column
is missing or the row is null there). -/
def rowCandId (idCol : Option Column) (i : Nat) : Option Int :=
  match idCol with
  | none => none
  | some c => if c.isNull i then none else some (c.getI64 i)

/-- The base-score coercion the merge loop applies at row `i` (missing
column or null cell read as 0). -/
def rowBaseScore (scoreCol : Option Column) (i : Nat) : ℚ :=
  match scoreCol with
  | none => 0
  | some sc => if sc.isNull i then 0 else sc.getF32 i

/-- Row `i` is the row merge keeps for its candidate-id under strategy
`dedup`: the earliest occurrence in `first` mode, the earliest row attaining
the maximal coerced base-score in `max_base` mode.  (With no base-score
column every coerced score is 0, so the two notions agree, matching the
code's fallback to first-wins.) -/
def MergeKeeps (idCol scoreCol : Option Column) (dedup : String) (n i : Nat) : Prop :=
  i < n ∧ (rowCandId idCol i).isSome ∧
  (if dedup = "max_base" then
    (∀ j < i, rowCandId idCol j = rowCandId idCol i →
      rowBaseScore scoreCol j < rowBaseScore scoreCol i) ∧
    (∀ j < n, rowCandId idCol j = rowCandId idCol i →
      rowBaseScore scoreCol j ≤ rowBaseScore scoreCol i)
  else
    ∀ j < i, rowCandId idCol j ≠ rowCandId idCol i)

/-- The batch invariant of the data model (spec section 3): every column
handle dereferences, every contained column has at least `rowCount` rows,
and the key-id map has unique keys (`unordered_map`). -/
def BatchWF (h : Heap) (b : ColumnBatch) : Prop :=
  (∀ kv ∈ b.columns, ∃ c, heapGet h kv.2 = some c ∧ b.rowCount ≤ c.size) ∧
  (b.columns.map Prod.fst).Nodup

/-- The column representation invariant every `TypedColumn` constructor and
mutator maintains: the null mask covers the data (scalar columns keep the two
vectors the same length; a flat vector column has a positive dimension and a
flat buffer of one slice per mask entry). -/
def ColWF : Column → Prop
  | .f32 c => c.nullMask.length = c.data.length
  | .i64 c => c.nullMask.length = c.data.length
  | .boolC c => c.nullMask.length = c.data.length
  | .stringC c => c.nullMask.length = c.data.length
  | .f32vec d dim m => 0 < dim ∧ d.length = m.length * dim
  | .bytesC c => c.nullMask.length = c.data.length

/-- The values `SetValue` accepts on a column of runtime type `t` (with
vector dimension `dim`): null always, else the matching variant, a vector
additionally matching the dimension. -/
def ValueCompat (t : ColumnType) (dim : Nat) : Value → Prop
  | .null => True
  | .f32V _ => t = ColumnType.f32
  | .i64V _ => t = ColumnType.i64
  | .boolV _ => t = ColumnType.boolT
  | .stringV _ => t = ColumnType.stringT
  | .bytesV _ => t = ColumnType.bytes
  | .f32vecV v => t = ColumnType.f32vec ∧ v.length = dim

/-- Invariant of merge's per-column output loop: every column handle the
output batch holds so far is fresh (allocated past the original heap) and
dereferences to a column of `sel.length` rows holding the selected rows of
the corresponding input column. -/
def MergeColInv (h0 : Heap) (input : ColumnBatch) (sel : List Nat)
    (hp : Heap) (b : ColumnBatch) : Prop :=
  ∀ k p, b.getColumnPtr k = some p → h0.length ≤ p ∧
    ∃ col src, heapGet hp p = some col ∧ batchGetColumn h0 input k = some src ∧
      col.size = sel.length ∧
      (∀ t, t < sel.length → col.getValue t = src.getValue (sel.getD t 0))

/-- State invariant of a `BatchBuilder` over source `S`, original heap `h0`
and current heap `h`: the source and row count are fixed, the heap only grows,
the touched-key set and the modified-column map agree, modified keys are
unique, every modified handle is fresh and dereferences to a column covering
the source's rows, and distinct modified keys own distinct handles. -/
def BuilderInv (h0 : Heap) (S : ColumnBatch) (bld : BatchBuilder) (h : Heap) : Prop :=
  bld.source = some S ∧
  bld.rowCount = S.rowCount ∧
  (∃ ext, h = h0 ++ ext) ∧
  (∀ k, bld.isModified k = true ↔ (bld.modifiedCols.lookup k).isSome = true) ∧
  ((bld.modifiedCols.map Prod.fst).Nodup) ∧
  (∀ k p, bld.modifiedCols.lookup k = some p → h0.length ≤ p ∧
    ∃ c, heapGet h p = some c ∧ S.rowCount ≤ c.size) ∧
  (∀ k1 p1 k2 p2, bld.modifiedCols.lookup k1 = some p1 →
    bld.modifiedCols.lookup k2 = some p2 → p1 = p2 → k1 = k2)

/-- The value an observer would read for key `k` at row `r` through the
builder's pending state: the modified column's cell when the key is touched,
else the source column's cell, else null. -/
def builderRefVal (h0 : Heap) (S : ColumnBatch) (bld : BatchBuilder) (h : Heap)
    (k : Int) (r : Nat) : Value :=
  match bld.modifiedCols.lookup k with
  | some p =>
    match heapGet h p with
    | some c => c.getValue r
    | none => Value.null
  | none =>
    match batchGetColumn h0 S k with
    | some cs => cs.getValue r
    | none => Value.null

/-- Some hard limit is set (positive) and its metric exceeds it. -/
def HardLimitViolated (m : ComplexityMetrics) (b : ComplexityBudget) : Prop :=
  (0 < b.nodeCountHard ∧ b.nodeCountHard < m.nodeCount) ∨
  (0 < b.maxDepthHard ∧ b.maxDepthHard < m.maxDepth) ∨
  (0 < b.fanoutPeakHard ∧ b.fanoutPeakHard < m.fanoutPeak) ∨
  (0 < b.faninPeakHard ∧ b.faninPeakHard < m.faninPeak)

/-- Some soft limit is set (positive) and its metric exceeds it. -/
def SoftLimitExceeded (m : ComplexityMetrics) (b : ComplexityBudget) : Prop :=
  (0 < b.edgeCountSoft ∧ b.edgeCountSoft < m.edgeCount) ∨
  (0 < b.complexityScoreSoft ∧
    b.complexityScoreSoft <
      computeComplexityScore m b.scoreWeights.nodeCount b.scoreWeights.maxDepth
        b.scoreWeights.fanoutPeak b.scoreWeights.faninPeak b.scoreWeights.edgeCount)

/-! ## Generic lemmas -/

theorem stdClamp_le_hi (v lo hi : ℚ) (hle : lo ≤ hi) : stdClamp v lo hi ≤ hi := by
  unfold stdClamp
  split_ifs with h1 h2 <;> linarith

theorem stdClamp_ge_lo (v lo hi : ℚ) (hle : lo ≤ hi) : lo ≤ stdClamp v lo hi := by
  unfold stdClamp
  split_ifs with h1 h2 <;> linarith

/-! ## C5 — Signal coercion -/

/-- C5: for every batch, row index and key-id, evaluating `Signal(k)` at
that row returns the stored f32 value when the cell holds an f32, the value
cast to f32 when the cell holds an i64, and 0.0 when the cell is null, holds
any other type, the column is missing, or the row index is out of range. -/
theorem signal_coercion_spec (sqrtF : ℚ → ℚ) (reg : Option KeyRegistry)
    (h : Heap) (b : ColumnBatch) (row : Nat) (k : Int) :
    (∀ x, batchGetValue h b row k = .f32V x →
      evalExpr sqrtF reg h b row (.signal k) = x) ∧
    (∀ n, batchGetValue h b row k = .i64V n →
      evalExpr sqrtF reg h b row (.signal k) = (n : ℚ)) ∧
    (batchGetValue h b row k = .null →
      evalExpr sqrtF reg h b row (.signal k) = 0) ∧
    (∀ v, batchGetValue h b row k = v →
      (∀ x, v ≠ .f32V x) → (∀ n, v ≠ .i64V n) →
      evalExpr sqrtF reg h b row (.signal k) = 0) ∧
    (b.getColumnPtr k = none → evalExpr sqrtF reg h b row (.signal k) = 0) ∧
    (b.rowCount ≤ row → evalExpr sqrtF reg h b row (.signal k) = 0) := by
  have hev : evalExpr sqrtF reg h b row (.signal k) = getFloatValueFromBatch h b row k := by
    simp [evalExpr]
  refine ⟨?_, ?_, ?_, ?_, ?_, ?_⟩
  · intro x hx; rw [hev]; unfold getFloatValueFromBatch; rw [hx]
  · intro n hn; rw [hev]; unfold getFloatValueFromBatch; rw [hn]
  · intro h0; rw [hev]; unfold getFloatValueFromBatch; rw [h0]
  · intro v hv hf hi
    rw [hev]; unfold getFloatValueFromBatch; rw [hv]
    cases v with
    | f32V x => exact absurd rfl (hf x)
    | i64V n => exact absurd rfl (hi n)
    | _ => rfl
  · intro hnone
    rw [hev]; unfold getFloatValueFromBatch batchGetValue batchGetColumn
    rw [hnone]; rfl
  · intro hrow
    rw [hev]; unfold getFloatValueFromBatch batchGetValue
    cases hc : batchGetColumn h b k with
    | none => rfl
    | some c => simp [hrow]

/-- Witness for C5: a 1-row batch whose key 5 holds the i64 value 7; the
signal evaluates to 7 cast to f32. -/
theorem signal_coercion_spec_witness :
    batchGetValue [Column.i64 ⟨[7], [false]⟩] ⟨1, [(5, 0)]⟩ 0 5 = .i64V 7 ∧
    evalExpr id none [Column.i64 ⟨[7], [false]⟩] ⟨1, [(5, 0)]⟩ 0 (.signal 5) = (7 : ℚ) := by
  refine ⟨by decide, ?_⟩
  exact (signal_coercion_spec id none [Column.i64 ⟨[7], [false]⟩] ⟨1, [(5, 0)]⟩ 0 5).2.1
    7 (by decide)

/-! ## C8 — Cos similarity guards and clamping -/

theorem cosineSimilarity_bounds (sqrtF : ℚ → ℚ) (a b : List ℚ) :
    -1 ≤ cosineSimilarity sqrtF a b ∧ cosineSimilarity sqrtF a b ≤ 1 := by
  unfold cosineSimilarity
  split_ifs with h1 h2
  · norm_num
  · norm_num
  · exact ⟨stdClamp_ge_lo _ _ _ (by norm_num), stdClamp_le_hi _ _ _ (by norm_num)⟩

/-- C8: `Cos(a, b)` evaluates the two Signal operands' row vectors; the
result is 0 when either operand is not a Signal, or when either vector is
missing/empty, when the lengths differ, or when a norm is zero; otherwise
it is the cosine quotient clamped to the interval from -1 to 1 — so the
result always lies in that interval. -/
theorem cos_similarity_spec (sqrtF : ℚ → ℚ) (reg : Option KeyRegistry)
    (h : Heap) (b : ColumnBatch) (row : Nat) (ea eb : Expr) :
    (evalExpr sqrtF reg h b row (.cos ea eb) =
      cosineSimilarity sqrtF (cosOperandVec h b row ea) (cosOperandVec h b row eb)) ∧
    ((cosOperandVec h b row ea = [] ∨ cosOperandVec h b row eb = [] ∨
      (cosOperandVec h b row ea).length ≠ (cosOperandVec h b row eb).length) →
      evalExpr sqrtF reg h b row (.cos ea eb) = 0) ∧
    ((((cosOperandVec h b row ea).map (fun x => x * x)).sum = 0 ∨
      ((cosOperandVec h b row eb).map (fun x => x * x)).sum = 0) →
      evalExpr sqrtF reg h b row (.cos ea eb) = 0) ∧
    ((∀ k, ea ≠ .signal k) → evalExpr sqrtF reg h b row (.cos ea eb) = 0) ∧
    (-1 ≤ evalExpr sqrtF reg h b row (.cos ea eb) ∧
      evalExpr sqrtF reg h b row (.cos ea eb) ≤ 1) ∧
    ((cosOperandVec h b row ea ≠ [] ∧ cosOperandVec h b row eb ≠ [] ∧
      (cosOperandVec h b row ea).length = (cosOperandVec h b row eb).length ∧
      ((cosOperandVec h b row ea).map (fun x => x * x)).sum ≠ 0 ∧
      ((cosOperandVec h b row eb).map (fun x => x * x)).sum ≠ 0) →
      evalExpr sqrtF reg h b row (.cos ea eb) =
        stdClamp
          ((((cosOperandVec h b row ea).zip (cosOperandVec h b row eb)).map
              (fun p => p.1 * p.2)).sum /
            (sqrtF ((cosOperandVec h b row ea).map (fun x => x * x)).sum *
              sqrtF ((cosOperandVec h b row eb).map (fun x => x * x)).sum))
          (-1) 1) := by
  have hev : evalExpr sqrtF reg h b row (.cos ea eb) =
      cosineSimilarity sqrtF (cosOperandVec h b row ea) (cosOperandVec h b row eb) := by
    simp [evalExpr]
  refine ⟨hev, ?_, ?_, ?_, ?_, ?_⟩
  · intro hguard
    rw [hev]; unfold cosineSimilarity
    rw [if_pos]
    rcases hguard with h0 | h0 | h0
    · exact Or.inl (by simp [h0])
    · exact Or.inr (Or.inl (by simp [h0]))
    · exact Or.inr (Or.inr h0)
  · intro hnorm
    rw [hev]; unfold cosineSimilarity
    by_cases hguard : (cosOperandVec h b row ea).isEmpty = true ∨
        (cosOperandVec h b row eb).isEmpty = true ∨
        (cosOperandVec h b row ea).length ≠ (cosOperandVec h b row eb).length
    · rw [if_pos hguard]
    · rw [if_neg hguard, if_pos hnorm]
  · intro hnot
    rw [hev]
    have hva : cosOperandVec h b row ea = [] := by
      cases ea with
      | signal k => exact absurd rfl (hnot k)
      | _ => rfl
    unfold cosineSimilarity
    rw [if_pos (Or.inl (by simp [hva]))]
  · rw [hev]; exact cosineSimilarity_bounds sqrtF _ _
  · rintro ⟨hne1, hne2, hlen, hn1, hn2⟩
    rw [hev]; unfold cosineSimilarity
    rw [if_neg (by simp [hlen, hne1, hne2]), if_neg (by tauto)]

/-- Witness for C8: a 1-row batch whose key 2 holds the F32Vec row (1, 0);
`Cos(Signal 2, Signal 2)` hits the non-degenerate branch and (with the
uninterpreted square root instantiated to `id`) evaluates to 1. -/
theorem cos_similarity_spec_witness :
    evalExpr id none [Column.f32vec [1, 0] 2 [false]] ⟨1, [(2, 0)]⟩ 0
      (.cos (.signal 2) (.signal 2)) = 1 := by
  have hvec : cosOperandVec [Column.f32vec [1, 0] 2 [false]] ⟨1, [(2, 0)]⟩ 0 (.signal 2)
      = [1, 0] := by
    norm_num [cosOperandVec, getVectorValueFromBatch, batchGetValue, batchGetColumn,
      ColumnBatch.getColumnPtr, heapGet, Column.getValue, Column.isNull, vecSize,
      vecGetRow, List.lookup]
  have hmain := (cos_similarity_spec id none [Column.f32vec [1, 0] 2 [false]]
    ⟨1, [(2, 0)]⟩ 0 (.signal 2) (.signal 2)).2.2.2.2.2
    ⟨by rw [hvec]; simp, by rw [hvec]; simp, rfl,
      by rw [hvec]; norm_num, by rw [hvec]; norm_num⟩
  rw [hmain, hvec]
  norm_num [stdClamp]

/-! ## C10 — Guest runner 0-row early return -/

/-- C10: with the `module` param present and the module file readable, a
0-row input is returned unchanged for **every** possible guest phase (the
interpreter, meta parsing, write-declaration, budget and IO enforcement are
all inside `runGuest` and are never consulted); a missing `module` param or
an unreadable module path still fails. -/
theorem njs_zero_row_passthrough (fs : String → Option String)
    (runGuest : String → ColumnBatch → Except EngineError ColumnBatch)
    (p : NodeParams) (input : ColumnBatch) (path src : String) :
    (p.module = some path → fs path = some src → input.rowCount = 0 →
      njsRun fs runGuest p input = .ok input) ∧
    (p.module = none → njsRun fs runGuest p input = .error .moduleParamMissing) ∧
    (p.module = some path → fs path = none →
      njsRun fs runGuest p input = .error (.moduleOpenFailed path)) := by
  refine ⟨?_, ?_, ?_⟩
  · intro hm hf hz
    simp [njsRun, hm, hf, hz]
  · intro hm
    simp [njsRun, hm]
  · intro hm hf
    simp [njsRun, hm, hf]

/-- Witness for C10: a hostile guest phase that always errors is never
reached on a 0-row input. -/
theorem njs_zero_row_passthrough_witness :
    njsRun (fun s => if s = "m.njs" then some "module source" else none)
      (fun _ _ => .error .danglingHandle)
      { module := some "m.njs" } ({} : ColumnBatch) = .ok ({} : ColumnBatch) :=
  (njs_zero_row_passthrough (fun s => if s = "m.njs" then some "module source" else none)
    (fun _ _ => .error .danglingHandle) { module := some "m.njs" } {}
    "m.njs" "module source").1 rfl rfl rfl

/-! ## C3 — Executor input assembly -/

/-- C3 counterexample: a node declaring two inputs receives only the first
predecessor's output (1 row), not the 2-row row-wise concatenation the spec
prescribes. -/
theorem executor_input_not_concat :
    gatherInput [("a", ⟨1, []⟩), ("b", ⟨1, []⟩)] ["a", "b"] = (⟨1, []⟩ : ColumnBatch) ∧
    (gatherInput [("a", ⟨1, []⟩), ("b", ⟨1, []⟩)] ["a", "b"]).rowCount = 1 ∧
    specConcatRowCount [⟨1, []⟩, ⟨1, []⟩] = 2 := by
  decide

/-- C3 amended: the Executor assembles every node's input batch as the
output of its **first** declared predecessor (an empty batch when the node
declares no inputs or the predecessor's output is absent), for single-input
and multi-input nodes alike; it never concatenates predecessor outputs. -/
theorem executor_input_first_pred (outputs : OutputMap) (inputs : List String) :
    (inputs = [] → gatherInput outputs inputs = {}) ∧
    (∀ first rest, inputs = first :: rest →
      gatherInput outputs inputs = (outputs.lookup first).getD {}) := by
  constructor
  · intro hmt; subst hmt; rfl
  · intro first rest hcons; subst hcons
    unfold gatherInput
    cases hl : outputs.lookup first <;> simp [hl]

/-- Witness for C3's amended statement: with two predecessors available, the
node with inputs (a, b) receives exactly a's output. -/
theorem executor_input_first_pred_witness :
    gatherInput [("a", ⟨3, []⟩), ("b", ⟨2, []⟩)] ["a", "b"] = (⟨3, []⟩ : ColumnBatch) := by
  have hmain := (executor_input_first_pred [("a", ⟨3, []⟩), ("b", ⟨2, []⟩)]
    ["a", "b"]).2 "a" ["b"] rfl
  rw [hmain]
  decide

/-! ## C6 — Complexity budget enforcement -/

theorem checkComplexity_violations_iff (m : ComplexityMetrics) (b : ComplexityBudget) :
    (checkComplexityBudget m b).passed = true ↔ ¬ HardLimitViolated m b := by
  unfold HardLimitViolated
  dsimp only [checkComplexityBudget]
  split_ifs with h1 h2 h3 h4 <;> simp_all [gt_iff_lt]

theorem checkComplexity_warnings_iff (m : ComplexityMetrics) (b : ComplexityBudget) :
    (checkComplexityBudget m b).hasWarnings = true ↔ SoftLimitExceeded m b := by
  unfold SoftLimitExceeded
  dsimp only [checkComplexityBudget]
  split_ifs with h1 h2 <;> simp_all [gt_iff_lt]

theorem checkComplexity_code_eq (m : ComplexityMetrics) (b : ComplexityBudget) :
    (checkComplexityBudget m b).errorCode =
      (if (checkComplexityBudget m b).passed = true then "" else "PLAN_TOO_COMPLEX") :=
  rfl

/-- C6: the complexity check fails with PLAN_TOO_COMPLEX iff some hard limit
is positive and its metric exceeds it; soft limits only raise the warning
flag and never fail the check; a budget whose four hard limits are all 0
never rejects. -/
theorem complexity_budget_check_spec (m : ComplexityMetrics) (b : ComplexityBudget) :
    ((checkComplexityBudget m b).passed = false ↔ HardLimitViolated m b) ∧
    ((checkComplexityBudget m b).errorCode = "PLAN_TOO_COMPLEX" ↔ HardLimitViolated m b) ∧
    ((checkComplexityBudget m b).hasWarnings = true ↔ SoftLimitExceeded m b) ∧
    (b.nodeCountHard = 0 → b.maxDepthHard = 0 → b.fanoutPeakHard = 0 →
      b.faninPeakHard = 0 →
      (checkComplexityBudget m b).passed = true ∧
      (checkComplexityBudget m b).errorCode = "") := by
  have hpassed := checkComplexity_violations_iff m b
  have hcode := checkComplexity_code_eq m b
  have hbool : (checkComplexityBudget m b).passed = false ↔
      ¬ (checkComplexityBudget m b).passed = true := by
    cases hcase : (checkComplexityBudget m b).passed <;> simp
  refine ⟨?_, ?_, checkComplexity_warnings_iff m b, ?_⟩
  · rw [hbool, hpassed, not_not]
  · rw [hcode]
    by_cases hp : (checkComplexityBudget m b).passed = true
    · rw [if_pos hp]
      constructor
      · intro habs; exact absurd habs (by decide)
      · intro hv; exact absurd hv (hpassed.mp hp)
    · rw [if_neg hp]
      constructor
      · intro _
        by_contra hno
        exact hp (hpassed.mpr hno)
      · intro _; rfl
  · intro h1 h2 h3 h4
    have hnot : ¬ HardLimitViolated m b := by
      unfold HardLimitViolated
      rw [h1, h2, h3, h4]
      rintro (⟨hlt, _⟩ | ⟨hlt, _⟩ | ⟨hlt, _⟩ | ⟨hlt, _⟩) <;> exact absurd hlt (by decide)
    have hp := hpassed.mpr hnot
    refine ⟨hp, ?_⟩
    rw [hcode, if_pos hp]

/-- Witness for C6: the all-zero (all-unset) budget accepts a plan whose
metrics are enormous. -/
theorem complexity_budget_check_spec_witness :
    (checkComplexityBudget
      { nodeCount := 1000000, edgeCount := 1000000, maxDepth := 1000000,
        fanoutPeak := 1000000, faninPeak := 1000000 } {}).passed = true :=
  (complexity_budget_check_spec
    { nodeCount := 1000000, edgeCount := 1000000, maxDepth := 1000000,
      fanoutPeak := 1000000, faninPeak := 1000000 } {}).2.2.2 rfl rfl rfl rfl |>.1

/-! ## C7 — Budget document parsing defaults -/

/-- C7 counterexample: parsing the empty JSON object does **not** yield the
documented default budget — the hard and soft limits come back 0 (unset),
not 2000/120/16/16/10000/8000. -/
theorem parse_budget_empty_not_default :
    (parseComplexityBudget {}).nodeCountHard = 0 ∧
    ComplexityBudget.defaultBudget.nodeCountHard = 2000 ∧
    parseComplexityBudget {} ≠ ComplexityBudget.defaultBudget := by
  refine ⟨rfl, rfl, ?_⟩
  intro hcontra
  have hfield := congrArg ComplexityBudget.nodeCountHard hcontra
  simp [parseComplexityBudget, ComplexityBudget.defaultBudget] at hfield

/-- C7 amended: each field absent from a budget document keeps the
default-constructed value — every hard and soft limit 0 (meaning unset) and
score weights (1, 5, 2, 2, 0.5); in particular the empty document parses to
the all-unset budget.  (The documented budget `node_count=2000` etc. is
`ComplexityBudget::Default()`, applied by the compiler only when no budget
document is supplied at all.) -/
theorem parse_budget_field_defaults (doc : ComplexityBudgetDoc) :
    parseComplexityBudget doc =
      { nodeCountHard := (doc.hard.bind HardLimitsDoc.nodeCount).getD 0,
        maxDepthHard := (doc.hard.bind HardLimitsDoc.maxDepth).getD 0,
        fanoutPeakHard := (doc.hard.bind HardLimitsDoc.fanoutPeak).getD 0,
        faninPeakHard := (doc.hard.bind HardLimitsDoc.faninPeak).getD 0,
        edgeCountSoft := (doc.soft.bind SoftLimitsDoc.edgeCount).getD 0,
        complexityScoreSoft := (doc.soft.bind SoftLimitsDoc.complexityScore).getD 0,
        scoreWeights :=
          { nodeCount := (doc.scoreWeights.bind ScoreWeightsDoc.nodeCount).getD 1,
            maxDepth := (doc.scoreWeights.bind ScoreWeightsDoc.maxDepth).getD 5,
            fanoutPeak := (doc.scoreWeights.bind ScoreWeightsDoc.fanoutPeak).getD 2,
            faninPeak := (doc.scoreWeights.bind ScoreWeightsDoc.faninPeak).getD 2,
            edgeCount := (doc.scoreWeights.bind ScoreWeightsDoc.edgeCount).getD (1 / 2) } } ∧
    parseComplexityBudget {} = ({} : ComplexityBudget) := by
  constructor
  · rcases doc with ⟨hard, soft, sw⟩
    cases hard <;> cases soft <;> cases sw <;>
      simp [parseComplexityBudget, Option.bind]
  · rfl

/-! ## C9 — meta.env validation is absent from ParsePlan -/

/-- C9 (code bug): `ParsePlan` never reads the document's `meta` object.  A
plan document whose `meta.env` is the invalid value "staging" parses
successfully and the output plan's env silently stays the caller's default
"dev" — the unit tests (plan_env_test.cpp, "rejects invalid env values")
require this very input to fail. -/
theorem parse_plan_accepts_invalid_env :
    parsePlan { name := some "test", metaEnv := some "staging", nodes := [] } {} =
      .ok { name := "test", version := 1, meta := {}, nodes := [], logging := {} } ∧
    ((parsePlan { name := some "test", metaEnv := some "staging", nodes := [] }
      {}).toOption.map (fun pl => pl.meta.env)) = some "dev" := by
  constructor <;> rfl

/-! ## C2 — Guest writer allocation enforcement -/

theorem checkWriteAllowed_not_declared (ctx : BatchContext) (k : Int)
    (expected : KeyType) (hnot : ctx.allowedWrites.contains k = false) :
    ctx.checkWriteAllowed k expected = .error (.writeNotDeclared k) := by
  unfold BatchContext.checkWriteAllowed
  split_ifs with hcond
  · rw [hnot] at hcond
    exact absurd hcond (by simp)
  · rfl

theorem checkWriteAllowed_type_mismatch (ctx : BatchContext) (k : Int)
    (expected : KeyType) (reg : KeyRegistry) (ki : KeyInfo)
    (hc : ctx.allowedWrites.contains k = true) (hr : ctx.registry = some reg)
    (hk : regGetById reg k = some ki) (ht : ki.type ≠ expected) :
    ctx.checkWriteAllowed k expected = .error (.typeMismatchKey k) := by
  unfold BatchContext.checkWriteAllowed
  rw [if_neg (by simp only [not_not]; exact hc)]
  rw [hr]
  simp only []
  rw [hk]
  simp [ht]

theorem checkBudget_error_bytes (b : NjsBudget) (bytes cells : Int)
    (hov : b.bytesWritten + bytes > b.maxWriteBytes) :
    BatchContext.checkBudget b bytes cells = .error .budgetBytes := by
  unfold BatchContext.checkBudget
  rw [if_pos hov]

theorem checkBudget_error_cells (b : NjsBudget) (bytes cells : Int)
    (hno : ¬ b.bytesWritten + bytes > b.maxWriteBytes)
    (hov : b.cellsWritten + cells > b.maxWriteCells) :
    BatchContext.checkBudget b bytes cells = .error .budgetCells := by
  unfold BatchContext.checkBudget
  rw [if_neg hno, if_pos hov]

/-- On success the running totals advance by exactly the allocation's bytes
and cells, and the pre-call totals were within budget. -/
theorem checkBudget_ok_spec (b : NjsBudget) (bytes cells : Int) (b' : NjsBudget)
    (hok : BatchContext.checkBudget b bytes cells = .ok b') :
    b'.bytesWritten = b.bytesWritten + bytes ∧
    b'.cellsWritten = b.cellsWritten + cells ∧
    b.bytesWritten + bytes ≤ b.maxWriteBytes ∧
    b.cellsWritten + cells ≤ b.maxWriteCells := by
  unfold BatchContext.checkBudget at hok
  split_ifs at hok with h1 h2
  all_goals
    first
      | (simp at hok; done)
      | (rw [Except.ok.injEq] at hok
         cases hok
         exact ⟨rfl, rfl, le_of_not_lt h1, le_of_not_lt h2⟩)

/-- C2: every writer allocation fails with WriteNotDeclared when the key is
not in meta.writes; with TypeMismatch when the registry declares a different
type for the key; with BudgetExceeded (bytes or cells) when adding the
allocation to the running totals would exceed the budget — both comparisons
use the pre-call totals, and the totals advance only on success, by exactly
the allocation's size. -/
theorem write_allocator_enforcement (ctx : BatchContext) (h : Heap) (k : Int)
    (dim : Nat) :
    (ctx.allowedWrites.contains k = false →
      ctx.allocateF32 h k = .error (.writeNotDeclared k) ∧
      ctx.allocateF32Vec h k dim = .error (.writeNotDeclared k) ∧
      ctx.allocateI64 h k = .error (.writeNotDeclared k)) ∧
    (∀ reg ki, ctx.allowedWrites.contains k = true → ctx.registry = some reg →
      regGetById reg k = some ki →
      (ki.type ≠ .f32 → ctx.allocateF32 h k = .error (.typeMismatchKey k)) ∧
      (ki.type ≠ .f32vec → ctx.allocateF32Vec h k dim = .error (.typeMismatchKey k)) ∧
      (ki.type ≠ .i64 → ctx.allocateI64 h k = .error (.typeMismatchKey k))) ∧
    (ctx.checkWriteAllowed k .f32 = .ok () →
      (ctx.budget.bytesWritten + (ctx.batch.rowCount : Int) * 4 >
          ctx.budget.maxWriteBytes →
        ctx.allocateF32 h k = .error .budgetBytes) ∧
      (¬ ctx.budget.bytesWritten + (ctx.batch.rowCount : Int) * 4 >
          ctx.budget.maxWriteBytes →
        ctx.budget.cellsWritten + (ctx.batch.rowCount : Int) >
          ctx.budget.maxWriteCells →
        ctx.allocateF32 h k = .error .budgetCells)) ∧
    (ctx.checkWriteAllowed k .f32vec = .ok () →
      (ctx.budget.bytesWritten + (ctx.batch.rowCount : Int) * (dim : Int) * 4 >
          ctx.budget.maxWriteBytes →
        ctx.allocateF32Vec h k dim = .error .budgetBytes) ∧
      (¬ ctx.budget.bytesWritten + (ctx.batch.rowCount : Int) * (dim : Int) * 4 >
          ctx.budget.maxWriteBytes →
        ctx.budget.cellsWritten + (ctx.batch.rowCount : Int) >
          ctx.budget.maxWriteCells →
        ctx.allocateF32Vec h k dim = .error .budgetCells)) ∧
    (ctx.checkWriteAllowed k .i64 = .ok () →
      (ctx.budget.bytesWritten + (ctx.batch.rowCount : Int) * 8 >
          ctx.budget.maxWriteBytes →
        ctx.allocateI64 h k = .error .budgetBytes) ∧
      (¬ ctx.budget.bytesWritten + (ctx.batch.rowCount : Int) * 8 >
          ctx.budget.maxWriteBytes →
        ctx.budget.cellsWritten + (ctx.batch.rowCount : Int) >
          ctx.budget.maxWriteCells →
        ctx.allocateI64 h k = .error .budgetCells)) ∧
    (∀ ctx' h' p, ctx.allocateF32 h k = .ok (ctx', h', p) →
      ctx'.budget.bytesWritten =
        ctx.budget.bytesWritten + (ctx.batch.rowCount : Int) * 4 ∧
      ctx'.budget.cellsWritten = ctx.budget.cellsWritten + (ctx.batch.rowCount : Int) ∧
      ctx.budget.bytesWritten + (ctx.batch.rowCount : Int) * 4 ≤
        ctx.budget.maxWriteBytes ∧
      ctx.budget.cellsWritten + (ctx.batch.rowCount : Int) ≤
        ctx.budget.maxWriteCells) ∧
    (∀ ctx' h' p, ctx.allocateF32Vec h k dim = .ok (ctx', h', p) →
      ctx'.budget.bytesWritten =
        ctx.budget.bytesWritten + (ctx.batch.rowCount : Int) * (dim : Int) * 4 ∧
      ctx'.budget.cellsWritten = ctx.budget.cellsWritten + (ctx.batch.rowCount : Int)) ∧
    (∀ ctx' h' p, ctx.allocateI64 h k = .ok (ctx', h', p) →
      ctx'.budget.bytesWritten =
        ctx.budget.bytesWritten + (ctx.batch.rowCount : Int) * 8 ∧
      ctx'.budget.cellsWritten = ctx.budget.cellsWritten + (ctx.batch.rowCount : Int)) := by
  refine ⟨?_, ?_, ?_, ?_, ?_, ?_, ?_, ?_⟩
  · intro hnot
    refine ⟨?_, ?_, ?_⟩
    · unfold BatchContext.allocateF32
      rw [checkWriteAllowed_not_declared ctx k _ hnot]
    · unfold BatchContext.allocateF32Vec
      rw [checkWriteAllowed_not_declared ctx k _ hnot]
    · unfold BatchContext.allocateI64
      rw [checkWriteAllowed_not_declared ctx k _ hnot]
  · intro reg ki hc hr hk
    refine ⟨?_, ?_, ?_⟩
    · intro ht
      unfold BatchContext.allocateF32
      rw [checkWriteAllowed_type_mismatch ctx k _ reg ki hc hr hk ht]
    · intro ht
      unfold BatchContext.allocateF32Vec
      rw [checkWriteAllowed_type_mismatch ctx k _ reg ki hc hr hk ht]
    · intro ht
      unfold BatchContext.allocateI64
      rw [checkWriteAllowed_type_mismatch ctx k _ reg ki hc hr hk ht]
  · intro hok
    constructor
    · intro hov
      unfold BatchContext.allocateF32
      rw [hok, checkBudget_error_bytes _ _ _ hov]
    · intro hno hov
      unfold BatchContext.allocateF32
      rw [hok, checkBudget_error_cells _ _ _ hno hov]
  · intro hok
    constructor
    · intro hov
      unfold BatchContext.allocateF32Vec
      rw [hok, checkBudget_error_bytes _ _ _ hov]
    · intro hno hov
      unfold BatchContext.allocateF32Vec
      rw [hok, checkBudget_error_cells _ _ _ hno hov]
  · intro hok
    constructor
    · intro hov
      unfold BatchContext.allocateI64
      rw [hok, checkBudget_error_bytes _ _ _ hov]
    · intro hno hov
      unfold BatchContext.allocateI64
      rw [hok, checkBudget_error_cells _ _ _ hno hov]
  · intro ctx' h' p hok
    unfold BatchContext.allocateF32 at hok
    cases hw : ctx.checkWriteAllowed k .f32 with
    | error e => rw [hw] at hok; simp at hok
    | ok u =>
      rw [hw] at hok
      cases hb : BatchContext.checkBudget ctx.budget (ctx.batch.rowCount * 4)
          ctx.batch.rowCount with
      | error e => rw [hb] at hok; simp at hok
      | ok bnew =>
        rw [hb] at hok
        have hspec := checkBudget_ok_spec _ _ _ _ hb
        simp only [Except.ok.injEq, Prod.mk.injEq] at hok
        obtain ⟨hctx, -, -⟩ := hok
        subst hctx
        exact ⟨hspec.1, hspec.2.1, hspec.2.2.1, hspec.2.2.2⟩
  · intro ctx' h' p hok
    unfold BatchContext.allocateF32Vec at hok
    cases hw : ctx.checkWriteAllowed k .f32vec with
    | error e => rw [hw] at hok; simp at hok
    | ok u =>
      rw [hw] at hok
      cases hb : BatchContext.checkBudget ctx.budget (ctx.batch.rowCount * dim * 4)
          ctx.batch.rowCount with
      | error e => rw [hb] at hok; simp at hok
      | ok bnew =>
        rw [hb] at hok
        have hspec := checkBudget_ok_spec _ _ _ _ hb
        simp only [Except.ok.injEq, Prod.mk.injEq] at hok
        obtain ⟨hctx, -, -⟩ := hok
        subst hctx
        exact ⟨hspec.1, hspec.2.1⟩
  · intro ctx' h' p hok
    unfold BatchContext.allocateI64 at hok
    cases hw : ctx.checkWriteAllowed k .i64 with
    | error e => rw [hw] at hok; simp at hok
    | ok u =>
      rw [hw] at hok
      cases hb : BatchContext.checkBudget ctx.budget (ctx.batch.rowCount * 8)
          ctx.batch.rowCount with
      | error e => rw [hb] at hok; simp at hok
      | ok bnew =>
        rw [hb] at hok
        have hspec := checkBudget_ok_spec _ _ _ _ hb
        simp only [Except.ok.injEq, Prod.mk.injEq] at hok
        obtain ⟨hctx, -, -⟩ := hok
        subst hctx
        exact ⟨hspec.1, hspec.2.1⟩

/-- Witness for C2: an undeclared key is rejected; a declared key of i64 type
rejects an f32 writer; a 100-row f32 writer against a 10-cell budget fails
on cells with the totals check done before any increment. -/
theorem write_allocator_enforcement_witness :
    ({ batch := ⟨1, []⟩, registry := none, allowedWrites := [],
       budget := {} } : BatchContext).allocateF32 [] 7 =
      .error (.writeNotDeclared 7) ∧
    ({ batch := ⟨1, []⟩, registry := some [⟨5, "cand.candidate_id", .i64⟩],
       allowedWrites := [5], budget := {} } : BatchContext).allocateF32 [] 5 =
      .error (.typeMismatchKey 5) ∧
    ({ batch := ⟨100, []⟩, registry := none, allowedWrites := [5],
       budget := { maxWriteCells := 10 } } : BatchContext).allocateF32 [] 5 =
      .error .budgetCells := by
  refine ⟨?_, ?_, ?_⟩
  · exact ((write_allocator_enforcement
      { batch := ⟨1, []⟩, registry := none, allowedWrites := [], budget := {} }
      [] 7 0).1 (by decide)).1
  · exact (((write_allocator_enforcement
      { batch := ⟨1, []⟩, registry := some [⟨5, "cand.candidate_id", .i64⟩],
        allowedWrites := [5], budget := {} } [] 5 0).2.1
      [⟨5, "cand.candidate_id", .i64⟩] ⟨5, "cand.candidate_id", .i64⟩
      (by decide) rfl (by decide)).1 (by decide))
  · exact ((write_allocator_enforcement
      { batch := ⟨100, []⟩, registry := none, allowedWrites := [5],
        budget := { maxWriteCells := 10 } } [] 5 0).2.2.1
      rfl).2 (by decide) (by decide)

/-! ## Association-list lemmas (for the `unordered_map` model) -/

theorem lookup_mem {β : Type} {l : List (Int × β)} {k : Int} {v : β}
    (h : l.lookup k = some v) : (k, v) ∈ l := by
  induction l with
  | nil => simp [List.lookup] at h
  | cons hd tl ih =>
    rcases hd with ⟨k', v'⟩
    by_cases hk : k = k'
    · subst hk
      rw [List.lookup_cons, beq_self_eq_true] at h
      simp only [Option.some.injEq] at h
      subst h
      exact List.mem_cons_self _ _
    · rw [List.lookup_cons, beq_false_of_ne hk] at h
      exact List.mem_cons_of_mem _ (ih h)

theorem lookup_eq_none_iff {β : Type} (l : List (Int × β)) (k : Int) :
    l.lookup k = none ↔ k ∉ l.map Prod.fst := by
  induction l with
  | nil => simp [List.lookup]
  | cons hd tl ih =>
    rcases hd with ⟨k', v'⟩
    by_cases hk : k = k'
    · subst hk
      rw [List.lookup_cons, beq_self_eq_true]
      simp
    · rw [List.lookup_cons, beq_false_of_ne hk]
      simp only [List.map_cons, List.mem_cons]
      rw [ih]
      constructor
      · intro hnone hor
        rcases hor with h1 | h2
        · exact hk h1
        · exact hnone h2
      · intro hnot hmem
        exact hnot (Or.inr hmem)

theorem lookup_of_mem_nodup {β : Type} {l : List (Int × β)} {k : Int} {v : β}
    (hnd : (l.map Prod.fst).Nodup) (hm : (k, v) ∈ l) : l.lookup k = some v := by
  induction l with
  | nil => simp at hm
  | cons hd tl ih =>
    rcases hd with ⟨k', v'⟩
    rw [List.map_cons, List.nodup_cons] at hnd
    rw [List.mem_cons] at hm
    rcases hm with h1 | h2
    · rw [Prod.mk.injEq] at h1
      rcases h1 with ⟨hk, hv⟩
      subst hk; subst hv
      rw [List.lookup_cons, beq_self_eq_true]
    · have hk : k ≠ k' := by
        intro heq
        subst heq
        exact hnd.1 (List.mem_map.mpr ⟨(k, v), h2, rfl⟩)
      rw [List.lookup_cons, beq_false_of_ne hk]
      exact ih hnd.2 h2

theorem lookup_append {β : Type} (l1 l2 : List (Int × β)) (k : Int) :
    (l1 ++ l2).lookup k =
      match l1.lookup k with
      | some v => some v
      | none => l2.lookup k := by
  induction l1 with
  | nil => simp [List.lookup]
  | cons hd tl ih =>
    rcases hd with ⟨k', v'⟩
    rw [List.cons_append, List.lookup_cons, List.lookup_cons]
    by_cases hk : k = k'
    · subst hk
      rw [beq_self_eq_true]
    · rw [beq_false_of_ne hk]
      exact ih

theorem assocSet_lookup_self {β : Type} (l : List (Int × β)) (k : Int) (v : β) :
    (assocSet l k v).lookup k = some v := by
  induction l with
  | nil =>
    show List.lookup k [(k, v)] = some v
    rw [List.lookup_cons, beq_self_eq_true]
  | cons hd tl ih =>
    rcases hd with ⟨k', v'⟩
    unfold assocSet
    by_cases hk : k' = k
    · rw [if_pos hk, List.lookup_cons, beq_self_eq_true]
    · rw [if_neg hk, List.lookup_cons, beq_false_of_ne (fun h => hk h.symm)]
      exact ih

theorem assocSet_lookup_ne {β : Type} (l : List (Int × β)) (k : Int) (v : β)
    (k' : Int) (h : k' ≠ k) : (assocSet l k v).lookup k' = l.lookup k' := by
  induction l with
  | nil =>
    show List.lookup k' [(k, v)] = none
    rw [List.lookup_cons, beq_false_of_ne h]
    rfl
  | cons hd tl ih =>
    rcases hd with ⟨k0, v0⟩
    unfold assocSet
    by_cases hk : k0 = k
    · subst hk
      rw [if_pos rfl, List.lookup_cons, List.lookup_cons, beq_false_of_ne h]
    · rw [if_neg hk, List.lookup_cons, List.lookup_cons]
      by_cases hk0 : k' = k0
      · subst hk0
        rw [beq_self_eq_true]
      · rw [beq_false_of_ne hk0]
        exact ih

theorem assocSet_keys_of_mem {β : Type} (l : List (Int × β)) (k : Int) (v : β)
    (h : k ∈ l.map Prod.fst) :
    (assocSet l k v).map Prod.fst = l.map Prod.fst := by
  induction l with
  | nil => simp at h
  | cons hd tl ih =>
    rcases hd with ⟨k0, v0⟩
    unfold assocSet
    by_cases hk : k0 = k
    · rw [if_pos hk]
      simp [hk]
    · rw [if_neg hk]
      rw [List.map_cons, List.mem_cons] at h
      rcases h with h1 | h2
      · exact absurd h1.symm hk
      · simp [ih h2]

/-! ## MergeKeeps structural lemmas -/

/-- At most one row is kept per candidate-id. -/
theorem mergeKeeps_unique (idCol scoreCol : Option Column) (dedup : String)
    (n j1 j2 : Nat) (h1 : MergeKeeps idCol scoreCol dedup n j1)
    (h2 : MergeKeeps idCol scoreCol dedup n j2)
    (hid : rowCandId idCol j1 = rowCandId idCol j2) : j1 = j2 := by
  rcases h1 with ⟨hn1, hs1, hc1⟩
  rcases h2 with ⟨hn2, hs2, hc2⟩
  by_cases hd : dedup = "max_base"
  · rw [if_pos hd] at hc1 hc2
    rcases Nat.lt_trichotomy j1 j2 with hlt | heq | hgt
    · exact absurd (hc2.1 j1 hlt hid) (not_lt.mpr (hc1.2 j2 hn2 hid.symm))
    · exact heq
    · exact absurd (hc1.1 j2 hgt hid.symm) (not_lt.mpr (hc2.2 j1 hn1 hid))
  · rw [if_neg hd] at hc1 hc2
    rcases Nat.lt_trichotomy j1 j2 with hlt | heq | hgt
    · exact absurd hid (hc2 j1 hlt)
    · exact heq
    · exact absurd hid.symm (hc1 j2 hgt)

/-- A row whose id has not occurred before is the keeper the moment it is
scanned. -/
theorem mergeKeeps_new (idCol scoreCol : Option Column) (dedup : String)
    (m : Nat) (cid : Int) (hm : rowCandId idCol m = some cid)
    (hfresh : ∀ j < m, rowCandId idCol j ≠ some cid) :
    MergeKeeps idCol scoreCol dedup (m + 1) m := by
  refine ⟨Nat.lt_succ_self m, by rw [hm]; rfl, ?_⟩
  by_cases hd : dedup = "max_base"
  · rw [if_pos hd]
    constructor
    · intro j hj hid
      exact absurd (hid.trans hm) (hfresh j hj)
    · intro j hj hid
      rcases Nat.lt_succ_iff_lt_or_eq.mp hj with hlt | heq
      · exact absurd (hid.trans hm) (hfresh j hlt)
      · subst heq; exact le_rfl
  · rw [if_neg hd]
    intro j hj hid
    exact hfresh j hj (hid.trans hm)

/-- Scanning a row of a *different* id does not change who is kept. -/
theorem mergeKeeps_succ_other (idCol scoreCol : Option Column) (dedup : String)
    (m j : Nat) (cid : Int) (hj : rowCandId idCol j = some cid)
    (hm : rowCandId idCol m ≠ some cid) :
    (MergeKeeps idCol scoreCol dedup (m + 1) j ↔
      MergeKeeps idCol scoreCol dedup m j) := by
  have hjm : j ≠ m := by
    intro heq
    exact hm (heq ▸ hj)
  constructor
  · rintro ⟨hn, hs, hc⟩
    have hn' : j < m := by
      rcases Nat.lt_succ_iff_lt_or_eq.mp hn with hlt | heq
      · exact hlt
      · exact absurd heq hjm
    refine ⟨hn', hs, ?_⟩
    by_cases hd : dedup = "max_base"
    · rw [if_pos hd] at hc ⊢
      exact ⟨hc.1, fun j' hj' hid => hc.2 j' (Nat.lt_succ_of_lt hj') hid⟩
    · rw [if_neg hd] at hc ⊢
      exact hc
  · rintro ⟨hn, hs, hc⟩
    refine ⟨Nat.lt_succ_of_lt hn, hs, ?_⟩
    by_cases hd : dedup = "max_base"
    · rw [if_pos hd] at hc ⊢
      refine ⟨hc.1, ?_⟩
      intro j' hj' hid
      rcases Nat.lt_succ_iff_lt_or_eq.mp hj' with hlt | heq
      · exact hc.2 j' hlt hid
      · subst heq
        exact absurd (hid.trans hj) hm
    · rw [if_neg hd] at hc ⊢
      exact hc

/-- Restricting the scan bound: a keeper after `m + 1` rows that is not the
new row was already the keeper after `m` rows. -/
theorem mergeKeeps_mono_down (idCol scoreCol : Option Column) (dedup : String)
    (m j : Nat) (h : MergeKeeps idCol scoreCol dedup (m + 1) j) (hj : j < m) :
    MergeKeeps idCol scoreCol dedup m j := by
  rcases h with ⟨-, hs, hc⟩
  refine ⟨hj, hs, ?_⟩
  by_cases hd : dedup = "max_base"
  · rw [if_pos hd] at hc ⊢
    exact ⟨hc.1, fun j' hj' hid => hc.2 j' (Nat.lt_succ_of_lt hj') hid⟩
  · rw [if_neg hd] at hc ⊢
    exact hc

/-- In first-wins mode the keeping condition does not depend on the bound. -/
theorem mergeKeeps_succ_first (idCol scoreCol : Option Column) (dedup : String)
    (hd : dedup ≠ "max_base") (m j : Nat) (hj : j < m)
    (h : MergeKeeps idCol scoreCol dedup m j) :
    MergeKeeps idCol scoreCol dedup (m + 1) j := by
  rcases h with ⟨-, hs, hc⟩
  refine ⟨Nat.lt_succ_of_lt hj, hs, ?_⟩
  rw [if_neg hd] at hc ⊢
  exact hc

/-- max_base: the old keeper survives a same-id row of no greater score. -/
theorem mergeKeeps_keep_of_le (idCol scoreCol : Option Column)
    (m j0 : Nat) (cid : Int) (hm : rowCandId idCol m = some cid)
    (hj0 : rowCandId idCol j0 = some cid)
    (h : MergeKeeps idCol scoreCol "max_base" m j0)
    (hle : rowBaseScore scoreCol m ≤ rowBaseScore scoreCol j0) :
    MergeKeeps idCol scoreCol "max_base" (m + 1) j0 := by
  rcases h with ⟨hn, hs, hc⟩
  rw [if_pos rfl] at hc
  refine ⟨Nat.lt_succ_of_lt hn, hs, ?_⟩
  rw [if_pos rfl]
  refine ⟨hc.1, ?_⟩
  intro j' hj' hid
  rcases Nat.lt_succ_iff_lt_or_eq.mp hj' with hlt | heq
  · exact hc.2 j' hlt hid
  · subst heq
    exact hle

/-- max_base: the new row is not kept when the old keeper's score is no
smaller. -/
theorem mergeKeeps_self_not_of_le (idCol scoreCol : Option Column)
    (m j0 : Nat) (cid : Int) (hm : rowCandId idCol m = some cid)
    (hj0 : rowCandId idCol j0 = some cid) (hj0m : j0 < m)
    (hle : rowBaseScore scoreCol m ≤ rowBaseScore scoreCol j0) :
    ¬ MergeKeeps idCol scoreCol "max_base" (m + 1) m := by
  rintro ⟨-, -, hc⟩
  rw [if_pos rfl] at hc
  have := hc.1 j0 hj0m (hj0.trans hm.symm)
  exact absurd hle (not_le.mpr this)

/-- max_base: a strictly larger same-id score makes the new row the keeper. -/
theorem mergeKeeps_new_of_gt (idCol scoreCol : Option Column)
    (m j0 : Nat) (cid : Int) (hm : rowCandId idCol m = some cid)
    (hj0 : rowCandId idCol j0 = some cid)
    (h : MergeKeeps idCol scoreCol "max_base" m j0)
    (hgt : rowBaseScore scoreCol j0 < rowBaseScore scoreCol m) :
    MergeKeeps idCol scoreCol "max_base" (m + 1) m := by
  rcases h with ⟨hn, -, hc⟩
  rw [if_pos rfl] at hc
  refine ⟨Nat.lt_succ_self m, by rw [hm]; rfl, ?_⟩
  rw [if_pos rfl]
  constructor
  · intro j hj hid
    have hle := hc.2 j hj (hid.trans (hm.trans hj0.symm))
    exact lt_of_le_of_lt hle hgt
  · intro j hj hid
    rcases Nat.lt_succ_iff_lt_or_eq.mp hj with hlt | heq
    · exact le_of_lt (lt_of_le_of_lt (hc.2 j hlt (hid.trans (hm.trans hj0.symm))) hgt)
    · subst heq
      exact le_rfl

/-- When the `best_row` map is unchanged by a scan step, the lookup/keeper
correspondence carries from bound `m` to `m + 1` provided the stored keeper
of the new row's id remains the keeper. -/
theorem bestRow_stable_iff (idCol scoreCol : Option Column) (dedup : String)
    (acc : List (Int × Nat)) (m j0 : Nat) (cid0 : Int)
    (hm : rowCandId idCol m = some cid0)
    (hlook : acc.lookup cid0 = some j0)
    (hj0succ : MergeKeeps idCol scoreCol dedup (m + 1) j0)
    (ih1 : ∀ cid j, acc.lookup cid = some j ↔
      (rowCandId idCol j = some cid ∧ MergeKeeps idCol scoreCol dedup m j)) :
    ∀ cid j, acc.lookup cid = some j ↔
      (rowCandId idCol j = some cid ∧ MergeKeeps idCol scoreCol dedup (m + 1) j) := by
  have hj0id : rowCandId idCol j0 = some cid0 := ((ih1 cid0 j0).mp hlook).1
  intro cid j
  by_cases hcid : cid = cid0
  · subst hcid
    constructor
    · intro hl
      rw [hlook] at hl
      have hjj0 : j = j0 := (Option.some.inj hl).symm
      subst hjj0
      exact ⟨hj0id, hj0succ⟩
    · rintro ⟨hid, hkp⟩
      have hjj0 : j = j0 :=
        mergeKeeps_unique idCol scoreCol dedup (m + 1) j j0 hkp hj0succ
          (hid.trans hj0id.symm)
      subst hjj0
      exact hlook
  · have hne : rowCandId idCol m ≠ some cid := by
      rw [hm]
      intro hcontra
      exact hcid (Option.some.inj hcontra).symm
    constructor
    · intro hl
      obtain ⟨hid, hkp⟩ := (ih1 cid j).mp hl
      exact ⟨hid, (mergeKeeps_succ_other idCol scoreCol dedup m j cid hid hne).mpr hkp⟩
    · rintro ⟨hid, hkp⟩
      exact (ih1 cid j).mpr
        ⟨hid, (mergeKeeps_succ_other idCol scoreCol dedup m j cid hid hne).mp hkp⟩

/-- Invariant of the `best_row` scan: lookups name exactly the keepers, the
map's keys are distinct, and absent ids have not occurred. -/
theorem mergeBestRow_spec (idCol scoreCol : Option Column) (dedup : String)
    (m : Nat) :
    (∀ cid j, (mergeBestRow idCol scoreCol dedup m).lookup cid = some j ↔
      (rowCandId idCol j = some cid ∧ MergeKeeps idCol scoreCol dedup m j)) ∧
    ((mergeBestRow idCol scoreCol dedup m).map Prod.fst).Nodup ∧
    (∀ cid, (mergeBestRow idCol scoreCol dedup m).lookup cid = none →
      ∀ j < m, rowCandId idCol j ≠ some cid) := by
  induction m with
  | zero =>
    refine ⟨?_, ?_, ?_⟩
    · intro cid j
      constructor
      · intro hl
        simp [mergeBestRow, List.lookup] at hl
      · rintro ⟨-, hk, -⟩
        exact absurd hk (Nat.not_lt_zero j)
    · simp [mergeBestRow]
    · intro cid _ j hj
      exact absurd hj (Nat.not_lt_zero j)
  | succ m ih =>
    obtain ⟨ih1, ih2, ih3⟩ := ih
    have hstep : mergeBestRow idCol scoreCol dedup (m + 1) =
        mergeBestRowStep idCol scoreCol dedup (mergeBestRow idCol scoreCol dedup m) m := by
      unfold mergeBestRow
      rw [List.range_succ, List.foldl_append]
      rfl
    set acc := mergeBestRow idCol scoreCol dedup m with hacc
    clear_value acc
    cases hrow : rowCandId idCol m with
    | none =>
      have hsteq : mergeBestRowStep idCol scoreCol dedup acc m = acc := by
        unfold rowCandId at hrow
        unfold mergeBestRowStep
        cases hcol : idCol with
        | none => rfl
        | some c =>
          rw [hcol] at hrow
          dsimp only at hrow ⊢
          by_cases hnull : c.isNull m = true
          · rw [if_pos hnull]
          · rw [if_neg hnull] at hrow
            cases hrow
      rw [hstep, hsteq]
      refine ⟨?_, ih2, ?_⟩
      · intro cid j
        rw [ih1 cid j]
        have hne : rowCandId idCol m ≠ some cid := by
          rw [hrow]
          exact fun hcontra => by cases hcontra
        constructor
        · rintro ⟨hid, hkp⟩
          exact ⟨hid, (mergeKeeps_succ_other idCol scoreCol dedup m j cid hid hne).mpr hkp⟩
        · rintro ⟨hid, hkp⟩
          exact ⟨hid, (mergeKeeps_succ_other idCol scoreCol dedup m j cid hid hne).mp hkp⟩
      · intro cid hn j hj
        rcases Nat.lt_succ_iff_lt_or_eq.mp hj with hlt | heq
        · exact ih3 cid hn j hlt
        · subst heq
          rw [hrow]
          exact fun hcontra => by cases hcontra
    | some cid0 =>
      have hcfacts : ∃ c, idCol = some c ∧ (c.isNull m = true → False) ∧
          c.getI64 m = cid0 := by
        unfold rowCandId at hrow
        cases hcol : idCol with
        | none =>
          rw [hcol] at hrow
          cases hrow
        | some c =>
          rw [hcol] at hrow
          dsimp only at hrow
          by_cases hnull : c.isNull m = true
          · rw [if_pos hnull] at hrow
            cases hrow
          · rw [if_neg hnull] at hrow
            exact ⟨c, rfl, fun hcontra => hnull hcontra, Option.some.inj hrow⟩
      obtain ⟨c, hcol, hnull, hgid⟩ := hcfacts
      subst hcol
      have hnull' : c.isNull m = false := by
        cases hb : c.isNull m with
        | true => exact absurd hb hnull
        | false => rfl
      cases hlook : acc.lookup cid0 with
      | none =>
        have hsteq : mergeBestRowStep (some c) scoreCol dedup acc m =
            acc ++ [(cid0, m)] := by
          unfold mergeBestRowStep
          dsimp only
          rw [if_neg (by rw [hnull']; simp), hgid, hlook]
        have hfresh : ∀ j < m, rowCandId (some c) j ≠ some cid0 :=
          ih3 cid0 hlook
        have hkeepm : MergeKeeps (some c) scoreCol dedup (m + 1) m :=
          mergeKeeps_new (some c) scoreCol dedup m cid0 hrow hfresh
        have heqc0 : (acc ++ [(cid0, m)]).lookup cid0 = some m := by
          rw [lookup_append, hlook]
          show List.lookup cid0 [(cid0, m)] = some m
          rw [List.lookup_cons, beq_self_eq_true]
        have heqne : ∀ cid, cid ≠ cid0 →
            (acc ++ [(cid0, m)]).lookup cid = acc.lookup cid := by
          intro cid hne
          rw [lookup_append]
          cases hc : acc.lookup cid with
          | some v => rfl
          | none =>
            show List.lookup cid [(cid0, m)] = none
            rw [List.lookup_cons, beq_false_of_ne hne]
            rfl
        rw [hstep, hsteq]
        refine ⟨?_, ?_, ?_⟩
        · intro cid j
          by_cases hcid : cid = cid0
          · subst hcid
            rw [heqc0]
            constructor
            · intro hl
              have hjm : j = m := (Option.some.inj hl).symm
              subst hjm
              exact ⟨hrow, hkeepm⟩
            · rintro ⟨hid, hkp⟩
              have hjm : j = m :=
                mergeKeeps_unique (some c) scoreCol dedup (m + 1) j m hkp hkeepm
                  (hid.trans hrow.symm)
              subst hjm
              rfl
          · rw [heqne cid hcid, ih1 cid j]
            have hne : rowCandId (some c) m ≠ some cid := by
              rw [hrow]
              intro hcontra
              exact hcid (Option.some.inj hcontra).symm
            constructor
            · rintro ⟨hid, hkp⟩
              exact ⟨hid,
                (mergeKeeps_succ_other (some c) scoreCol dedup m j cid hid hne).mpr hkp⟩
            · rintro ⟨hid, hkp⟩
              exact ⟨hid,
                (mergeKeeps_succ_other (some c) scoreCol dedup m j cid hid hne).mp hkp⟩
        · rw [List.map_append]
          rw [List.nodup_append]
          refine ⟨ih2, List.nodup_singleton _, ?_⟩
          intro a ha hb
          rw [List.map_cons, List.map_nil, List.mem_singleton] at hb
          subst hb
          exact (lookup_eq_none_iff acc a).mp hlook ha
        · intro cid hn j hj
          have hne : cid ≠ cid0 := by
            intro heq
            subst heq
            rw [heqc0] at hn
            cases hn
          rw [heqne cid hne] at hn
          rcases Nat.lt_succ_iff_lt_or_eq.mp hj with hlt | heq
          · exact ih3 cid hn j hlt
          · subst heq
            rw [hrow]
            intro hcontra
            exact hne (Option.some.inj hcontra).symm
      | some j0 =>
        obtain ⟨hj0id, hj0keep⟩ := (ih1 cid0 j0).mp hlook
        have hj0lt : j0 < m := hj0keep.1
        by_cases hd : dedup = "max_base"
        · subst hd
          have hsplit : scoreCol = none ∨ ∃ sc, scoreCol = some sc := by
            cases scoreCol
            · exact Or.inl rfl
            · exact Or.inr ⟨_, rfl⟩
          rcases hsplit with hsc | ⟨sc, hsc⟩
          · have hsteq : mergeBestRowStep (some c) scoreCol "max_base" acc m = acc := by
              unfold mergeBestRowStep
              dsimp only
              rw [if_neg (by rw [hnull']; simp), hgid, hlook]
              dsimp only
              rw [if_pos rfl, hsc]
            have hle : rowBaseScore scoreCol m ≤ rowBaseScore scoreCol j0 := by
              rw [hsc]
              exact le_refl 0
            have hj0succ : MergeKeeps (some c) scoreCol "max_base" (m + 1) j0 :=
              mergeKeeps_keep_of_le (some c) scoreCol m j0 cid0 hrow hj0id hj0keep hle
            rw [hstep, hsteq]
            refine ⟨bestRow_stable_iff (some c) scoreCol "max_base" acc m j0 cid0 hrow
              hlook hj0succ ih1, ih2, ?_⟩
            · intro cid hn j hj
              have hne : cid ≠ cid0 := by
                intro heq
                subst heq
                rw [hlook] at hn
                cases hn
              rcases Nat.lt_succ_iff_lt_or_eq.mp hj with hlt | heq
              · exact ih3 cid hn j hlt
              · subst heq
                rw [hrow]
                intro hcontra
                exact hne (Option.some.inj hcontra).symm
          · by_cases hgt : (if sc.isNull m then (0 : ℚ) else sc.getF32 m) >
                (if sc.isNull j0 then (0 : ℚ) else sc.getF32 j0)
            · have hsteq : mergeBestRowStep (some c) scoreCol "max_base" acc m =
                  assocSet acc cid0 m := by
                unfold mergeBestRowStep
                dsimp only
                rw [if_neg (by rw [hnull']; simp), hgid, hlook]
                dsimp only
                rw [if_pos rfl, hsc]
                dsimp only
                rw [if_pos hgt]
              have hgt' : rowBaseScore scoreCol j0 < rowBaseScore scoreCol m := by
                rw [hsc]
                exact hgt
              have hkeepm : MergeKeeps (some c) scoreCol "max_base" (m + 1) m :=
                mergeKeeps_new_of_gt (some c) scoreCol m j0 cid0 hrow hj0id hj0keep hgt'
              rw [hstep, hsteq]
              refine ⟨?_, ?_, ?_⟩
              · intro cid j
                by_cases hcid : cid = cid0
                · subst hcid
                  rw [assocSet_lookup_self]
                  constructor
                  · intro hl
                    have hjm : j = m := (Option.some.inj hl).symm
                    subst hjm
                    exact ⟨hrow, hkeepm⟩
                  · rintro ⟨hid, hkp⟩
                    have hjm : j = m :=
                      mergeKeeps_unique (some c) scoreCol "max_base" (m + 1) j m
                        hkp hkeepm (hid.trans hrow.symm)
                    subst hjm
                    rfl
                · rw [assocSet_lookup_ne acc cid0 m cid hcid, ih1 cid j]
                  have hne : rowCandId (some c) m ≠ some cid := by
                    rw [hrow]
                    intro hcontra
                    exact hcid (Option.some.inj hcontra).symm
                  constructor
                  · rintro ⟨hid, hkp⟩
                    exact ⟨hid, (mergeKeeps_succ_other (some c) scoreCol "max_base"
                      m j cid hid hne).mpr hkp⟩
                  · rintro ⟨hid, hkp⟩
                    exact ⟨hid, (mergeKeeps_succ_other (some c) scoreCol "max_base"
                      m j cid hid hne).mp hkp⟩
              · rw [assocSet_keys_of_mem acc cid0 m
                  (List.mem_map.mpr ⟨(cid0, j0), lookup_mem hlook, rfl⟩)]
                exact ih2
              · intro cid hn j hj
                have hne : cid ≠ cid0 := by
                  intro heq
                  subst heq
                  rw [assocSet_lookup_self] at hn
                  cases hn
                rw [assocSet_lookup_ne acc cid0 m cid hne] at hn
                rcases Nat.lt_succ_iff_lt_or_eq.mp hj with hlt | heq
                · exact ih3 cid hn j hlt
                · subst heq
                  rw [hrow]
                  intro hcontra
                  exact hne (Option.some.inj hcontra).symm
            · have hsteq : mergeBestRowStep (some c) scoreCol "max_base" acc m =
                  acc := by
                unfold mergeBestRowStep
                dsimp only
                rw [if_neg (by rw [hnull']; simp), hgid, hlook]
                dsimp only
                rw [if_pos rfl, hsc]
                dsimp only
                rw [if_neg hgt]
              have hle : rowBaseScore scoreCol m ≤ rowBaseScore scoreCol j0 := by
                rw [hsc]
                exact not_lt.mp hgt
              have hj0succ : MergeKeeps (some c) scoreCol "max_base" (m + 1) j0 :=
                mergeKeeps_keep_of_le (some c) scoreCol m j0 cid0 hrow hj0id hj0keep hle
              rw [hstep, hsteq]
              refine ⟨bestRow_stable_iff (some c) scoreCol "max_base" acc m j0 cid0
                hrow hlook hj0succ ih1, ih2, ?_⟩
              · intro cid hn j hj
                have hne : cid ≠ cid0 := by
                  intro heq
                  subst heq
                  rw [hlook] at hn
                  cases hn
                rcases Nat.lt_succ_iff_lt_or_eq.mp hj with hlt | heq
                · exact ih3 cid hn j hlt
                · subst heq
                  rw [hrow]
                  intro hcontra
                  exact hne (Option.some.inj hcontra).symm
        · have hsteq : mergeBestRowStep (some c) scoreCol dedup acc m = acc := by
            unfold mergeBestRowStep
            dsimp only
            rw [if_neg (by rw [hnull']; simp), hgid, hlook]
            dsimp only
            rw [if_neg hd]
          have hj0succ : MergeKeeps (some c) scoreCol dedup (m + 1) j0 :=
            mergeKeeps_succ_first (some c) scoreCol dedup hd m j0 hj0lt hj0keep
          rw [hstep, hsteq]
          refine ⟨bestRow_stable_iff (some c) scoreCol dedup acc m j0 cid0 hrow
            hlook hj0succ ih1, ih2, ?_⟩
          · intro cid hn j hj
            have hne : cid ≠ cid0 := by
              intro heq
              subst heq
              rw [hlook] at hn
              cases hn
            rcases Nat.lt_succ_iff_lt_or_eq.mp hj with hlt | heq
            · exact ih3 cid hn j hlt
            · subst heq
              rw [hrow]
              intro hcontra
              exact hne (Option.some.inj hcontra).symm

/-! ## Column write/read lemmas (object/typed_column.cpp) -/

theorem getD_set_eq {α : Type} (l : List α) (i : Nat) (a d : α) :
    (l.set i a).getD i d = if i < l.length then a else d := by
  rw [List.getD_eq_getElem?_getD, List.getElem?_set_self']
  by_cases h : i < l.length
  · rw [if_pos h, List.getElem?_eq_getElem h]
    rfl
  · rw [if_neg h, List.getElem?_eq_none (by omega)]
    rfl

theorem getD_set_ne {α : Type} (l : List α) (i j : Nat) (a d : α) (h : i ≠ j) :
    (l.set i a).getD j d = l.getD j d := by
  rw [List.getD_eq_getElem?_getD, List.getD_eq_getElem?_getD,
    List.getElem?_set_ne h]

theorem boxed_write_size {τ : Type} (c : BoxedCol τ) (i : Nat) (x : Option τ) :
    (c.write i x).size = c.size := by
  cases x <;> simp [BoxedCol.write, BoxedCol.size]

theorem boxed_write_wf {τ : Type} (c : BoxedCol τ) (i : Nat) (x : Option τ)
    (hwf : c.nullMask.length = c.data.length) :
    (c.write i x).nullMask.length = (c.write i x).data.length := by
  cases x <;> simp [BoxedCol.write, hwf]

theorem boxed_write_isNull_self {τ : Type} (c : BoxedCol τ) (i : Nat) (x : Option τ)
    (hwf : c.nullMask.length = c.data.length) (hi : i < c.size) :
    (c.write i x).isNull i = x.isNone := by
  cases x with
  | none =>
    show (decide (c.size ≤ i) || (c.nullMask.set i true).getD i false) = true
    rw [getD_set_eq, if_pos (show i < c.nullMask.length by rw [hwf]; exact hi)]
    simp
  | some v =>
    show (decide ((c.data.set i v).length ≤ i) ||
      (c.nullMask.set i false).getD i false) = false
    rw [getD_set_eq, List.length_set, ite_self]
    have hii : ¬ c.data.length ≤ i := not_le.mpr hi
    simp [hii]

theorem boxed_write_getD_self {τ : Type} (c : BoxedCol τ) (i : Nat) (v d : τ)
    (hi : i < c.size) :
    (c.write i (some v)).data.getD i d = v := by
  show (c.data.set i v).getD i d = v
  rw [getD_set_eq, if_pos (show i < c.data.length from hi)]

theorem boxed_write_isNull_ne {τ : Type} (c : BoxedCol τ) (i i' : Nat) (x : Option τ)
    (hne : i' ≠ i) : (c.write i x).isNull i' = c.isNull i' := by
  cases x with
  | none =>
    show (decide (c.size ≤ i') || (c.nullMask.set i true).getD i' false) = c.isNull i'
    rw [getD_set_ne _ _ _ _ _ (fun h => hne h.symm)]
    rfl
  | some v =>
    show (decide ((c.data.set i v).length ≤ i') ||
      (c.nullMask.set i false).getD i' false) = c.isNull i'
    rw [getD_set_ne _ _ _ _ _ (fun h => hne h.symm), List.length_set]
    rfl

theorem boxed_write_getD_ne {τ : Type} (c : BoxedCol τ) (i i' : Nat) (x : Option τ)
    (d : τ) (hne : i' ≠ i) :
    (c.write i x).data.getD i' d = c.data.getD i' d := by
  cases x with
  | none => rfl
  | some v =>
    show (c.data.set i v).getD i' d = _
    rw [getD_set_ne _ _ _ _ _ (fun h => hne h.symm)]

theorem vecSetRow_length (d : List ℚ) (dim i : Nat) (v : List ℚ)
    (hv : v.length = dim) (hle : i * dim + dim ≤ d.length) :
    (vecSetRow d dim i v).length = d.length := by
  unfold vecSetRow
  simp only [List.length_append, List.length_take, List.length_drop]
  omega

theorem vecSetRow_getElem_outside (d : List ℚ) (dim i : Nat) (v : List ℚ)
    (hv : v.length = dim) (hle : i * dim + dim ≤ d.length) (j : Nat)
    (hj : j < i * dim ∨ i * dim + dim ≤ j) :
    (vecSetRow d dim i v)[j]? = d[j]? := by
  unfold vecSetRow
  have hA : (d.take (i * dim)).length = i * dim := by
    rw [List.length_take]
    omega
  rw [List.append_assoc, List.getElem?_append, hA]
  rcases hj with hj | hj
  · rw [if_pos hj, List.getElem?_take, if_pos hj]
  · rw [if_neg (by omega), List.getElem?_append, hv, if_neg (by omega),
      List.getElem?_drop]
    congr 1
    omega

theorem vecSetRow_getRow_self (d : List ℚ) (dim i : Nat) (v : List ℚ)
    (hv : v.length = dim) (hle : i * dim + dim ≤ d.length) :
    vecGetRow (vecSetRow d dim i v) dim i = v := by
  unfold vecGetRow vecSetRow
  have hA : (d.take (i * dim)).length = i * dim := by
    rw [List.length_take]
    omega
  apply List.ext_getElem?
  intro q
  rw [List.getElem?_take]
  by_cases hq : q < dim
  · rw [if_pos hq, List.getElem?_drop, List.append_assoc, List.getElem?_append, hA,
      if_neg (by omega), List.getElem?_append, hv, if_pos (by omega)]
    congr 1
    omega
  · rw [if_neg hq, List.getElem?_eq_none (by omega)]

theorem vecGetRow_setRow_ne (d : List ℚ) (dim i i' : Nat) (v : List ℚ)
    (hv : v.length = dim) (hle : i * dim + dim ≤ d.length) (hne : i' ≠ i) :
    vecGetRow (vecSetRow d dim i v) dim i' = vecGetRow d dim i' := by
  unfold vecGetRow
  apply List.ext_getElem?
  intro q
  rw [List.getElem?_take, List.getElem?_take]
  by_cases hq : q < dim
  · rw [if_pos hq, if_pos hq, List.getElem?_drop, List.getElem?_drop]
    apply vecSetRow_getElem_outside d dim i v hv hle
    rcases Nat.lt_or_ge i' i with h | h
    · left
      have h1 : (i' + 1) * dim ≤ i * dim := Nat.mul_le_mul_right dim h
      calc i' * dim + q < i' * dim + dim := by omega
        _ = (i' + 1) * dim := by ring
        _ ≤ i * dim := h1
    · right
      have h2 : i + 1 ≤ i' := Nat.lt_of_le_of_ne h (fun heq => hne heq.symm)
      have h1 : (i + 1) * dim ≤ i' * dim := Nat.mul_le_mul_right dim h2
      calc i * dim + dim = (i + 1) * dim := by ring
        _ ≤ i' * dim := h1
        _ ≤ i' * dim + q := by omega
  · rw [if_neg hq, if_neg hq]

theorem vecGetRow_length (d : List ℚ) (dim i : Nat)
    (hi : i < vecSize d dim) : (vecGetRow d dim i).length = dim := by
  unfold vecSize at hi
  by_cases hd : 0 < dim
  · rw [if_pos hd] at hi
    have hle : (i + 1) * dim ≤ d.length :=
      calc (i + 1) * dim ≤ (d.length / dim) * dim := Nat.mul_le_mul_right dim hi
        _ ≤ d.length := Nat.div_mul_le_self _ _
    unfold vecGetRow
    rw [List.length_take, List.length_drop]
    have : i * dim + dim ≤ d.length := by
      calc i * dim + dim = (i + 1) * dim := by ring
        _ ≤ d.length := hle
    omega
  · rw [if_neg hd] at hi
    exact absurd hi (Nat.not_lt_zero i)

theorem vec_row_bound (d : List ℚ) (dim i : Nat) (hd : 0 < dim)
    (hi : i < vecSize d dim) : i * dim + dim ≤ d.length := by
  unfold vecSize at hi
  rw [if_pos hd] at hi
  calc i * dim + dim = (i + 1) * dim := by ring
    _ ≤ (d.length / dim) * dim := Nat.mul_le_mul_right dim hi
    _ ≤ d.length := Nat.div_mul_le_self _ _

theorem vecSize_eq_mask_length (d : List ℚ) (dim : Nat) (mlen : Nat)
    (hd : 0 < dim) (hlen : d.length = mlen * dim) : vecSize d dim = mlen := by
  unfold vecSize
  rw [if_pos hd, hlen, Nat.mul_div_cancel mlen hd]

/-- `SetValue` on an in-range row with a compatible value succeeds, keeps the
column's shape, reads the written value back at the written row and leaves
every other row unchanged. -/
theorem setValue_spec (col : Column) (i : Nat) (v : Value)
    (hwf : ColWF col) (hi : i < col.size) (hc : ValueCompat col.type col.dimOf v) :
    ∃ col', col.setValue i v = .ok col' ∧ ColWF col' ∧
      col'.size = col.size ∧ col'.type = col.type ∧ col'.dimOf = col.dimOf ∧
      col'.getValue i = v ∧
      (∀ i', i' ≠ i → col'.getValue i' = col.getValue i') := by
  unfold Column.setValue
  rw [if_neg (not_le.mpr hi)]
  cases col with
  | f32 c =>
    cases v with
    | null =>
      refine ⟨_, rfl, boxed_write_wf c i none hwf,
        boxed_write_size c i none, rfl, rfl, ?_, ?_⟩
      · show (if (c.write i none).isNull i then Value.null
            else Value.f32V ((c.write i none).data.getD i 0)) = Value.null
        rw [boxed_write_isNull_self c i none hwf hi]
        simp only [Option.isNone_none, if_true]
      · intro i' hne
        show (if (c.write i none).isNull i' then Value.null
            else Value.f32V ((c.write i none).data.getD i' 0)) =
          (Column.f32 c).getValue i'
        rw [boxed_write_isNull_ne c i i' none hne,
          boxed_write_getD_ne c i i' none 0 hne]
        rfl
    | f32V x =>
      refine ⟨_, rfl, boxed_write_wf c i (some x) hwf,
        boxed_write_size c i (some x), rfl, rfl, ?_, ?_⟩
      · show (if (c.write i (some x)).isNull i then Value.null
            else Value.f32V ((c.write i (some x)).data.getD i 0)) = Value.f32V x
        rw [boxed_write_isNull_self c i (some x) hwf hi]
        simp only [Option.isNone_some, Bool.false_eq_true, if_false]
        rw [boxed_write_getD_self c i x 0 hi]
      · intro i' hne
        show (if (c.write i (some x)).isNull i' then Value.null
            else Value.f32V ((c.write i (some x)).data.getD i' 0)) =
          (Column.f32 c).getValue i'
        rw [boxed_write_isNull_ne c i i' (some x) hne,
          boxed_write_getD_ne c i i' (some x) 0 hne]
        rfl
    | i64V x => exact absurd hc (by simp [ValueCompat, Column.type])
    | boolV x => exact absurd hc (by simp [ValueCompat, Column.type])
    | stringV x => exact absurd hc (by simp [ValueCompat, Column.type])
    | bytesV x => exact absurd hc (by simp [ValueCompat, Column.type])
    | f32vecV x => exact absurd hc.1 (by simp [Column.type])
  | i64 c =>
    cases v with
    | null =>
      refine ⟨_, rfl, boxed_write_wf c i none hwf,
        boxed_write_size c i none, rfl, rfl, ?_, ?_⟩
      · show (if (c.write i none).isNull i then Value.null
            else Value.i64V ((c.write i none).data.getD i 0)) = Value.null
        rw [boxed_write_isNull_self c i none hwf hi]
        simp only [Option.isNone_none, if_true]
      · intro i' hne
        show (if (c.write i none).isNull i' then Value.null
            else Value.i64V ((c.write i none).data.getD i' 0)) =
          (Column.i64 c).getValue i'
        rw [boxed_write_isNull_ne c i i' none hne,
          boxed_write_getD_ne c i i' none 0 hne]
        rfl
    | i64V x =>
      refine ⟨_, rfl, boxed_write_wf c i (some x) hwf,
        boxed_write_size c i (some x), rfl, rfl, ?_, ?_⟩
      · show (if (c.write i (some x)).isNull i then Value.null
            else Value.i64V ((c.write i (some x)).data.getD i 0)) = Value.i64V x
        rw [boxed_write_isNull_self c i (some x) hwf hi]
        simp only [Option.isNone_some, Bool.false_eq_true, if_false]
        rw [boxed_write_getD_self c i x 0 hi]
      · intro i' hne
        show (if (c.write i (some x)).isNull i' then Value.null
            else Value.i64V ((c.write i (some x)).data.getD i' 0)) =
          (Column.i64 c).getValue i'
        rw [boxed_write_isNull_ne c i i' (some x) hne,
          boxed_write_getD_ne c i i' (some x) 0 hne]
        rfl
    | f32V x => exact absurd hc (by simp [ValueCompat, Column.type])
    | boolV x => exact absurd hc (by simp [ValueCompat, Column.type])
    | stringV x => exact absurd hc (by simp [ValueCompat, Column.type])
    | bytesV x => exact absurd hc (by simp [ValueCompat, Column.type])
    | f32vecV x => exact absurd hc.1 (by simp [Column.type])
  | boolC c =>
    cases v with
    | null =>
      refine ⟨_, rfl, boxed_write_wf c i none hwf,
        boxed_write_size c i none, rfl, rfl, ?_, ?_⟩
      · show (if (c.write i none).isNull i then Value.null
            else Value.boolV ((c.write i none).data.getD i false)) = Value.null
        rw [boxed_write_isNull_self c i none hwf hi]
        simp only [Option.isNone_none, if_true]
      · intro i' hne
        show (if (c.write i none).isNull i' then Value.null
            else Value.boolV ((c.write i none).data.getD i' false)) =
          (Column.boolC c).getValue i'
        rw [boxed_write_isNull_ne c i i' none hne,
          boxed_write_getD_ne c i i' none false hne]
        rfl
    | boolV x =>
      refine ⟨_, rfl, boxed_write_wf c i (some x) hwf,
        boxed_write_size c i (some x), rfl, rfl, ?_, ?_⟩
      · show (if (c.write i (some x)).isNull i then Value.null
            else Value.boolV ((c.write i (some x)).data.getD i false)) = Value.boolV x
        rw [boxed_write_isNull_self c i (some x) hwf hi]
        simp only [Option.isNone_some, Bool.false_eq_true, if_false]
        rw [boxed_write_getD_self c i x false hi]
      · intro i' hne
        show (if (c.write i (some x)).isNull i' then Value.null
            else Value.boolV ((c.write i (some x)).data.getD i' false)) =
          (Column.boolC c).getValue i'
        rw [boxed_write_isNull_ne c i i' (some x) hne,
          boxed_write_getD_ne c i i' (some x) false hne]
        rfl
    | f32V x => exact absurd hc (by simp [ValueCompat, Column.type])
    | i64V x => exact absurd hc (by simp [ValueCompat, Column.type])
    | stringV x => exact absurd hc (by simp [ValueCompat, Column.type])
    | bytesV x => exact absurd hc (by simp [ValueCompat, Column.type])
    | f32vecV x => exact absurd hc.1 (by simp [Column.type])
  | stringC c =>
    cases v with
    | null =>
      refine ⟨_, rfl, boxed_write_wf c i none hwf,
        boxed_write_size c i none, rfl, rfl, ?_, ?_⟩
      · show (if (c.write i none).isNull i then Value.null
            else Value.stringV ((c.write i none).data.getD i "")) = Value.null
        rw [boxed_write_isNull_self c i none hwf hi]
        simp only [Option.isNone_none, if_true]
      · intro i' hne
        show (if (c.write i none).isNull i' then Value.null
            else Value.stringV ((c.write i none).data.getD i' "")) =
          (Column.stringC c).getValue i'
        rw [boxed_write_isNull_ne c i i' none hne,
          boxed_write_getD_ne c i i' none "" hne]
        rfl
    | stringV x =>
      refine ⟨_, rfl, boxed_write_wf c i (some x) hwf,
        boxed_write_size c i (some x), rfl, rfl, ?_, ?_⟩
      · show (if (c.write i (some x)).isNull i then Value.null
            else Value.stringV ((c.write i (some x)).data.getD i "")) = Value.stringV x
        rw [boxed_write_isNull_self c i (some x) hwf hi]
        simp only [Option.isNone_some, Bool.false_eq_true, if_false]
        rw [boxed_write_getD_self c i x "" hi]
      · intro i' hne
        show (if (c.write i (some x)).isNull i' then Value.null
            else Value.stringV ((c.write i (some x)).data.getD i' "")) =
          (Column.stringC c).getValue i'
        rw [boxed_write_isNull_ne c i i' (some x) hne,
          boxed_write_getD_ne c i i' (some x) "" hne]
        rfl
    | f32V x => exact absurd hc (by simp [ValueCompat, Column.type])
    | i64V x => exact absurd hc (by simp [ValueCompat, Column.type])
    | boolV x => exact absurd hc (by simp [ValueCompat, Column.type])
    | bytesV x => exact absurd hc (by simp [ValueCompat, Column.type])
    | f32vecV x => exact absurd hc.1 (by simp [Column.type])
  | bytesC c =>
    cases v with
    | null =>
      refine ⟨_, rfl, boxed_write_wf c i none hwf,
        boxed_write_size c i none, rfl, rfl, ?_, ?_⟩
      · show (if (c.write i none).isNull i then Value.null
            else Value.bytesV ((c.write i none).data.getD i [])) = Value.null
        rw [boxed_write_isNull_self c i none hwf hi]
        simp only [Option.isNone_none, if_true]
      · intro i' hne
        show (if (c.write i none).isNull i' then Value.null
            else Value.bytesV ((c.write i none).data.getD i' [])) =
          (Column.bytesC c).getValue i'
        rw [boxed_write_isNull_ne c i i' none hne,
          boxed_write_getD_ne c i i' none [] hne]
        rfl
    | bytesV x =>
      refine ⟨_, rfl, boxed_write_wf c i (some x) hwf,
        boxed_write_size c i (some x), rfl, rfl, ?_, ?_⟩
      · show (if (c.write i (some x)).isNull i then Value.null
            else Value.bytesV ((c.write i (some x)).data.getD i [])) = Value.bytesV x
        rw [boxed_write_isNull_self c i (some x) hwf hi]
        simp only [Option.isNone_some, Bool.false_eq_true, if_false]
        rw [boxed_write_getD_self c i x [] hi]
      · intro i' hne
        show (if (c.write i (some x)).isNull i' then Value.null
            else Value.bytesV ((c.write i (some x)).data.getD i' [])) =
          (Column.bytesC c).getValue i'
        rw [boxed_write_isNull_ne c i i' (some x) hne,
          boxed_write_getD_ne c i i' (some x) [] hne]
        rfl
    | f32V x => exact absurd hc (by simp [ValueCompat, Column.type])
    | i64V x => exact absurd hc (by simp [ValueCompat, Column.type])
    | boolV x => exact absurd hc (by simp [ValueCompat, Column.type])
    | stringV x => exact absurd hc (by simp [ValueCompat, Column.type])
    | f32vecV x => exact absurd hc.1 (by simp [Column.type])
  | f32vec d dim m =>
    obtain ⟨hdim, hlen⟩ := hwf
    have hsz : vecSize d dim = m.length := vecSize_eq_mask_length d dim m.length hdim hlen
    have him : i < m.length := by rw [← hsz]; exact hi
    have hle : i * dim + dim ≤ d.length := vec_row_bound d dim i hdim hi
    have hnotle : decide (vecSize d dim ≤ i) = false := decide_eq_false (not_le.mpr hi)
    cases v with
    | null =>
      refine ⟨_, rfl, ⟨hdim, by rw [hlen, List.length_set]⟩, rfl, rfl, rfl, ?_, ?_⟩
      · show (if (decide (vecSize d dim ≤ i) || (m.set i true).getD i false) = true
            then Value.null else Value.f32vecV (vecGetRow d dim i)) = Value.null
        rw [getD_set_eq, if_pos him, hnotle]
        simp only [Bool.false_or, if_true]
      · intro i' hne
        show (if (decide (vecSize d dim ≤ i') || (m.set i true).getD i' false) = true
            then Value.null else Value.f32vecV (vecGetRow d dim i')) =
          (Column.f32vec d dim m).getValue i'
        rw [getD_set_ne _ _ _ _ _ (fun h => hne h.symm)]
        rfl
    | f32vecV w =>
      obtain ⟨-, hw⟩ := hc
      have hw2 : w.length = dim := hw
      dsimp only
      rw [if_neg (not_not_intro hw2)]
      have hlen' : (vecSetRow d dim i w).length = d.length :=
        vecSetRow_length d dim i w hw2 hle
      have hsz' : vecSize (vecSetRow d dim i w) dim = vecSize d dim := by
        unfold vecSize
        rw [hlen']
      refine ⟨_, rfl, ⟨hdim, by rw [hlen', hlen, List.length_set]⟩, hsz', rfl, rfl,
        ?_, ?_⟩
      · show (if (decide (vecSize (vecSetRow d dim i w) dim ≤ i) ||
              (m.set i false).getD i false) = true
            then Value.null
            else Value.f32vecV (vecGetRow (vecSetRow d dim i w) dim i)) =
          Value.f32vecV w
        rw [hsz', getD_set_eq, if_pos him, hnotle]
        simp only [Bool.false_or, Bool.false_eq_true, if_false]
        rw [vecSetRow_getRow_self d dim i w hw2 hle]
      · intro i' hne
        show (if (decide (vecSize (vecSetRow d dim i w) dim ≤ i') ||
              (m.set i false).getD i' false) = true
            then Value.null
            else Value.f32vecV (vecGetRow (vecSetRow d dim i w) dim i')) =
          (Column.f32vec d dim m).getValue i'
        rw [hsz', getD_set_ne _ _ _ _ _ (fun h => hne h.symm),
          vecGetRow_setRow_ne d dim i i' w hw2 hle hne]
        rfl
    | f32V x => exact absurd hc (by simp [ValueCompat, Column.type])
    | i64V x => exact absurd hc (by simp [ValueCompat, Column.type])
    | boolV x => exact absurd hc (by simp [ValueCompat, Column.type])
    | stringV x => exact absurd hc (by simp [ValueCompat, Column.type])
    | bytesV x => exact absurd hc (by simp [ValueCompat, Column.type])

/-- `GetValue` always yields a value `SetValue` accepts on a column of the
same type and dimension. -/
theorem getValue_compat (src : Column) (j : Nat) :
    ValueCompat src.type src.dimOf (src.getValue j) := by
  unfold Column.getValue
  by_cases hn : src.isNull j = true
  · rw [if_pos hn]
    trivial
  · rw [if_neg hn]
    cases src with
    | f32 c => exact rfl
    | i64 c => exact rfl
    | boolC c => exact rfl
    | stringC c => exact rfl
    | bytesC c => exact rfl
    | f32vec d dim m =>
      refine ⟨rfl, ?_⟩
      have hj : j < vecSize d dim := by
        simp only [Column.isNull, Bool.or_eq_true, decide_eq_true_eq, not_or] at hn
        exact not_le.mp hn.1
      exact vecGetRow_length d dim j hj

/-- The merge output column construction: well-formed, of the requested row
count, and of the source's type and dimension (given a nonempty source, which
rules out a zero-dimension vector source). -/
theorem mergeMakeOutCol_spec (src : Column) (n : Nat) (hs : 0 < src.size) :
    ColWF (mergeMakeOutCol src n) ∧ (mergeMakeOutCol src n).size = n ∧
    (mergeMakeOutCol src n).type = src.type ∧
    (mergeMakeOutCol src n).dimOf = src.dimOf := by
  cases src with
  | f32 c => exact ⟨by simp [ColWF, mergeMakeOutCol, BoxedCol.fresh], by
      simp [BoxedCol.fresh, BoxedCol.size, Column.size, mergeMakeOutCol], rfl, rfl⟩
  | i64 c => exact ⟨by simp [ColWF, mergeMakeOutCol, BoxedCol.fresh], by
      simp [BoxedCol.fresh, BoxedCol.size, Column.size, mergeMakeOutCol], rfl, rfl⟩
  | boolC c => exact ⟨by simp [ColWF, mergeMakeOutCol, BoxedCol.fresh], by
      simp [BoxedCol.fresh, BoxedCol.size, Column.size, mergeMakeOutCol], rfl, rfl⟩
  | stringC c => exact ⟨by simp [ColWF, mergeMakeOutCol, BoxedCol.fresh], by
      simp [BoxedCol.fresh, BoxedCol.size, Column.size, mergeMakeOutCol], rfl, rfl⟩
  | bytesC c => exact ⟨by simp [ColWF, mergeMakeOutCol, BoxedCol.fresh], by
      simp [BoxedCol.fresh, BoxedCol.size, Column.size, mergeMakeOutCol], rfl, rfl⟩
  | f32vec d dim m =>
    have hdim : 0 < dim := by
      by_contra hdim
      have hz : vecSize d dim = 0 := by
        unfold vecSize
        rw [if_neg hdim]
      have : (Column.f32vec d dim m).size = 0 := hz
      omega
    refine ⟨?_, ?_, rfl, rfl⟩
    · show 0 < dim ∧
        (List.replicate (n * dim) (0 : ℚ)).length = (List.replicate n true).length * dim
      exact ⟨hdim, by simp⟩
    · show vecSize (List.replicate (n * dim) 0) dim = n
      rw [vecSize_eq_mask_length _ _ n hdim (by simp)]

/-- Invariant of merge's inner fill loop over the remaining
`(out_idx, src_row)` pairs. -/
theorem mergeFill_go (src : Column) :
    ∀ (sel : List Nat) (k : Nat) (col : Column),
    ColWF col → k + sel.length ≤ col.size →
    col.type = src.type → col.dimOf = src.dimOf →
    ∃ col', (sel.enumFrom k).foldlM
        (fun c p => c.setValue p.1 (src.getValue p.2)) col = .ok col' ∧
      ColWF col' ∧ col'.size = col.size ∧ col'.type = col.type ∧
      col'.dimOf = col.dimOf ∧
      (∀ idx, idx < k → col'.getValue idx = col.getValue idx) ∧
      (∀ t, t < sel.length → col'.getValue (k + t) = src.getValue (sel.getD t 0))
  | [], k, col, hwf, hsz, hty, hdim =>
    ⟨col, rfl, hwf, rfl, rfl, rfl, fun _ _ => rfl,
      fun t ht => absurd ht (Nat.not_lt_zero t)⟩
  | s :: rest, k, col, hwf, hsz, hty, hdim => by
    have hk : k < col.size := by
      simp only [List.length_cons] at hsz
      omega
    have hcompat : ValueCompat col.type col.dimOf (src.getValue s) := by
      rw [hty, hdim]
      exact getValue_compat src s
    obtain ⟨c1, hset, hwf1, hsz1, hty1, hdim1, hread, hother⟩ :=
      setValue_spec col k (src.getValue s) hwf hk hcompat
    obtain ⟨col', hfold, hwf', hsz', hty', hdim', hlow, hvals⟩ :=
      mergeFill_go src rest (k + 1) c1 hwf1
        (by rw [hsz1]; simp only [List.length_cons] at hsz; omega)
        (hty1.trans hty) (hdim1.trans hdim)
    refine ⟨col', ?_, hwf', hsz'.trans hsz1, hty'.trans hty1, hdim'.trans hdim1,
      ?_, ?_⟩
    · show ((k, s) :: rest.enumFrom (k + 1)).foldlM
        (fun c p => c.setValue p.1 (src.getValue p.2)) col = .ok col'
      rw [List.foldlM_cons]
      show (col.setValue k (src.getValue s)).bind _ = .ok col'
      rw [hset]
      exact hfold
    · intro idx hidx
      rw [hlow idx (Nat.lt_succ_of_lt hidx), hother idx (Nat.ne_of_lt hidx)]
    · intro t ht
      cases t with
      | zero =>
        show col'.getValue (k + 0) = src.getValue s
        rw [Nat.add_zero, hlow k (Nat.lt_succ_self k), hread]
      | succ t' =>
        show col'.getValue (k + (t' + 1)) = src.getValue (rest.getD t' 0)
        rw [show k + (t' + 1) = (k + 1) + t' by omega]
        exact hvals t' (by simp only [List.length_cons] at ht; omega)

/-- The fill loop on a freshly made output column of `selected.length` rows
succeeds and produces exactly the selected source rows, in order. -/
theorem mergeFillColumn_spec (src : Column) (sel : List Nat) (hs : 0 < src.size) :
    ∃ out, mergeFillColumn src (mergeMakeOutCol src sel.length) sel = .ok out ∧
      out.size = sel.length ∧
      ∀ t, t < sel.length → out.getValue t = src.getValue (sel.getD t 0) := by
  obtain ⟨hwf, hsz, hty, hdim⟩ := mergeMakeOutCol_spec src sel.length hs
  obtain ⟨col', hfold, -, hsz', -, -, -, hvals⟩ :=
    mergeFill_go src sel 0 (mergeMakeOutCol src sel.length) hwf
      (by omega) hty hdim
  refine ⟨col', hfold, hsz'.trans hsz, ?_⟩
  intro t ht
  have := hvals t ht
  rwa [Nat.zero_add] at this

/-! ## Heap extension lemmas -/

theorem heapGet_lt_length (h : Heap) (p : Ptr) (c : Column)
    (hp : heapGet h p = some c) : p < h.length := by
  cases Nat.lt_or_ge p h.length with
  | inl hlt => exact hlt
  | inr hge =>
    unfold heapGet at hp
    rw [List.getElem?_eq_none hge] at hp
    cases hp

theorem heapGet_append (h ext : Heap) (p : Ptr) (c : Column)
    (hp : heapGet h p = some c) : heapGet (h ++ ext) p = some c := by
  have hlt : p < h.length := heapGet_lt_length h p c hp
  unfold heapGet at *
  rw [List.getElem?_append, if_pos hlt]
  exact hp

theorem heapGet_alloc_self (h : Heap) (c : Column) :
    heapGet (h ++ [c]) h.length = some c := by
  unfold heapGet
  rw [List.getElem?_append, if_neg (by omega), Nat.sub_self]
  rfl

theorem batchGetColumn_append (h ext : Heap) (b : ColumnBatch) (k : Int)
    (c : Column) (hc : batchGetColumn h b k = some c) :
    batchGetColumn (h ++ ext) b k = some c := by
  unfold batchGetColumn at *
  cases hp : b.getColumnPtr k with
  | none =>
    rw [hp] at hc
    simp at hc
  | some p =>
    rw [hp] at hc
    exact heapGet_append h ext p c hc

theorem batchGetColumn_append_none (h ext : Heap) (b : ColumnBatch) (k : Int)
    (hwf : BatchWF h b) (hc : batchGetColumn h b k = none) :
    batchGetColumn (h ++ ext) b k = none := by
  unfold batchGetColumn at *
  cases hp : b.getColumnPtr k with
  | none => rfl
  | some p =>
    rw [hp] at hc
    obtain ⟨c, hcc, -⟩ := hwf.1 (k, p) (lookup_mem hp)
    have hcc' : heapGet h p = some c := hcc
    have hc' : heapGet h p = none := hc
    cases hcc'.symm.trans hc' 

/-- Under the batch invariant, every present column handle dereferences to a
column of at least `rowCount` rows. -/
theorem batchWF_getColumn (h : Heap) (b : ColumnBatch) (hwf : BatchWF h b)
    (k : Int) (p : Ptr) (hp : b.getColumnPtr k = some p) :
    ∃ c, batchGetColumn h b k = some c ∧ b.rowCount ≤ c.size := by
  obtain ⟨c, hc, hsz⟩ := hwf.1 (k, p) (lookup_mem hp)
  refine ⟨c, ?_, hsz⟩
  unfold batchGetColumn
  rw [hp]
  exact hc

theorem getD_mem_of_lt {α : Type} (l : List α) (t : Nat) (d : α)
    (ht : t < l.length) : l.getD t d ∈ l := by
  rw [List.getD_eq_getElem?_getD, List.getElem?_eq_getElem ht]
  exact List.getElem_mem ht

/-- `selected_rows` is sorted, duplicate-free, and contains exactly the rows
the scan keeps. -/
theorem mergeSelected_spec (idCol scoreCol : Option Column) (dedup : String)
    (n : Nat) :
    List.Sorted (· ≤ ·) (mergeSelected idCol scoreCol dedup n) ∧
    (mergeSelected idCol scoreCol dedup n).Nodup ∧
    (∀ i, i ∈ mergeSelected idCol scoreCol dedup n ↔
      MergeKeeps idCol scoreCol dedup n i) := by
  obtain ⟨h1, h2, h3⟩ := mergeBestRow_spec idCol scoreCol dedup n
  refine ⟨List.sorted_insertionSort _ _, ?_, ?_⟩
  · apply (List.perm_insertionSort _ _).nodup_iff.mpr
    apply List.Nodup.map_on ?_ h2.of_map
    rintro ⟨c1, j1⟩ hx ⟨c2, j2⟩ hy hxy
    dsimp only at hxy
    subst hxy
    have hl1 : (mergeBestRow idCol scoreCol dedup n).lookup c1 = some j1 :=
      lookup_of_mem_nodup h2 hx
    have hl2 : (mergeBestRow idCol scoreCol dedup n).lookup c2 = some j1 :=
      lookup_of_mem_nodup h2 hy
    have hid1 : rowCandId idCol j1 = some c1 := ((h1 c1 j1).mp hl1).1
    have hid2 : rowCandId idCol j1 = some c2 := ((h1 c2 j1).mp hl2).1
    have : c1 = c2 := Option.some.inj (hid1.symm.trans hid2)
    rw [this]
  · intro i
    constructor
    · intro hmem
      unfold mergeSelected at hmem
      rw [List.mem_insertionSort] at hmem
      obtain ⟨⟨cid, j⟩, hinbr, hji⟩ := List.mem_map.mp hmem
      dsimp only at hji
      subst hji
      exact ((h1 cid j).mp (lookup_of_mem_nodup h2 hinbr)).2
    · intro hk
      obtain ⟨cid, hcid⟩ := Option.isSome_iff_exists.mp hk.2.1
      cases hl : (mergeBestRow idCol scoreCol dedup n).lookup cid with
      | none => exact absurd hcid (h3 cid hl i hk.1)
      | some j =>
        obtain ⟨hjid, hjk⟩ := (h1 cid j).mp hl
        have hji : j = i :=
          mergeKeeps_unique idCol scoreCol dedup n j i hjk hk (hjid.trans hcid.symm)
        subst hji
        unfold mergeSelected
        rw [List.mem_insertionSort]
        exact List.mem_map.mpr ⟨(cid, j), lookup_mem hl, rfl⟩

/-- Invariant step of merge's output loop over the remaining column keys. -/
theorem mergeFold_go (h0 : Heap) (input : ColumnBatch) (sel : List Nat)
    (hwf : BatchWF h0 input) (hn : 0 < input.rowCount) :
    ∀ (keys : List Int) (st : Heap × ColumnBatch),
    (∀ k ∈ keys, k ∈ input.columnKeys) →
    (∃ ext, st.1 = h0 ++ ext) →
    st.2.rowCount = sel.length →
    MergeColInv h0 input sel st.1 st.2 →
    ∃ st', keys.foldlM (mergeColumnStep input sel sel.length) st = .ok st' ∧
      (∃ ext, st'.1 = h0 ++ ext) ∧
      st'.2.rowCount = sel.length ∧
      MergeColInv h0 input sel st'.1 st'.2 ∧
      (∀ k, st'.2.hasColumn k = true ↔ (st.2.hasColumn k = true ∨ k ∈ keys))
  | [], st, hkeys, hpre, hrc, hinv =>
    ⟨st, rfl, hpre, hrc, hinv, fun k => by simp⟩
  | k :: rest, st, hkeys, hpre, hrc, hinv => by
    obtain ⟨ext, hext⟩ := hpre
    cases hpk : input.getColumnPtr k with
    | none =>
      exact absurd (hkeys k (List.mem_cons_self k rest))
        ((lookup_eq_none_iff input.columns k).mp hpk)
    | some p0 =>
      obtain ⟨src, hsrc, hsrcsz⟩ := batchWF_getColumn h0 input hwf k p0 hpk
      have hsrcpos : 0 < src.size := lt_of_lt_of_le hn hsrcsz
      obtain ⟨filled, hfill, hfillsz, hfillvals⟩ := mergeFillColumn_spec src sel hsrcpos
      have hsrc' : batchGetColumn st.1 input k = some src := by
        rw [hext]
        exact batchGetColumn_append h0 ext input k src hsrc
      have hsteq : mergeColumnStep input sel sel.length st k =
          .ok (st.1 ++ [src] ++ [filled],
            st.2.setColumn k (st.1 ++ [src]).length) := by
        unfold mergeColumnStep
        rw [hsrc']
        dsimp only
        rw [hfill]
        dsimp only [heapAlloc]
      have hinv1 : MergeColInv h0 input sel (st.1 ++ [src] ++ [filled])
          (st.2.setColumn k (st.1 ++ [src]).length) := by
        intro k' p' hp'
        by_cases hkk : k' = k
        · subst hkk
          have hl : (st.2.setColumn k' (st.1 ++ [src]).length).getColumnPtr k' =
              some (st.1 ++ [src]).length := assocSet_lookup_self _ _ _
          rw [hl] at hp'
          have hpp : p' = (st.1 ++ [src]).length := (Option.some.inj hp').symm
          subst hpp
          refine ⟨by rw [List.length_append, hext, List.length_append]; omega,
            filled, src, heapGet_alloc_self _ _, hsrc, hfillsz, hfillvals⟩
        · have hl : (st.2.setColumn k (st.1 ++ [src]).length).getColumnPtr k' =
              st.2.getColumnPtr k' :=
            assocSet_lookup_ne _ _ _ _ hkk
          rw [hl] at hp'
          obtain ⟨hge, col, src', hcol, hsrc2, hcolsz, hcolvals⟩ := hinv k' p' hp'
          exact ⟨hge, col, src',
            heapGet_append _ [filled] p' col (heapGet_append st.1 [src] p' col hcol),
            hsrc2, hcolsz, hcolvals⟩
      obtain ⟨st', hfold, hpre', hrc', hinv', hhas'⟩ :=
        mergeFold_go h0 input sel hwf hn rest
          (st.1 ++ [src] ++ [filled], st.2.setColumn k (st.1 ++ [src]).length)
          (fun k' hk' => hkeys k' (List.mem_cons_of_mem k hk'))
          ⟨ext ++ [src] ++ [filled], by rw [hext]; simp⟩
          hrc hinv1
      refine ⟨st', ?_, hpre', hrc', hinv', ?_⟩
      · rw [List.foldlM_cons, hsteq]
        exact hfold
      · intro k'
        rw [hhas' k']
        by_cases hkk : k' = k
        · subst hkk
          constructor
          · intro _
            exact Or.inr (List.mem_cons_self k' rest)
          · intro _
            left
            show ((st.2.setColumn k' (st.1 ++ [src]).length).getColumnPtr k').isSome
              = true
            rw [show (st.2.setColumn k' (st.1 ++ [src]).length).getColumnPtr k' =
              some (st.1 ++ [src]).length from assocSet_lookup_self _ _ _]
            rfl
        · have hl : (st.2.setColumn k (st.1 ++ [src]).length).getColumnPtr k' =
              st.2.getColumnPtr k' := assocSet_lookup_ne _ _ _ _ hkk
          show ((st.2.setColumn k (st.1 ++ [src]).length).getColumnPtr k').isSome
              = true ∨ k' ∈ rest ↔ _
          rw [hl, List.mem_cons]
          constructor
          · rintro (hc | hr)
            · exact Or.inl hc
            · exact Or.inr (Or.inr hr)
          · rintro (hc | hkeq | hr)
            · exact Or.inl hc
            · exact absurd hkeq hkk
            · exact Or.inr hr

/-- **C4.** On a well-formed nonempty input batch, `core:merge` groups rows
by candidate-id (skipping rows whose id is missing or null), keeps per id the
earliest row in `first` mode and the earliest maximal-base-score row in
`max_base` mode, and emits a batch holding exactly the kept rows, ordered by
the sorted kept input row indices, with every output column freshly
materialised — no output column handle is one of the input's. -/
theorem merge_run_spec (h : Heap) (input : ColumnBatch) (dedupParam : Option String)
    (hwf : BatchWF h input) (hn : 0 < input.rowCount) :
    ∃ h' out sel, mergeRun h input dedupParam = .ok (h', out) ∧
      sel = mergeSelected (batchGetTyped h input CAND_CANDIDATE_ID ColumnType.i64)
        (batchGetTyped h input SCORE_BASE ColumnType.f32)
        (dedupParam.getD "first") input.rowCount ∧
      (∀ i, i ∈ sel ↔
        MergeKeeps (batchGetTyped h input CAND_CANDIDATE_ID ColumnType.i64)
          (batchGetTyped h input SCORE_BASE ColumnType.f32)
          (dedupParam.getD "first") input.rowCount i) ∧
      List.Sorted (· ≤ ·) sel ∧
      sel.Nodup ∧
      out.rowCount = sel.length ∧
      (∀ k, out.hasColumn k = input.hasColumn k) ∧
      (∀ k t, t < sel.length →
        batchGetValue h' out t k = batchGetValue h input (sel.getD t 0) k) ∧
      (∀ k p, out.getColumnPtr k = some p → h.length ≤ p) ∧
      (∀ k k' p p', out.getColumnPtr k = some p →
        input.getColumnPtr k' = some p' → p ≠ p') := by
  obtain ⟨hsort, hnodup, hmem⟩ :=
    mergeSelected_spec (batchGetTyped h input CAND_CANDIDATE_ID ColumnType.i64)
      (batchGetTyped h input SCORE_BASE ColumnType.f32)
      (dedupParam.getD "first") input.rowCount
  obtain ⟨st', hfold, ⟨ext, hext⟩, hrc, hinv, hhas⟩ :=
    mergeFold_go h input
      (mergeSelected (batchGetTyped h input CAND_CANDIDATE_ID ColumnType.i64)
        (batchGetTyped h input SCORE_BASE ColumnType.f32)
        (dedupParam.getD "first") input.rowCount) hwf hn input.columnKeys
      (h, { rowCount := (mergeSelected
        (batchGetTyped h input CAND_CANDIDATE_ID ColumnType.i64)
        (batchGetTyped h input SCORE_BASE ColumnType.f32)
        (dedupParam.getD "first") input.rowCount).length })
      (fun _ hk => hk) ⟨[], by simp⟩ rfl
      (fun k p hp => by
        simp only [ColumnBatch.getColumnPtr, List.lookup] at hp
        exact Option.noConfusion hp)
  have hrun : mergeRun h input dedupParam = .ok st' := by
    unfold mergeRun
    dsimp only
    rw [if_neg (Nat.pos_iff_ne_zero.mp hn)]
    exact hfold
  have hin : ∀ k, k ∈ input.columnKeys ↔ input.hasColumn k = true := by
    intro k
    constructor
    · intro hk
      show (input.columns.lookup k).isSome = true
      cases hl : input.columns.lookup k with
      | none => exact absurd hk ((lookup_eq_none_iff _ _).mp hl)
      | some p => rfl
    · intro hb
      cases hl : input.columns.lookup k with
      | none =>
        have hb' : (input.columns.lookup k).isSome = true := hb
        rw [hl] at hb'
        cases hb'
      | some p =>
        exact List.mem_map.mpr ⟨(k, p), lookup_mem hl, rfl⟩
  have hhaseq : ∀ k, st'.2.hasColumn k = input.hasColumn k := by
    intro k
    cases hv : input.hasColumn k with
    | false =>
      apply Bool.eq_false_iff.mpr
      intro hc
      rcases (hhas k).mp hc with hfalse | hmemk
      · cases hfalse
      · rw [(hin k).mp hmemk] at hv
        cases hv
    | true =>
      exact (hhas k).mpr (Or.inr ((hin k).mpr hv))
  refine ⟨st'.1, st'.2,
    mergeSelected (batchGetTyped h input CAND_CANDIDATE_ID ColumnType.i64)
      (batchGetTyped h input SCORE_BASE ColumnType.f32)
      (dedupParam.getD "first") input.rowCount,
    hrun, rfl, hmem, hsort, hnodup, hrc, hhaseq, ?_, fun k p hp => (hinv k p hp).1,
    ?_⟩
  · intro k t ht
    cases hout : st'.2.getColumnPtr k with
    | some p =>
      obtain ⟨hp0, col, src, hcol, hsrc, hcolsz, hcolvals⟩ := hinv k p hout
      have hbgc : batchGetColumn st'.1 st'.2 k = some col := by
        unfold batchGetColumn
        rw [hout]
        exact hcol
      have hselmem := getD_mem_of_lt _ t 0 ht
      have hsellt := ((hmem _).mp hselmem).1
      unfold batchGetValue
      rw [hbgc, hsrc]
      dsimp only
      rw [if_neg (not_le.mpr (by rw [hrc]; exact ht)),
        if_neg (not_le.mpr hsellt)]
      exact hcolvals t ht
    | none =>
      have hof : st'.2.hasColumn k = false := by
        show (st'.2.getColumnPtr k).isSome = false
        rw [hout]
        rfl
      have hif : input.hasColumn k = false := by
        rw [← hhaseq k]
        exact hof
      have hinone : input.getColumnPtr k = none := by
        cases hip : input.getColumnPtr k with
        | none => rfl
        | some p =>
          have hif' : (input.getColumnPtr k).isSome = false := hif
          rw [hip] at hif'
          cases hif'
      unfold batchGetValue
      have h1 : batchGetColumn st'.1 st'.2 k = none := by
        unfold batchGetColumn
        rw [hout]
        rfl
      have h2 : batchGetColumn h input k = none := by
        unfold batchGetColumn
        rw [hinone]
        rfl
      rw [h1, h2]
  · intro k k' p p' hp hp'
    have h1 : h.length ≤ p := (hinv k p hp).1
    obtain ⟨c, hc, -⟩ := hwf.1 (k', p') (lookup_mem hp')
    have h2 : p' < h.length := heapGet_lt_length h p' c hc
    intro heq
    rw [heq] at h1
    exact absurd h2 (not_lt.mpr h1)

/-- Witness: a one-column two-row batch satisfies the hypotheses of
`merge_run_spec`. -/
theorem merge_run_spec_witness :
    BatchWF [Column.i64 ⟨[5, 5], [false, false]⟩]
      { rowCount := 2, columns := [(CAND_CANDIDATE_ID, 0)] } ∧
    0 < ({ rowCount := 2, columns := [(CAND_CANDIDATE_ID, 0)] } :
      ColumnBatch).rowCount ∧
    (∃ h' out sel,
      mergeRun [Column.i64 ⟨[5, 5], [false, false]⟩]
        { rowCount := 2, columns := [(CAND_CANDIDATE_ID, 0)] } none =
        .ok (h', out) ∧
      sel = mergeSelected
        (batchGetTyped [Column.i64 ⟨[5, 5], [false, false]⟩]
          { rowCount := 2, columns := [(CAND_CANDIDATE_ID, 0)] }
          CAND_CANDIDATE_ID ColumnType.i64)
        (batchGetTyped [Column.i64 ⟨[5, 5], [false, false]⟩]
          { rowCount := 2, columns := [(CAND_CANDIDATE_ID, 0)] }
          SCORE_BASE ColumnType.f32)
        ((none : Option String).getD "first") 2 ∧
      (∀ i, i ∈ sel ↔
        MergeKeeps
          (batchGetTyped [Column.i64 ⟨[5, 5], [false, false]⟩]
            { rowCount := 2, columns := [(CAND_CANDIDATE_ID, 0)] }
            CAND_CANDIDATE_ID ColumnType.i64)
          (batchGetTyped [Column.i64 ⟨[5, 5], [false, false]⟩]
            { rowCount := 2, columns := [(CAND_CANDIDATE_ID, 0)] }
            SCORE_BASE ColumnType.f32)
          ((none : Option String).getD "first") 2 i) ∧
      List.Sorted (· ≤ ·) sel ∧
      sel.Nodup ∧
      out.rowCount = sel.length ∧
      (∀ k, out.hasColumn k =
        ({ rowCount := 2, columns := [(CAND_CANDIDATE_ID, 0)] } :
          ColumnBatch).hasColumn k) ∧
      (∀ k t, t < sel.length →
        batchGetValue h' out t k =
          batchGetValue [Column.i64 ⟨[5, 5], [false, false]⟩]
            { rowCount := 2, columns := [(CAND_CANDIDATE_ID, 0)] }
            (sel.getD t 0) k) ∧
      (∀ k p, out.getColumnPtr k = some p →
        ([Column.i64 ⟨[5, 5], [false, false]⟩] : Heap).length ≤ p) ∧
      (∀ k k' p p', out.getColumnPtr k = some p →
        ({ rowCount := 2, columns := [(CAND_CANDIDATE_ID, 0)] } :
          ColumnBatch).getColumnPtr k' = some p' → p ≠ p')) :=
  have hwf : BatchWF [Column.i64 ⟨[5, 5], [false, false]⟩]
      { rowCount := 2, columns := [(CAND_CANDIDATE_ID, 0)] } :=
    ⟨by
      intro kv hkv
      rw [List.mem_singleton] at hkv
      subst hkv
      exact ⟨Column.i64 ⟨[5, 5], [false, false]⟩, rfl, by decide⟩,
      by decide⟩
  ⟨hwf, by decide,
    merge_run_spec [Column.i64 ⟨[5, 5], [false, false]⟩]
      { rowCount := 2, columns := [(CAND_CANDIDATE_ID, 0)] } none hwf (by decide)⟩

/-! ## Success-conditioned column write lemmas (for the builder) -/

/-- When `SetValue` succeeds, the row was in range and every other row reads
back unchanged; the column keeps its size. -/
theorem setValue_ok_spec (col : Column) (i : Nat) (v : Value) (col' : Column)
    (hok : col.setValue i v = .ok col') :
    i < col.size ∧ col'.size = col.size ∧
    (∀ i', i' ≠ i → col'.getValue i' = col.getValue i') := by
  unfold Column.setValue at hok
  by_cases hb : col.size ≤ i
  · rw [if_pos hb] at hok
    cases hok
  · rw [if_neg hb] at hok
    have hi : i < col.size := not_le.mp hb
    refine ⟨hi, ?_⟩
    cases col with
    | f32 c =>
      cases v with
      | null =>
        injection hok with h
        subst h
        refine ⟨boxed_write_size c i none, ?_⟩
        intro i' hne
        show (if (c.write i none).isNull i' then Value.null
            else Value.f32V ((c.write i none).data.getD i' 0)) =
          (Column.f32 c).getValue i'
        rw [boxed_write_isNull_ne c i i' none hne,
          boxed_write_getD_ne c i i' none 0 hne]
        rfl
      | f32V x =>
        injection hok with h
        subst h
        refine ⟨boxed_write_size c i (some x), ?_⟩
        intro i' hne
        show (if (c.write i (some x)).isNull i' then Value.null
            else Value.f32V ((c.write i (some x)).data.getD i' 0)) =
          (Column.f32 c).getValue i'
        rw [boxed_write_isNull_ne c i i' (some x) hne,
          boxed_write_getD_ne c i i' (some x) 0 hne]
        rfl
      | i64V x => cases hok
      | boolV x => cases hok
      | stringV x => cases hok
      | bytesV x => cases hok
      | f32vecV x => cases hok
    | i64 c =>
      cases v with
      | null =>
        injection hok with h
        subst h
        refine ⟨boxed_write_size c i none, ?_⟩
        intro i' hne
        show (if (c.write i none).isNull i' then Value.null
            else Value.i64V ((c.write i none).data.getD i' 0)) =
          (Column.i64 c).getValue i'
        rw [boxed_write_isNull_ne c i i' none hne,
          boxed_write_getD_ne c i i' none 0 hne]
        rfl
      | i64V x =>
        injection hok with h
        subst h
        refine ⟨boxed_write_size c i (some x), ?_⟩
        intro i' hne
        show (if (c.write i (some x)).isNull i' then Value.null
            else Value.i64V ((c.write i (some x)).data.getD i' 0)) =
          (Column.i64 c).getValue i'
        rw [boxed_write_isNull_ne c i i' (some x) hne,
          boxed_write_getD_ne c i i' (some x) 0 hne]
        rfl
      | f32V x => cases hok
      | boolV x => cases hok
      | stringV x => cases hok
      | bytesV x => cases hok
      | f32vecV x => cases hok
    | boolC c =>
      cases v with
      | null =>
        injection hok with h
        subst h
        refine ⟨boxed_write_size c i none, ?_⟩
        intro i' hne
        show (if (c.write i none).isNull i' then Value.null
            else Value.boolV ((c.write i none).data.getD i' false)) =
          (Column.boolC c).getValue i'
        rw [boxed_write_isNull_ne c i i' none hne,
          boxed_write_getD_ne c i i' none false hne]
        rfl
      | boolV x =>
        injection hok with h
        subst h
        refine ⟨boxed_write_size c i (some x), ?_⟩
        intro i' hne
        show (if (c.write i (some x)).isNull i' then Value.null
            else Value.boolV ((c.write i (some x)).data.getD i' false)) =
          (Column.boolC c).getValue i'
        rw [boxed_write_isNull_ne c i i' (some x) hne,
          boxed_write_getD_ne c i i' (some x) false hne]
        rfl
      | f32V x => cases hok
      | i64V x => cases hok
      | stringV x => cases hok
      | bytesV x => cases hok
      | f32vecV x => cases hok
    | stringC c =>
      cases v with
      | null =>
        injection hok with h
        subst h
        refine ⟨boxed_write_size c i none, ?_⟩
        intro i' hne
        show (if (c.write i none).isNull i' then Value.null
            else Value.stringV ((c.write i none).data.getD i' "")) =
          (Column.stringC c).getValue i'
        rw [boxed_write_isNull_ne c i i' none hne,
          boxed_write_getD_ne c i i' none "" hne]
        rfl
      | stringV x =>
        injection hok with h
        subst h
        refine ⟨boxed_write_size c i (some x), ?_⟩
        intro i' hne
        show (if (c.write i (some x)).isNull i' then Value.null
            else Value.stringV ((c.write i (some x)).data.getD i' "")) =
          (Column.stringC c).getValue i'
        rw [boxed_write_isNull_ne c i i' (some x) hne,
          boxed_write_getD_ne c i i' (some x) "" hne]
        rfl
      | f32V x => cases hok
      | i64V x => cases hok
      | boolV x => cases hok
      | bytesV x => cases hok
      | f32vecV x => cases hok
    | bytesC c =>
      cases v with
      | null =>
        injection hok with h
        subst h
        refine ⟨boxed_write_size c i none, ?_⟩
        intro i' hne
        show (if (c.write i none).isNull i' then Value.null
            else Value.bytesV ((c.write i none).data.getD i' [])) =
          (Column.bytesC c).getValue i'
        rw [boxed_write_isNull_ne c i i' none hne,
          boxed_write_getD_ne c i i' none [] hne]
        rfl
      | bytesV x =>
        injection hok with h
        subst h
        refine ⟨boxed_write_size c i (some x), ?_⟩
        intro i' hne
        show (if (c.write i (some x)).isNull i' then Value.null
            else Value.bytesV ((c.write i (some x)).data.getD i' [])) =
          (Column.bytesC c).getValue i'
        rw [boxed_write_isNull_ne c i i' (some x) hne,
          boxed_write_getD_ne c i i' (some x) [] hne]
        rfl
      | f32V x => cases hok
      | i64V x => cases hok
      | boolV x => cases hok
      | stringV x => cases hok
      | f32vecV x => cases hok
    | f32vec d dim m =>
      cases v with
      | null =>
        injection hok with h
        subst h
        refine ⟨rfl, ?_⟩
        intro i' hne
        show (if (decide (vecSize d dim ≤ i') || (m.set i true).getD i' false) = true
            then Value.null else Value.f32vecV (vecGetRow d dim i')) =
          (Column.f32vec d dim m).getValue i'
        rw [getD_set_ne _ _ _ _ _ (fun heq => hne heq.symm)]
        rfl
      | f32vecV w =>
        dsimp only at hok
        by_cases hw : w.length ≠ dim
        · rw [if_pos hw] at hok
          cases hok
        · rw [if_neg hw] at hok
          injection hok with h
          subst h
          have hw2 : w.length = dim := not_not.mp hw
          have hdim : 0 < dim := by
            by_contra hd
            have hz : vecSize d dim = 0 := by
              unfold vecSize
              rw [if_neg hd]
            have : i < (0 : Nat) := by
              have hi' : i < vecSize d dim := hi
              rw [hz] at hi'
              exact hi'
            exact absurd this (Nat.not_lt_zero i)
          have hle : i * dim + dim ≤ d.length := vec_row_bound d dim i hdim hi
          have hlen' : (vecSetRow d dim i w).length = d.length :=
            vecSetRow_length d dim i w hw2 hle
          have hsz' : vecSize (vecSetRow d dim i w) dim = vecSize d dim := by
            unfold vecSize
            rw [hlen']
          refine ⟨hsz', ?_⟩
          intro i' hne
          show (if (decide (vecSize (vecSetRow d dim i w) dim ≤ i') ||
              (m.set i false).getD i' false) = true
            then Value.null
            else Value.f32vecV (vecGetRow (vecSetRow d dim i w) dim i')) =
            (Column.f32vec d dim m).getValue i'
          rw [hsz', getD_set_ne _ _ _ _ _ (fun heq => hne heq.symm),
            vecGetRow_setRow_ne d dim i i' w hw2 hle hne]
          rfl
      | f32V x => cases hok
      | i64V x => cases hok
      | boolV x => cases hok
      | stringV x => cases hok
      | bytesV x => cases hok

theorem getD_replicate {α : Type} (n r : Nat) (a d : α) (hr : r < n) :
    (List.replicate n a).getD r d = a := by
  rw [List.getD_eq_getElem?_getD, List.getElem?_replicate, if_pos hr]
  rfl

/-- `MakeTypedColumn` succeeds exactly on non-Null types. -/
theorem makeTypedColumn_isSome (t : ColumnType) (n dim : Nat)
    (ht : t ≠ ColumnType.nullT) : ∃ c, makeTypedColumn t n dim = some c := by
  cases t with
  | nullT => exact absurd rfl ht
  | f32 => exact ⟨_, rfl⟩
  | i64 => exact ⟨_, rfl⟩
  | boolT => exact ⟨_, rfl⟩
  | stringT => exact ⟨_, rfl⟩
  | f32vec => exact ⟨_, rfl⟩
  | bytes => exact ⟨_, rfl⟩

/-- A freshly created typed column reads null at every row. -/
theorem makeTypedColumn_getValue (t : ColumnType) (n dim : Nat) (c : Column)
    (h : makeTypedColumn t n dim = some c) (r : Nat) :
    c.getValue r = Value.null := by
  have hmask : ∀ (sz : Nat), sz ≤ n →
      (decide (sz ≤ r) || (List.replicate n true).getD r false) = true := by
    intro sz hsz
    by_cases hr : r < n
    · rw [getD_replicate n r true false hr]
      simp
    · have : sz ≤ r := le_trans hsz (not_lt.mp hr)
      simp [this]
  cases t with
  | nullT => cases h
  | f32 =>
    injection h with h'
    subst h'
    show (if (decide ((List.replicate n (0 : ℚ)).length ≤ r) ||
        (List.replicate n true).getD r false) = true
      then Value.null else _) = Value.null
    rw [List.length_replicate, hmask n le_rfl, if_pos rfl]
  | i64 =>
    injection h with h'
    subst h'
    show (if (decide ((List.replicate n (0 : Int)).length ≤ r) ||
        (List.replicate n true).getD r false) = true
      then Value.null else _) = Value.null
    rw [List.length_replicate, hmask n le_rfl, if_pos rfl]
  | boolT =>
    injection h with h'
    subst h'
    show (if (decide ((List.replicate n false).length ≤ r) ||
        (List.replicate n true).getD r false) = true
      then Value.null else _) = Value.null
    rw [List.length_replicate, hmask n le_rfl, if_pos rfl]
  | stringT =>
    injection h with h'
    subst h'
    show (if (decide ((List.replicate n "").length ≤ r) ||
        (List.replicate n true).getD r false) = true
      then Value.null else _) = Value.null
    rw [List.length_replicate, hmask n le_rfl, if_pos rfl]
  | bytes =>
    injection h with h'
    subst h'
    show (if (decide ((List.replicate n ([] : List Nat)).length ≤ r) ||
        (List.replicate n true).getD r false) = true
      then Value.null else _) = Value.null
    rw [List.length_replicate, hmask n le_rfl, if_pos rfl]
  | f32vec =>
    injection h with h'
    subst h'
    have hsz : vecSize (List.replicate (n * dim) (0 : ℚ)) dim ≤ n := by
      unfold vecSize
      by_cases hd : 0 < dim
      · rw [if_pos hd, List.length_replicate, Nat.mul_div_cancel n hd]
      · rw [if_neg hd]
        exact Nat.zero_le n
    show (if (decide (vecSize (List.replicate (n * dim) (0 : ℚ)) dim ≤ r) ||
        (List.replicate n true).getD r false) = true
      then Value.null else _) = Value.null
    rw [hmask _ hsz, if_pos rfl]

/-! ## Heap mutation lemmas -/

theorem heapGet_set_self (h : Heap) (p : Ptr) (c : Column) (hp : p < h.length) :
    heapGet (heapSet h p c) p = some c := by
  unfold heapGet heapSet
  rw [List.getElem?_set_self', List.getElem?_eq_getElem hp]
  rfl

theorem heapGet_set_ne (h : Heap) (p p' : Ptr) (c : Column) (hne : p' ≠ p) :
    heapGet (heapSet h p c) p' = heapGet h p' := by
  unfold heapGet heapSet
  exact List.getElem?_set_ne (fun heq => hne heq.symm)

theorem heapSet_append_right (h0 ext : Heap) (p : Ptr) (c : Column)
    (hp : h0.length ≤ p) :
    heapSet (h0 ++ ext) p c = h0 ++ ext.set (p - h0.length) c := by
  unfold heapSet
  rw [List.set_append_right _ _ hp]

theorem heapGet_append_ne (h : Heap) (c : Column) (p' : Ptr)
    (hne : p' ≠ h.length) : heapGet (h ++ [c]) p' = heapGet h p' := by
  unfold heapGet
  rcases Nat.lt_or_ge p' h.length with hlt | hge
  · rw [List.getElem?_append, if_pos hlt]
  · have hgt : h.length < p' := Nat.lt_of_le_of_ne hge (fun heq => hne heq.symm)
    rw [List.getElem?_eq_none (by simp; omega), List.getElem?_eq_none (by omega)]

theorem heapGet_prefix (h0 ext : Heap) (p : Ptr) (hp : p < h0.length) :
    heapGet (h0 ++ ext) p = heapGet h0 p := by
  unfold heapGet
  rw [List.getElem?_append, if_pos hp]

/-! ## lastWrite lemmas -/

theorem lastWrite_foldl_acc_none (ops : List BuilderOp) (acc : Option Value)
    (k : Int) (r : Nat)
    (h : ops.foldl (fun acc op => match op with
      | BuilderOp.set r' k' v => if k' = k ∧ r' = r then some v else acc
      | BuilderOp.add _ _ => acc) acc = none) : acc = none := by
  induction ops generalizing acc with
  | nil => exact h
  | cons op rest ih =>
    rw [List.foldl_cons] at h
    have hstep := ih _ h
    cases op with
    | add a b => exact hstep
    | set r' k' v =>
      dsimp only at hstep
      by_cases hc : k' = k ∧ r' = r
      · rw [if_pos hc] at hstep
        cases hstep
      · rw [if_neg hc] at hstep
        exact hstep

theorem lastWrite_cons_set_none (row : Nat) (k' : Int) (v : Value)
    (rest : List BuilderOp) (k : Int) (r : Nat)
    (h : lastWrite (BuilderOp.set row k' v :: rest) k r = none) :
    ¬(k' = k ∧ row = r) ∧ lastWrite rest k r = none := by
  unfold lastWrite at h ⊢
  rw [List.foldl_cons] at h
  dsimp only at h
  by_cases hc : k' = k ∧ row = r
  · rw [if_pos hc] at h
    have := lastWrite_foldl_acc_none rest (some v) k r h
    cases this
  · rw [if_neg hc] at h
    exact ⟨hc, h⟩

/-! ## Association-map and Build lemmas -/

theorem assocSet_keys_of_not_mem {β : Type} (l : List (Int × β)) (k : Int) (v : β)
    (h : k ∉ l.map Prod.fst) :
    (assocSet l k v).map Prod.fst = l.map Prod.fst ++ [k] := by
  induction l with
  | nil => rfl
  | cons hd tl ih =>
    rcases hd with ⟨k0, v0⟩
    rw [List.map_cons, List.mem_cons] at h
    push_neg at h
    unfold assocSet
    rw [if_neg (fun heq => h.1 heq.symm)]
    rw [List.map_cons, ih h.2, List.map_cons, List.cons_append]

theorem assocSet_nodup_keys {β : Type} (l : List (Int × β)) (k : Int) (v : β)
    (hnd : (l.map Prod.fst).Nodup) : ((assocSet l k v).map Prod.fst).Nodup := by
  by_cases hm : k ∈ l.map Prod.fst
  · rw [assocSet_keys_of_mem l k v hm]
    exact hnd
  · rw [assocSet_keys_of_not_mem l k v hm]
    rw [List.nodup_append]
    refine ⟨hnd, List.nodup_singleton k, ?_⟩
    intro a ha hb
    rw [List.mem_singleton] at hb
    subst hb
    exact hm ha

theorem foldl_assocSet_lookup {β : Type} (l : List (Int × β)) :
    ∀ (base : List (Int × β)) (k : Int),
    ((l.map Prod.fst).Nodup) →
    (l.foldl (fun acc kv => assocSet acc kv.1 kv.2) base).lookup k =
      match l.lookup k with
      | some p => some p
      | none => base.lookup k := by
  induction l with
  | nil =>
    intro base k _
    rfl
  | cons kv rest ih =>
    intro base k hnd
    rcases kv with ⟨k1, p1⟩
    rw [List.map_cons, List.nodup_cons] at hnd
    rw [List.foldl_cons]
    rw [ih (assocSet base k1 p1) k hnd.2]
    by_cases hk : k = k1
    · subst hk
      have hrest : rest.lookup k = none := (lookup_eq_none_iff rest k).mpr hnd.1
      rw [hrest, List.lookup_cons, beq_self_eq_true]
      dsimp only
      exact assocSet_lookup_self base k p1
    · rw [List.lookup_cons, beq_false_of_ne hk]
      cases hr : rest.lookup k with
      | some p =>
        dsimp only
      | none =>
        dsimp only
        exact assocSet_lookup_ne base k1 p1 k hk

theorem lookup_filter_key {β : Type} (l : List (Int × β)) (k : Int)
    (p : Int × β → Bool) (hp : ∀ v, p (k, v) = true) :
    (l.filter p).lookup k = l.lookup k := by
  induction l with
  | nil => rfl
  | cons kv rest ih =>
    rcases kv with ⟨k1, v1⟩
    by_cases hk : k1 = k
    · subst hk
      rw [List.filter_cons, if_pos (hp v1), List.lookup_cons, List.lookup_cons,
        beq_self_eq_true]
    · rw [List.filter_cons]
      by_cases hpv : p (k1, v1) = true
      · rw [if_pos hpv, List.lookup_cons, List.lookup_cons,
          beq_false_of_ne (fun heq => hk heq.symm)]
        dsimp only
        exact ih
      · rw [if_neg hpv, List.lookup_cons,
          beq_false_of_ne (fun heq => hk heq.symm)]
        exact ih

/-- `Build` installs the modified handle for a touched key. -/
theorem build_getColumnPtr_modified (bld : BatchBuilder) (k : Int) (q : Ptr)
    (hnd : (bld.modifiedCols.map Prod.fst).Nodup)
    (hq : bld.modifiedCols.lookup k = some q) :
    bld.build.getColumnPtr k = some q := by
  unfold BatchBuilder.build ColumnBatch.getColumnPtr
  dsimp only
  rw [foldl_assocSet_lookup bld.modifiedCols _ k hnd, hq]

/-- `Build` shares the source's handle for an untouched key. -/
theorem build_getColumnPtr_unmodified (bld : BatchBuilder) (S : ColumnBatch)
    (k : Int) (hsrc : bld.source = some S)
    (hnd : (bld.modifiedCols.map Prod.fst).Nodup)
    (hcons : bld.isModified k = true ↔ (bld.modifiedCols.lookup k).isSome = true)
    (hun : bld.isModified k = false) :
    bld.build.getColumnPtr k = S.getColumnPtr k := by
  have hnone : bld.modifiedCols.lookup k = none := by
    cases hl : bld.modifiedCols.lookup k with
    | none => rfl
    | some q =>
      have : bld.isModified k = true := hcons.mpr (by rw [hl]; rfl)
      rw [hun] at this
      cases this
  unfold BatchBuilder.build ColumnBatch.getColumnPtr
  rw [hsrc]
  dsimp only
  rw [foldl_assocSet_lookup bld.modifiedCols _ k hnd, hnone]
  dsimp only
  show (S.columns.filter (fun kv => decide ¬bld.isModified kv.1 = true)).lookup k =
    S.columns.lookup k
  apply lookup_filter_key
  intro v
  show decide (¬bld.isModified k = true) = true
  rw [hun]
  rfl

theorem makeTypedColumn_size (t : ColumnType) (n dim : Nat) (c : Column)
    (h : makeTypedColumn t n dim = some c) : c.size = n ∨ c.size = 0 := by
  cases t with
  | nullT => cases h
  | f32 =>
    injection h with h'
    subst h'
    left
    simp [Column.size, BoxedCol.fresh, BoxedCol.size]
  | i64 =>
    injection h with h'
    subst h'
    left
    simp [Column.size, BoxedCol.fresh, BoxedCol.size]
  | boolT =>
    injection h with h'
    subst h'
    left
    simp [Column.size, BoxedCol.fresh, BoxedCol.size]
  | stringT =>
    injection h with h'
    subst h'
    left
    simp [Column.size, BoxedCol.fresh, BoxedCol.size]
  | bytes =>
    injection h with h'
    subst h'
    left
    simp [Column.size, BoxedCol.fresh, BoxedCol.size]
  | f32vec =>
    injection h with h'
    subst h'
    by_cases hd : 0 < dim
    · left
      show vecSize (List.replicate (n * dim) 0) dim = n
      rw [vecSize_eq_mask_length _ _ n hd (by simp)]
    · right
      show vecSize (List.replicate (n * dim) 0) dim = 0
      unfold vecSize
      rw [if_neg hd]

/-- `EnsureWritable` on a key not yet modified clones the source column (or
creates a fresh typed one) at a fresh handle; on a modified key it returns
the existing handle.  The returned column initially carries the builder's
reference values for the key. -/
theorem ensureWritable_spec (h0 : Heap) (S : ColumnBatch) (bld : BatchBuilder)
    (h : Heap) (hwf : BatchWF h0 S) (hinv : BuilderInv h0 S bld h)
    (k : Int) (th : ColumnType) (bld1 : BatchBuilder) (h1 : Heap) (p : Ptr)
    (hok : bld.ensureWritable h k th = .ok (bld1, h1, p)) :
    bld1.source = bld.source ∧
    bld1.rowCount = bld.rowCount ∧
    (∃ ext1, h1 = h ++ ext1) ∧
    bld1.modifiedCols.lookup k = some p ∧
    (∀ k', k' ≠ k → bld1.modifiedCols.lookup k' = bld.modifiedCols.lookup k') ∧
    (∀ k', bld1.isModified k' = true ↔ (bld1.modifiedCols.lookup k').isSome = true) ∧
    ((bld1.modifiedCols.map Prod.fst).Nodup) ∧
    h0.length ≤ p ∧
    (∀ k1 p1 k2 p2, bld1.modifiedCols.lookup k1 = some p1 →
      bld1.modifiedCols.lookup k2 = some p2 → p1 = p2 → k1 = k2) ∧
    (∀ p', p' ≠ p → heapGet h1 p' = heapGet h p') ∧
    (∃ c, heapGet h1 p = some c ∧ (S.rowCount ≤ c.size ∨ c.size = 0) ∧
      (∀ r, c.getValue r = builderRefVal h0 S bld h k r)) := by
  obtain ⟨hsrc, hrow, ⟨ext, hext⟩, hcons, hnd, hderef, hinj⟩ := hinv
  unfold BatchBuilder.ensureWritable at hok
  cases hmod : bld.modifiedCols.lookup k with
  | some q =>
    rw [hmod] at hok
    injection hok with htrip
    have hb : bld = bld1 := congrArg Prod.fst htrip
    have hh : h = h1 := congrArg (fun x => x.2.1) htrip
    have hq : q = p := congrArg (fun x => x.2.2) htrip
    subst hb
    subst hh
    subst hq
    obtain ⟨hple, c, hc, hcsz⟩ := hderef k q hmod
    refine ⟨rfl, rfl, ⟨[], by simp⟩, hmod, fun _ _ => rfl, hcons, hnd, hple, hinj,
      fun _ _ => rfl, c, hc, Or.inl hcsz, ?_⟩
    intro r
    unfold builderRefVal
    rw [hmod]
    dsimp only
    rw [hc]
  | none =>
    rw [hmod] at hok
    rw [hsrc] at hok
    dsimp only at hok
    have hfresh :
        ∀ (col : Column),
        bld1 = { source := some S, rowCount := bld.rowCount, modifiedCols := assocSet bld.modifiedCols k h.length, modifiedKeys := bld.modifiedKeys ++ [k] } →
        h1 = h ++ [col] → p = h.length →
        heapGet h1 p = some col →
        (S.rowCount ≤ col.size ∨ col.size = 0) →
        (∀ r, col.getValue r = builderRefVal h0 S bld h k r) →
        bld1.source = bld.source ∧
        bld1.rowCount = bld.rowCount ∧
        (∃ ext1, h1 = h ++ ext1) ∧
        bld1.modifiedCols.lookup k = some p ∧
        (∀ k', k' ≠ k → bld1.modifiedCols.lookup k' = bld.modifiedCols.lookup k') ∧
        (∀ k', bld1.isModified k' = true ↔
          (bld1.modifiedCols.lookup k').isSome = true) ∧
        ((bld1.modifiedCols.map Prod.fst).Nodup) ∧
        h0.length ≤ p ∧
        (∀ k1 p1 k2 p2, bld1.modifiedCols.lookup k1 = some p1 →
          bld1.modifiedCols.lookup k2 = some p2 → p1 = p2 → k1 = k2) ∧
        (∀ p', p' ≠ p → heapGet h1 p' = heapGet h p') ∧
        (∃ c, heapGet h1 p = some c ∧ (S.rowCount ≤ c.size ∨ c.size = 0) ∧
          (∀ r, c.getValue r = builderRefVal h0 S bld h k r)) := by
      intro col hbld1 hh1 hp hget hsize hvals
      have hmemkeys : k ∉ bld.modifiedCols.map Prod.fst :=
        (lookup_eq_none_iff bld.modifiedCols k).mp hmod
      have hptrlt : ∀ k' p', bld.modifiedCols.lookup k' = some p' → p' < h.length := by
        intro k' p' hl
        obtain ⟨-, c', hc', -⟩ := hderef k' p' hl
        exact heapGet_lt_length h p' c' hc'
      subst hbld1
      subst hp
      refine ⟨hsrc.symm, rfl, ⟨[col], hh1⟩, assocSet_lookup_self _ _ _,
        fun k' hk' => assocSet_lookup_ne _ _ _ _ hk', ?_, ?_, ?_, ?_, ?_,
        col, hget, hsize, hvals⟩
      · intro k'
        show ((bld.modifiedKeys ++ [k]).elem k') = true ↔ _
        rw [List.elem_iff, List.mem_append, List.mem_singleton]
        by_cases hk' : k' = k
        · subst hk'
          rw [assocSet_lookup_self]
          simp
        · rw [assocSet_lookup_ne _ _ _ _ hk']
          have hold := hcons k'
          rw [show bld.isModified k' = bld.modifiedKeys.elem k' from rfl,
            List.elem_iff] at hold
          constructor
          · intro hor
            rcases hor with hm | he
            · exact hold.mp hm
            · exact absurd he hk'
          · intro hs
            exact Or.inl (hold.mpr hs)
      · exact assocSet_nodup_keys _ _ _ hnd
      · rw [hext, List.length_append]
        omega
      · intro ka pa kb pb hla hlb hpe
        by_cases hka : ka = k
        · subst hka
          rw [assocSet_lookup_self] at hla
          by_cases hkb : kb = ka
          · rw [hkb]
          · rw [assocSet_lookup_ne _ _ _ _ hkb] at hlb
            have hblt := hptrlt kb pb hlb
            have hpa : pa = h.length := (Option.some.inj hla).symm
            exfalso
            rw [hpa] at hpe
            rw [← hpe] at hblt
            exact Nat.lt_irrefl _ hblt
        · rw [assocSet_lookup_ne _ _ _ _ hka] at hla
          by_cases hkb : kb = k
          · subst hkb
            rw [assocSet_lookup_self] at hlb
            have halt := hptrlt ka pa hla
            have hpb : pb = h.length := (Option.some.inj hlb).symm
            exfalso
            rw [hpb] at hpe
            rw [hpe] at halt
            exact Nat.lt_irrefl _ halt
          · rw [assocSet_lookup_ne _ _ _ _ hkb] at hlb
            exact hinj ka pa kb pb hla hlb hpe
      · intro p' hp'
        rw [hh1]
        exact heapGet_append_ne h col p' hp'
    cases hsp : S.getColumnPtr k with
    | some sp =>
      rw [hsp] at hok
      dsimp only at hok
      obtain ⟨cs, hcs0, hcssz⟩ := hwf.1 (k, sp) (lookup_mem hsp)
      have hcs : heapGet h sp = some cs := by
        rw [hext]
        exact heapGet_append h0 ext sp cs hcs0
      rw [hcs] at hok
      dsimp only [heapAlloc] at hok
      injection hok with htrip
      have hb : _ = bld1 := congrArg Prod.fst htrip
      have hh : h ++ [cs] = h1 := congrArg (fun x => x.2.1) htrip
      have hq : h.length = p := congrArg (fun x => x.2.2) htrip
      refine hfresh cs hb.symm hh.symm hq.symm ?_ (Or.inl hcssz) ?_
      · rw [← hh, ← hq]
        exact heapGet_alloc_self h cs
      · intro r
        unfold builderRefVal batchGetColumn
        rw [hmod, hsp]
        dsimp only [Option.bind]
        rw [hcs0]
    | none =>
      rw [hsp] at hok
      dsimp only at hok
      have ht' : (if th = ColumnType.nullT then ColumnType.f32 else th) ≠
          ColumnType.nullT := by
        by_cases hth : th = ColumnType.nullT
        · rw [if_pos hth]
          intro hcontra
          cases hcontra
        · rw [if_neg hth]
          exact hth
      obtain ⟨c0, hc0⟩ := makeTypedColumn_isSome
        (if th = ColumnType.nullT then ColumnType.f32 else th) bld.rowCount 0 ht'
      rw [hc0] at hok
      dsimp only [heapAlloc] at hok
      injection hok with htrip
      have hb : _ = bld1 := congrArg Prod.fst htrip
      have hh : h ++ [c0] = h1 := congrArg (fun x => x.2.1) htrip
      have hq : h.length = p := congrArg (fun x => x.2.2) htrip
      have hsz : c0.size = S.rowCount ∨ c0.size = 0 := by
        rcases makeTypedColumn_size _ _ _ _ hc0 with hl | hr
        · left
          rw [hl, hrow]
        · right
          exact hr
      refine hfresh c0 hb.symm hh.symm hq.symm ?_ ?_ ?_
      · rw [← hh, ← hq]
        exact heapGet_alloc_self h c0
      · rcases hsz with hl | hr
        · exact Or.inl (le_of_eq hl.symm)
        · exact Or.inr hr
      · intro r
        unfold builderRefVal batchGetColumn
        rw [hmod, hsp]
        dsimp only [Option.bind]
        exact makeTypedColumn_getValue _ _ _ _ hc0 r

/-- One successful `Set` call preserves the builder invariant and leaves the
builder's reference value unchanged at every `(key, row)` other than the one
written. -/
theorem builderSet_step (h0 : Heap) (S : ColumnBatch) (bld : BatchBuilder)
    (h : Heap) (hwf : BatchWF h0 S) (hinv : BuilderInv h0 S bld h)
    (row : Nat) (k : Int) (v : Value) (bld1 : BatchBuilder) (h1 : Heap)
    (hok : bld.set h row k v = .ok (bld1, h1)) :
    BuilderInv h0 S bld1 h1 ∧
    (∀ k' r, ¬(k = k' ∧ row = r) →
      builderRefVal h0 S bld1 h1 k' r = builderRefVal h0 S bld h k' r) := by
  unfold BatchBuilder.set at hok
  by_cases hrow : bld.rowCount ≤ row
  · rw [if_pos hrow] at hok
    cases hok
  · rw [if_neg hrow] at hok
    dsimp only at hok
    cases hew : bld.ensureWritable h k (inferColumnType v) with
    | error e =>
      rw [hew] at hok
      cases hok
    | ok t =>
      obtain ⟨bld2, h2, p⟩ := t
      rw [hew] at hok
      dsimp only at hok
      obtain ⟨hsrc2, hrow2, ⟨ext1, hext1⟩, hlook2, hlookne, hcons2, hnd2, hple,
        hinj2, hheap2, c, hc, hcsz, hcvals⟩ :=
        ensureWritable_spec h0 S bld h hwf hinv k (inferColumnType v) bld2 h2 p hew
      rw [hc] at hok
      dsimp only at hok
      cases hsv : c.setValue row v with
      | error e =>
        rw [hsv] at hok
        cases hok
      | ok c' =>
        rw [hsv] at hok
        dsimp only at hok
        injection hok with hpair
        have hb : bld2 = bld1 := congrArg Prod.fst hpair
        have hh : heapSet h2 p c' = h1 := congrArg Prod.snd hpair
        subst hb
        subst hh
        obtain ⟨hrlt, hsz', hother⟩ := setValue_ok_spec c row v c' hsv
        have hcszL : S.rowCount ≤ c.size := by
          rcases hcsz with hl | hz
          · exact hl
          · rw [hz] at hrlt
            exact absurd hrlt (Nat.not_lt_zero row)
        have hplength : p < h2.length := heapGet_lt_length h2 p c hc
        obtain ⟨ext0, hext0⟩ := hinv.2.2.1
        constructor
        · refine ⟨hsrc2.trans hinv.1, hrow2.trans hinv.2.1, ?_, hcons2, hnd2,
            ?_, hinj2⟩
          · refine ⟨(ext0 ++ ext1).set (p - h0.length) c', ?_⟩
            rw [hext1, hext0, List.append_assoc]
            exact heapSet_append_right h0 (ext0 ++ ext1) p c' hple
          · intro k' p' hl'
            by_cases hpk : p' = p
            · subst hpk
              refine ⟨hple, c', heapGet_set_self h2 p' c' hplength, ?_⟩
              rw [hsz']
              exact hcszL
            · have hkk : k' ≠ k := by
                intro heq
                subst heq
                rw [hlook2] at hl'
                exact hpk (Option.some.inj hl').symm
              have hlu : bld2.modifiedCols.lookup k' = bld.modifiedCols.lookup k' :=
                hlookne k' hkk
              rw [hlu] at hl'
              obtain ⟨hge', c'', hc'', hsz''⟩ := hinv.2.2.2.2.2.1 k' p' hl'
              refine ⟨hge', c'', ?_, hsz''⟩
              rw [heapGet_set_ne h2 p p' c' hpk, hheap2 p' hpk]
              exact hc''
        · intro k' r hnw
          by_cases hkk : k' = k
          · subst hkk
            have hrne : row ≠ r := fun heq => hnw ⟨rfl, heq⟩
            have hL : builderRefVal h0 S bld2 (heapSet h2 p c') k' r =
                c'.getValue r := by
              unfold builderRefVal
              rw [hlook2]
              dsimp only
              rw [heapGet_set_self h2 p c' hplength]
            rw [hL, hother r (fun heq => hrne heq.symm), hcvals r]
          · have hlu : bld2.modifiedCols.lookup k' = bld.modifiedCols.lookup k' :=
              hlookne k' hkk
            cases hlk : bld.modifiedCols.lookup k' with
            | none =>
              unfold builderRefVal
              rw [hlu, hlk]
            | some p' =>
              have hl2' : bld2.modifiedCols.lookup k' = some p' := by
                rw [hlu]
                exact hlk
              have hpp : p' ≠ p := fun heq => hkk (hinj2 k' p' k p hl2' hlook2 heq)
              have hhg : heapGet (heapSet h2 p c') p' = heapGet h p' := by
                rw [heapGet_set_ne h2 p p' c' hpp]
                exact hheap2 p' hpp
              unfold builderRefVal
              rw [hlu, hlk]
              dsimp only
              rw [hhg]

/-- Invariant and reference-value preservation along a successful set-only
call sequence. -/
theorem applyOps_cow_go (h0 : Heap) (S : ColumnBatch) (hwf : BatchWF h0 S) :
    ∀ (ops : List BuilderOp) (bld : BatchBuilder) (h : Heap)
      (bld' : BatchBuilder) (h' : Heap),
    SetOnly ops → BuilderInv h0 S bld h →
    applyOps bld h ops = .ok (bld', h') →
    BuilderInv h0 S bld' h' ∧
    (∀ k r, lastWrite ops k r = none →
      builderRefVal h0 S bld' h' k r = builderRefVal h0 S bld h k r)
  | [], bld, h, bld', h', _, hinv, hok => by
    injection hok with hpair
    have hb : bld = bld' := congrArg Prod.fst hpair
    have hh : h = h' := congrArg Prod.snd hpair
    subst hb
    subst hh
    exact ⟨hinv, fun _ _ _ => rfl⟩
  | op :: rest, bld, h, bld', h', hset, hinv, hok => by
    obtain ⟨rowOp, kOp, vOp, hop⟩ := hset op (List.mem_cons_self op rest)
    subst hop
    unfold applyOps at hok
    cases hst : bld.set h rowOp kOp vOp with
    | error e =>
      rw [hst] at hok
      cases hok
    | ok t =>
      obtain ⟨bld1, h1⟩ := t
      rw [hst] at hok
      dsimp only at hok
      obtain ⟨hinv1, hpres1⟩ :=
        builderSet_step h0 S bld h hwf hinv rowOp kOp vOp bld1 h1 hst
      have hsetrest : SetOnly rest := fun o ho => hset o (List.mem_cons_of_mem _ ho)
      obtain ⟨hinv', hpres'⟩ :=
        applyOps_cow_go h0 S hwf rest bld1 h1 bld' h' hsetrest hinv1 hok
      refine ⟨hinv', ?_⟩
      intro k r hlw
      obtain ⟨hnw, hlwrest⟩ := lastWrite_cons_set_none rowOp kOp vOp rest k r hlw
      rw [hpres' k r hlwrest]
      exact hpres1 k r hnw

/-- **C1 (amended to set-only call sequences).** After a successful sequence
of `Set` calls on a builder over source `S`: the original heap is preserved
(so every source column's contents are unchanged), `Build` shares the
source's handle for every untouched key, every touched key gets a fresh
handle distinct from the source's, and every row of a touched column that
was never written still reads the source's value. -/
theorem builder_cow_spec (S : ColumnBatch) (h0 : Heap) (ops : List BuilderOp)
    (bld' : BatchBuilder) (h' : Heap)
    (hwf : BatchWF h0 S) (hset : SetOnly ops)
    (hrun : applyOps (BatchBuilder.ofSource S) h0 ops = .ok (bld', h')) :
    (∃ ext, h' = h0 ++ ext) ∧
    (∀ k, bld'.isModified k = false →
      bld'.build.getColumnPtr k = S.getColumnPtr k) ∧
    (∀ k p, S.getColumnPtr k = some p → heapGet h' p = heapGet h0 p) ∧
    (∀ k, bld'.isModified k = true →
      ∃ p, bld'.build.getColumnPtr k = some p ∧ h0.length ≤ p ∧
        S.getColumnPtr k ≠ some p) ∧
    (∀ k p c, bld'.build.getColumnPtr k = some p → bld'.isModified k = true →
      heapGet h' p = some c →
      ∀ r, r < S.rowCount → lastWrite ops k r = none →
      ∀ cs, batchGetColumn h0 S k = some cs → c.getValue r = cs.getValue r) := by
  have hinv0 : BuilderInv h0 S (BatchBuilder.ofSource S) h0 := by
    refine ⟨rfl, rfl, ⟨[], by simp⟩, ?_, ?_, ?_, ?_⟩
    · intro k
      simp [BatchBuilder.isModified, BatchBuilder.ofSource, List.lookup]
    · simp [BatchBuilder.ofSource]
    · intro k p hp
      simp [BatchBuilder.ofSource, List.lookup] at hp
    · intro k1 p1 k2 p2 h1 h2 hpe
      simp [BatchBuilder.ofSource, List.lookup] at h1
  obtain ⟨hinv', hpres⟩ := applyOps_cow_go h0 S hwf ops (BatchBuilder.ofSource S)
    h0 bld' h' hset hinv0 hrun
  obtain ⟨hsrc', hrow', ⟨ext, hext⟩, hcons', hnd', hderef', hinj'⟩ := hinv'
  refine ⟨⟨ext, hext⟩, ?_, ?_, ?_, ?_⟩
  · intro k hun
    exact build_getColumnPtr_unmodified bld' S k hsrc' hnd' (hcons' k) hun
  · intro k p hp
    obtain ⟨cs, hcs, -⟩ := hwf.1 (k, p) (lookup_mem hp)
    have hlt : p < h0.length := heapGet_lt_length h0 p cs hcs
    rw [hext]
    exact heapGet_prefix h0 ext p hlt
  · intro k hm
    obtain ⟨p, hp⟩ := Option.isSome_iff_exists.mp ((hcons' k).mp hm)
    obtain ⟨hge, -⟩ := hderef' k p hp
    refine ⟨p, build_getColumnPtr_modified bld' k p hnd' hp, hge, ?_⟩
    intro hcontra
    obtain ⟨cs, hcs, -⟩ := hwf.1 (k, p) (lookup_mem hcontra)
    have hlt : p < h0.length := heapGet_lt_length h0 p cs hcs
    exact absurd hlt (not_lt.mpr hge)
  · intro k p c hbp hm hgc r hr hlw cs hcs
    obtain ⟨q, hq⟩ := Option.isSome_iff_exists.mp ((hcons' k).mp hm)
    have hbq := build_getColumnPtr_modified bld' k q hnd' hq
    have hpq : q = p := Option.some.inj (hbq.symm.trans hbp)
    subst hpq
    have hfin : builderRefVal h0 S bld' h' k r = c.getValue r := by
      unfold builderRefVal
      rw [hq]
      dsimp only
      rw [hgc]
    have hinit : builderRefVal h0 S (BatchBuilder.ofSource S) h0 k r =
        cs.getValue r := by
      unfold builderRefVal
      rw [show (BatchBuilder.ofSource S).modifiedCols.lookup k = none from rfl]
      dsimp only
      rw [hcs]
    rw [← hfin, hpres k r hlw, hinit]

/-- **C1 (counterexample).** `AddColumn` may install the source's own column
handle: the key counts as touched, yet after `Build` the output's handle for
it is object-identical to the source's, contradicting the claim that every
touched key's output handle is distinct from the source's. -/
theorem cow_touched_handle_not_distinct :
    ∃ bld' h',
      applyOps (BatchBuilder.ofSource { rowCount := 1, columns := [(5, 0)] })
        [Column.i64 ⟨[1], [false]⟩] [BuilderOp.add 5 0] = .ok (bld', h') ∧
      bld'.isModified 5 = true ∧
      (({ rowCount := 1, columns := [(5, 0)] } : ColumnBatch).getColumnPtr 5).isSome
        = true ∧
      bld'.build.getColumnPtr 5 =
        ({ rowCount := 1, columns := [(5, 0)] } : ColumnBatch).getColumnPtr 5 := by
  refine ⟨_, _, rfl, ?_, ?_, ?_⟩
  · decide
  · decide
  · decide

/-- Witness: a two-row one-column source with a single in-range `set` call
satisfies the hypotheses of `builder_cow_spec`. -/
theorem builder_cow_spec_witness :
    BatchWF [Column.i64 ⟨[7, 8], [false, false]⟩]
      { rowCount := 2, columns := [(1001, 0)] } ∧
    SetOnly [BuilderOp.set 0 1001 (Value.i64V 9)] ∧
    (∃ ext,
      [Column.i64 ⟨[7, 8], [false, false]⟩, Column.i64 ⟨[9, 8], [false, false]⟩] =
        [Column.i64 ⟨[7, 8], [false, false]⟩] ++ ext) :=
  have hwf : BatchWF [Column.i64 ⟨[7, 8], [false, false]⟩]
      { rowCount := 2, columns := [(1001, 0)] } :=
    ⟨by
      intro kv hkv
      rw [List.mem_singleton] at hkv
      subst hkv
      exact ⟨Column.i64 ⟨[7, 8], [false, false]⟩, rfl, by decide⟩,
      by decide⟩
  have hset : SetOnly [BuilderOp.set 0 1001 (Value.i64V 9)] := by
    intro op hop
    rw [List.mem_singleton] at hop
    exact ⟨0, 1001, Value.i64V 9, hop⟩
  have hrun : applyOps
      (BatchBuilder.ofSource { rowCount := 2, columns := [(1001, 0)] })
      [Column.i64 ⟨[7, 8], [false, false]⟩] [BuilderOp.set 0 1001 (Value.i64V 9)] =
      .ok ({ source := some { rowCount := 2, columns := [(1001, 0)] },
             rowCount := 2, modifiedCols := [(1001, 1)], modifiedKeys := [1001] },
        [Column.i64 ⟨[7, 8], [false, false]⟩,
          Column.i64 ⟨[9, 8], [false, false]⟩]) := rfl
  ⟨hwf, hset,
    (builder_cow_spec { rowCount := 2, columns := [(1001, 0)] }
      [Column.i64 ⟨[7, 8], [false, false]⟩] [BuilderOp.set 0 1001 (Value.i64V 9)]
      { source := some { rowCount := 2, columns := [(1001, 0)] },
        rowCount := 2, modifiedCols := [(1001, 1)], modifiedKeys := [1001] }
      [Column.i64 ⟨[7, 8], [false, false]⟩, Column.i64 ⟨[9, 8], [false, false]⟩]
      hwf hset hrun).1⟩

end RankingDsl
